import Mathlib

/-!
# Adaptive meshing engine of G+Smo (`gsAdaptiveMeshing`)

A shallow embedding of the hierarchical refinement / coarsening engine declared in
`src/gsAssembler/gsAdaptiveMeshing.h`.

The header declares the engine; the bodies of its out-of-line members live in
`gsAdaptiveMeshing.hpp`, and the box types in `gsHSplines/gsHBox*.h`, none of which are
among the sources.  Definitions that embed such a missing body follow the written
specification and say so in their doc comment (`Modelled from the spec:`).  Members
whose body is inline in the header (`refine()`, `unrefine()`, the `_mark*` dispatchers)
are translated from the header itself.

Scalars (`T = real_t`) are modelled by `ℚ`: the engine only adds, multiplies and
compares error values.
-/

namespace gismo

/-! ## Boxes and the box comparator -/

/-- Modelled from the spec: the class `gsHBox<2,T>` (gsHSplines/gsHBox.h is missing).
A box has a patch id, a refinement level, an integer lower and upper corner in the
tensor-index space of its level, and a mutable error annotation. -/
structure HBox where
  /-- Patch id. -/
  patch : Int
  /-- Refinement level, `0` is the coarsest. -/
  level : Nat
  /-- Lower corner of the index range. -/
  lower : List Int
  /-- Upper corner of the index range. -/
  upper : List Int
  /-- Error annotation; not part of the identity of the box. -/
  error : ℚ
deriving DecidableEq

/-- Modelled from the spec: structural equality of boxes (the missing `gsHBox::isSame`):
the identity of a box is `(patch, level, lower, upper)`, the error is not part of it. -/
def HBox.isSame (a b : HBox) : Bool :=
  decide (a.patch = b.patch) && decide (a.level = b.level) &&
    decide (a.lower = b.lower) && decide (a.upper = b.upper)

/-- The algorithm `std::lexicographical_compare` on two integer ranges: the first
position where the ranges differ decides; a proper prefix is smaller. -/
def lexicographical_compare : List Int → List Int → Bool
  | _, [] => false
  | [], _ :: _ => true
  | x :: xs, y :: ys =>
    if x < y then true
    else if y < x then false
    else lexicographical_compare xs ys

/-- Modelled from the spec: the comparator `gsHBoxCompare<2,T>` used as key order of
`indexMapType` (gsAssembler/gsAdaptiveMeshingCompare.h is missing).  It orders boxes by
patch, then level, then lower corner lexicographically, then upper corner
lexicographically. -/
def gsHBoxCompare (a b : HBox) : Bool :=
  decide (a.patch < b.patch)
  || (decide (a.patch = b.patch) && decide (a.level < b.level))
  || (decide (a.patch = b.patch) && decide (a.level = b.level)
        && lexicographical_compare a.lower b.lower)
  || (decide (a.patch = b.patch) && decide (a.level = b.level)
        && decide (a.lower = b.lower) && lexicographical_compare a.upper b.upper)

/-! ## Box containers -/

/-- Modelled from the spec: `gsHBoxContainer<2,T>` (gsHSplines/gsHBoxContainer.h is
missing): an ordered set of boxes keyed by the box comparator, in which no two
structurally equal boxes coexist. -/
structure HBoxContainer where
  /-- The boxes of the container, in comparator order. -/
  boxes : List HBox
deriving DecidableEq

/-- Modelled from the spec: the ordered insertion behind `gsHBoxContainer::add`
(gsHSplines/gsHBoxContainer.h is missing).  The boxes are kept in `gsHBoxCompare` order;
inserting a box that is equivalent to a stored one is a no-op (the stored box is kept). -/
def insertBox (b : HBox) : List HBox → List HBox
  | [] => [b]
  | c :: cs =>
    if gsHBoxCompare b c then b :: c :: cs
    else if gsHBoxCompare c b then c :: insertBox b cs
    else c :: cs

/-- Modelled from the spec: `gsHBoxContainer::add`, insertion into the ordered set. -/
def HBoxContainer.add (self : HBoxContainer) (b : HBox) : HBoxContainer :=
  ⟨insertBox b self.boxes⟩

/-- Modelled from the spec: structural membership in a container
(gsHSplines/gsHBoxContainer.h is missing): some stored box has the identity of `b`. -/
def HBoxContainer.contains (self : HBoxContainer) (b : HBox) : Bool :=
  self.boxes.any (fun c => c.isSame b)

/-! ## The external mesh and the index maps -/

/-- Modelled from the spec: an element as the external hierarchical basis enumerates it
(the basis classes are missing): corners and level. -/
structure Element where
  /-- Level of the element. -/
  level : Nat
  /-- Lower corner. -/
  lower : List Int
  /-- Upper corner. -/
  upper : List Int
deriving DecidableEq

/-- Modelled from the spec: the external multi-patch representation
(`gsFunctionSet<T> * m_input`, whose class is missing), reduced to what the engine reads
from it: one element enumeration per patch, patches in order. -/
abbrev Mesh := List (List Element)

/-- Modelled from the spec: the box of an element of patch `p` (the constructor of
`gsHBox` from a domain iterator is missing); its error is not set yet. -/
def Element.toBox (p : Nat) (e : Element) : HBox :=
  { patch := (p : Int), level := e.level, lower := e.lower, upper := e.upper, error := 0 }

/-- Modelled from the spec: the element enumeration that `_makeMap` walks (its body is
missing): all elements of the patches `p, p+1, ...` as boxes, patch-major, each patch in
its own traversal order. -/
def elementsFrom (p : Nat) : Mesh → List HBox
  | [] => []
  | patch :: rest => patch.map (Element.toBox p) ++ elementsFrom (p + 1) rest

/-- The type `indexMapType` (line 45 of the header),
`std::map<gsHBox<2,T>, index_t, gsHBoxCompare<2,T>>`: entries in key order. -/
abbrev indexMapType := List (HBox × Nat)

/-- The type `boxMapType` (line 46 of the header), `std::map<index_t, gsHBox<2,T>*>`:
entries in key order.  The pointer to a box is modelled by the box itself, so this map
is the arena holding the errors. -/
abbrev boxMapType := List (Nat × HBox)

/-- The member `std::map::insert` of `indexMapType`: ordered by `gsHBoxCompare`, an
equivalent key already present blocks the insertion. -/
def indexMapInsert (b : HBox) (i : Nat) : indexMapType → indexMapType
  | [] => [(b, i)]
  | (c, j) :: rest =>
    if gsHBoxCompare b c then (b, i) :: (c, j) :: rest
    else if gsHBoxCompare c b then (c, j) :: indexMapInsert b i rest
    else (c, j) :: rest

/-- The member `std::map::find` of `indexMapType`: the value stored under the key that
is equivalent to `b` under the comparator. -/
def indexOf (m : indexMapType) (b : HBox) : Option Nat :=
  match m with
  | [] => none
  | (c, j) :: rest =>
    if !gsHBoxCompare b c && !gsHBoxCompare c b then some j else indexOf rest b

/-- The member `std::map::insert` of `boxMapType`: ordered by index, a key already
present blocks the insertion. -/
def boxMapInsert (i : Nat) (b : HBox) : boxMapType → boxMapType
  | [] => [(i, b)]
  | (j, c) :: rest =>
    if i < j then (i, b) :: (j, c) :: rest
    else if j < i then (j, c) :: boxMapInsert i b rest
    else (j, c) :: rest

/-- The member `std::map::find` of `boxMapType`. -/
def boxOf (m : boxMapType) (i : Nat) : Option HBox :=
  match m with
  | [] => none
  | (j, c) :: rest => if j = i then some c else boxOf rest i

/-- Modelled from the spec: the loop of `_makeMap` (its body is missing): every
enumerated box gets the next free index `c` and is entered in both maps. -/
def _makeMapLoop : List HBox → Nat → indexMapType × boxMapType → indexMapType × boxMapType
  | [], _, maps => maps
  | b :: bs, c, (indexMap, boxMap) =>
    _makeMapLoop bs (c + 1) (indexMapInsert b c indexMap, boxMapInsert c b boxMap)

/-- Modelled from the spec: the body of `gsAdaptiveMeshing::_makeMap` (declared at
line 91 of the header, defined in the missing gsAdaptiveMeshing.hpp).  It walks the
patches in order and each patch in its own element order, and builds the two maps
box → index and index → box. -/
def _makeMap (input : Mesh) : indexMapType × boxMapType :=
  _makeMapLoop (elementsFrom 0 input) 0 ([], [])

/-- Modelled from the spec: the setter of the error annotation of a box (gsHBox.h is
missing); no other attribute changes. -/
def HBox.setError (b : HBox) (e : ℚ) : HBox := { b with error := e }

/-- Modelled from the spec: one step of `_assignErrors` (its body is missing): the
error `e` is written onto the box stored under index `k`. -/
def boxMapSetError (k : Nat) (e : ℚ) : boxMapType → boxMapType
  | [] => []
  | (i, b) :: rest =>
    if i = k then (i, b.setError e) :: rest else (i, b) :: boxMapSetError k e rest

/-- Modelled from the spec: the loop of `_assignErrors` (its body is missing): the
errors are written in vector order, entry `k` of the vector onto the box with index `k`. -/
def _assignErrorsLoop (k : Nat) : List ℚ → boxMapType → boxMapType
  | [], container => container
  | e :: es, container => _assignErrorsLoop (k + 1) es (boxMapSetError k e container)

/-- Modelled from the spec: the body of `gsAdaptiveMeshing::_assignErrors` (declared at
line 93 of the header, defined in the missing gsAdaptiveMeshing.hpp).  A vector whose
length is not the number of elements is rejected with a length-mismatch error. -/
def _assignErrors (container : boxMapType) (elError : List ℚ) : Except String boxMapType :=
  if elError.length ≠ container.length then
    Except.error "The number of errors must be the same as the number of elements"
  else
    Except.ok (_assignErrorsLoop 0 elError container)

/-! ## Marking policies -/

/-- The enumeration `MarkingStrategy` of gsAdaptiveRefUtils.h, as quoted in the comment
at lines 30-35 of the header: `GARU = 1` (threshold), `PUCA = 2` (percentage),
`BULK = 3` (fraction). -/
inductive MarkingStrategy where
  | GARU
  | PUCA
  | BULK
deriving DecidableEq

/-- Modelled from the spec: a predicate object `gsHBoxCheck<2,T>`
(gsAdaptiveMeshingCompare.h is missing): a boolean check on a box. -/
abbrev gsHBoxCheck := HBox → Bool

/-- Modelled from the spec: the body of `_checkBox` (declared at line 179): a box passes
when every predicate accepts it. -/
def _checkBox (box : HBox) (predicates : List gsHBoxCheck) : Bool :=
  predicates.all (fun check => check box)

/-- Modelled from the spec: the body of `_checkBoxes` (declared at line 180). -/
def _checkBoxes (boxes : List HBox) (predicates : List gsHBoxCheck) : Bool :=
  boxes.all (fun box => _checkBox box predicates)

/-- Modelled from the spec: the candidate set of a marking pass (§4.4; the bodies of
the marking members are missing): the elements no predicate excludes. -/
def candidates (elements : boxMapType) (predicates : List gsHBoxCheck) : boxMapType :=
  elements.filter (fun x => _checkBox x.2 predicates)

/-- Modelled from the spec: the body of `_totalError` (declared at line 182): the sum of
the errors of the given elements. -/
def _totalError (elements : boxMapType) : ℚ :=
  (elements.map (fun x => x.2.error)).sum

/-- Modelled from the spec: the body of `_maxError` (declared at line 184): the maximum
of the errors of the given elements (`0` when there is none). -/
def _maxError : boxMapType → ℚ
  | [] => 0
  | x :: rest => rest.foldl (fun acc y => max acc y.2.error) x.2.error

/-- Modelled from the spec: the comparator `gsLargerErrCompare` named at lines 267-270
of the header: error descending, the box comparator breaks ties. -/
def gsLargerErrCompare (a b : HBox) : Bool :=
  decide (b.error < a.error) || (decide (a.error = b.error) && gsHBoxCompare a b)

/-- Modelled from the spec: the comparator `gsSmallerErrCompare` named at lines 262-265
of the header: error ascending, the box comparator breaks ties. -/
def gsSmallerErrCompare (a b : HBox) : Bool :=
  decide (a.error < b.error) || (decide (a.error = b.error) && gsHBoxCompare a b)

/-- Insertion of `b` into a list sorted under the strict comparator `cmp`. -/
def orderedInsertBox (cmp : HBox → HBox → Bool) (b : HBox) : List HBox → List HBox
  | [] => [b]
  | c :: cs => if cmp b c then b :: c :: cs else c :: orderedInsertBox cmp b cs

/-- Sorting under a strict comparator (`std::sort` with a comparator object). -/
def sortBoxes (cmp : HBox → HBox → Bool) : List HBox → List HBox
  | [] => []
  | b :: bs => orderedInsertBox cmp b (sortBoxes cmp bs)

/-- Modelled from the spec: the candidates in marking order (§4.4; the body of
`_sortPermutation` is missing): error descending for refinement, ascending for
coarsening, ties broken by the box comparator.  The header passes this order around as
a permutation vector of indices; the embedding passes the sorted boxes themselves. -/
def sortedCandidates (coarsen : Bool) (cands : boxMapType) : List HBox :=
  sortBoxes (if coarsen then gsSmallerErrCompare else gsLargerErrCompare)
    (cands.map Prod.snd)

/-- Modelled from the spec: the accumulation loop of the fraction rule (the body of
`_markFraction_impl` is missing): boxes are marked in the given order until the
accumulated error `cum` has reached `target`.  The test precedes the marking, so nothing
is marked once the target is reached; this is the reading under which the marked sum is
the smallest leading sum that is at least the target (§8, fraction coverage). -/
def accumulateUntil (target : ℚ) : List HBox → ℚ → List HBox
  | [], _ => []
  | b :: bs, cum =>
    if target ≤ cum then [] else b :: accumulateUntil target bs (cum + b.error)

/-- Modelled from the spec: the selection of the fraction (cumulative) rule on a
candidate set: accumulate the error in sorted order and mark every element up to and
including the first one at which the accumulated sum reaches
`refParameter * totalError`. -/
def fractionSelect (coarsen : Bool) (cands : boxMapType) (refParameter : ℚ) : List HBox :=
  accumulateUntil (refParameter * _totalError cands) (sortedCandidates coarsen cands) 0

/-- Modelled from the spec: the selection of the percentage rule on a candidate set: the
leading `refParameter` fraction of the candidate count in sorted order, the count being
rounded down. -/
def percentageSelect (coarsen : Bool) (cands : boxMapType) (refParameter : ℚ) : List HBox :=
  (sortedCandidates coarsen cands).take (Int.toNat ⌊refParameter * (cands.length : ℚ)⌋)

/-- Modelled from the spec: the selection of the threshold rule on a candidate set: every
candidate whose error exceeds (refinement) or is below (coarsening)
`refParameter * maxError`. -/
def thresholdSelect (coarsen : Bool) (cands : boxMapType) (refParameter : ℚ) : List HBox :=
  (sortedCandidates coarsen cands).filter (fun b =>
    if coarsen then decide (b.error < refParameter * _maxError cands)
    else decide (refParameter * _maxError cands < b.error))

/-! ## Admissibility closure -/

/-- Modelled from the spec: one round of the refinement closure of §4.5 (the bodies of
the admissible overloads are missing): the neighbours `n` of a marked box `b` that are
not marked and whose level would differ by more than `m` from the level `b.level + 1`
that `b` has after refinement. -/
def refViolators (neighbors : HBox → List HBox) (m : Nat) (marked : List HBox) : List HBox :=
  marked.flatMap (fun b => (neighbors b).filter (fun n =>
    decide (n.level + m < b.level + 1) && !marked.any (fun s => s.isSame n)))

/-- Modelled from the spec: the admissibility closure for refinement (§4.5): violating
neighbours are added to the working set and the check repeats until nothing is added;
`fuel` bounds the number of rounds. -/
def closureRef (neighbors : HBox → List HBox) (m : Nat) : Nat → List HBox → List HBox
  | 0, marked => marked
  | fuel + 1, marked =>
    match refViolators neighbors m marked with
    | [] => marked
    | v :: vs => closureRef neighbors m fuel (marked ++ v :: vs)

/-- Modelled from the spec: the coarsening check of §4.5 for one box `b` against its
neighbours (the bodies of the admissible overloads are missing): after the pass a
neighbour has level `n.level - 1` when it is marked for coarsening too and `n.level`
otherwise; it may not exceed the new level `b.level - 1` of `b` by more than `m`. -/
def crsAdmissible (neighbors : HBox → List HBox) (m : Nat) (marked : List HBox)
    (b : HBox) : Bool :=
  (neighbors b).all (fun n =>
    decide ((if marked.any (fun s => s.isSame n) then n.level - 1 else n.level) + 1
      ≤ b.level + m))

/-- Modelled from the spec: the admissibility closure for coarsening (§4.5): a box whose
coarsening would break the bounded jump is dropped from the set, not propagated; the
check repeats until nothing is dropped. -/
def closureCrs (neighbors : HBox → List HBox) (m : Nat) : Nat → List HBox → List HBox
  | 0, marked => marked
  | fuel + 1, marked =>
    if (marked.filter (crsAdmissible neighbors m marked)).length = marked.length then marked
    else closureCrs neighbors m fuel (marked.filter (crsAdmissible neighbors m marked))

/-! ## The engine -/

/-- Modelled from the spec: the capabilities of the external hierarchical representation
that the engine uses besides the element enumeration (§6; the basis classes are
missing): the neighbour query, the subdivide-one-level operation and the merge-to-parent
operation, keyed by box identity.  They are parameters of the embedding. -/
structure External where
  /-- The elements adjacent to a box across a shared face, at any level. -/
  neighbors : Mesh → HBox → List HBox
  /-- Subdivides the element with the identity of the box into its children. -/
  subdivide : Mesh → HBox → Mesh
  /-- Merges the element with the identity of the box into its parent. -/
  mergeToParent : Mesh → HBox → Mesh

/-- The data members of `gsAdaptiveMeshing<T>` (lines 202-221 of the header). -/
structure gsAdaptiveMeshing where
  /-- The external representation the engine works on. -/
  m_input : Mesh
  /-- Coarsening parameter. -/
  m_crsParam : ℚ
  /-- Refinement parameter. -/
  m_refParam : ℚ
  /-- Coarsening rule. -/
  m_crsRule : MarkingStrategy
  /-- Refinement rule. -/
  m_refRule : MarkingStrategy
  /-- Coarsening extension. -/
  m_crsExt : Nat
  /-- Refinement extension. -/
  m_refExt : Nat
  /-- Maximum level. -/
  m_maxLvl : Nat
  /-- Jump parameter. -/
  m_m : Nat
  /-- Admissibility switch. -/
  m_admissible : Bool
  /-- The standing refinement container. -/
  m_markedRef : HBoxContainer
  /-- The standing coarsening container. -/
  m_markedCrs : HBoxContainer
  /-- The map box → index. -/
  m_indices : indexMapType
  /-- The map index → box. -/
  m_boxes : boxMapType

/-- Modelled from the spec: the body of `_addAndMark` for a sequence of boxes (declared
at lines 186-187): every box is added to the container. -/
def _addAndMark (boxes : List HBox) (elMarked : HBoxContainer) : HBoxContainer :=
  boxes.foldl (fun acc b => acc.add b) elMarked

/-- Modelled from the spec: the body of `_refPredicates_into` (declared at line 111): the
level-bound predicate, which excludes boxes already at the maximum level. -/
def _refPredicates_into (self : gsAdaptiveMeshing) : List gsHBoxCheck :=
  [fun b => decide (b.level < self.m_maxLvl)]

/-- Modelled from the spec: the body of `_crsPredicates_into(predicates)` (declared at
line 109): the level-bound predicate, which excludes boxes at level 0. -/
def _crsPredicates_into (_self : gsAdaptiveMeshing) : List gsHBoxCheck :=
  [fun b => decide (0 < b.level)]

/-- Modelled from the spec: the body of `_crsPredicates_into(markedRef, predicates)`
(declared at line 110): the level-bound predicate and the opposing-set predicate, which
excludes every box structurally present in the refinement marking. -/
def _crsPredicates_into_markedRef (_self : gsAdaptiveMeshing) (markedRef : HBoxContainer) :
    List gsHBoxCheck :=
  [fun b => decide (0 < b.level), fun b => !markedRef.contains b]

/-- Modelled from the spec: the overload of `_markFraction_impl` enabled for
`!_coarsen && !_admissible` (declared at lines 133-135). -/
def _markFraction_impl_ref_plain (elements : boxMapType) (refParameter : ℚ)
    (predicates : List gsHBoxCheck) (elMarked : HBoxContainer) : HBoxContainer :=
  _addAndMark (fractionSelect false (candidates elements predicates) refParameter) elMarked

/-- Modelled from the spec: the overload of `_markFraction_impl` enabled for
`!_coarsen && _admissible` (declared at lines 129-131). -/
def _markFraction_impl_ref_adm (ext : External) (self : gsAdaptiveMeshing)
    (elements : boxMapType) (refParameter : ℚ) (predicates : List gsHBoxCheck)
    (elMarked : HBoxContainer) : HBoxContainer :=
  _addAndMark (closureRef (ext.neighbors self.m_input) self.m_m (self.m_maxLvl + 1)
    (fractionSelect false (candidates elements predicates) refParameter)) elMarked

/-- Modelled from the spec: the overload of `_markFraction_impl` enabled for
`_coarsen && !_admissible` (declared at lines 125-127). -/
def _markFraction_impl_crs_plain (elements : boxMapType) (refParameter : ℚ)
    (predicates : List gsHBoxCheck) (elMarked : HBoxContainer) : HBoxContainer :=
  _addAndMark (fractionSelect true (candidates elements predicates) refParameter) elMarked

/-- Modelled from the spec: the overload of `_markFraction_impl` enabled for
`_coarsen && _admissible` (declared at lines 121-123). -/
def _markFraction_impl_crs_adm (ext : External) (self : gsAdaptiveMeshing)
    (elements : boxMapType) (refParameter : ℚ) (predicates : List gsHBoxCheck)
    (elMarked : HBoxContainer) : HBoxContainer :=
  _addAndMark (closureCrs (ext.neighbors self.m_input) self.m_m elements.length
    (fractionSelect true (candidates elements predicates) refParameter)) elMarked

/-- The dispatcher `_markFraction<_coarsen,_admissible>` (lines 116-120 of the header):
it forwards to the overload of `_markFraction_impl` that the template flags enable. -/
def _markFraction (coarsen admissible : Bool) (ext : External) (self : gsAdaptiveMeshing)
    (elements : boxMapType) (refParameter : ℚ) (predicates : List gsHBoxCheck)
    (elMarked : HBoxContainer) : HBoxContainer :=
  match coarsen, admissible with
  | true, true => _markFraction_impl_crs_adm ext self elements refParameter predicates elMarked
  | true, false => _markFraction_impl_crs_plain elements refParameter predicates elMarked
  | false, true => _markFraction_impl_ref_adm ext self elements refParameter predicates elMarked
  | false, false => _markFraction_impl_ref_plain elements refParameter predicates elMarked

/-- Modelled from the spec: the overload of `_markPercentage_impl` enabled for
`!_coarsen && !_admissible` (declared at lines 154-156). -/
def _markPercentage_impl_ref_plain (elements : boxMapType) (refParameter : ℚ)
    (predicates : List gsHBoxCheck) (elMarked : HBoxContainer) : HBoxContainer :=
  _addAndMark (percentageSelect false (candidates elements predicates) refParameter) elMarked

/-- Modelled from the spec: the overload of `_markPercentage_impl` enabled for
`!_coarsen && _admissible` (declared at lines 150-152). -/
def _markPercentage_impl_ref_adm (ext : External) (self : gsAdaptiveMeshing)
    (elements : boxMapType) (refParameter : ℚ) (predicates : List gsHBoxCheck)
    (elMarked : HBoxContainer) : HBoxContainer :=
  _addAndMark (closureRef (ext.neighbors self.m_input) self.m_m (self.m_maxLvl + 1)
    (percentageSelect false (candidates elements predicates) refParameter)) elMarked

/-- Modelled from the spec: the overload of `_markPercentage_impl` enabled for
`_coarsen && !_admissible` (declared at lines 146-148). -/
def _markPercentage_impl_crs_plain (elements : boxMapType) (refParameter : ℚ)
    (predicates : List gsHBoxCheck) (elMarked : HBoxContainer) : HBoxContainer :=
  _addAndMark (percentageSelect true (candidates elements predicates) refParameter) elMarked

/-- Modelled from the spec: the overload of `_markPercentage_impl` enabled for
`_coarsen && _admissible` (declared at lines 142-144). -/
def _markPercentage_impl_crs_adm (ext : External) (self : gsAdaptiveMeshing)
    (elements : boxMapType) (refParameter : ℚ) (predicates : List gsHBoxCheck)
    (elMarked : HBoxContainer) : HBoxContainer :=
  _addAndMark (closureCrs (ext.neighbors self.m_input) self.m_m elements.length
    (percentageSelect true (candidates elements predicates) refParameter)) elMarked

/-- The dispatcher `_markPercentage<_coarsen,_admissible>` (lines 137-141). -/
def _markPercentage (coarsen admissible : Bool) (ext : External) (self : gsAdaptiveMeshing)
    (elements : boxMapType) (refParameter : ℚ) (predicates : List gsHBoxCheck)
    (elMarked : HBoxContainer) : HBoxContainer :=
  match coarsen, admissible with
  | true, true =>
    _markPercentage_impl_crs_adm ext self elements refParameter predicates elMarked
  | true, false => _markPercentage_impl_crs_plain elements refParameter predicates elMarked
  | false, true =>
    _markPercentage_impl_ref_adm ext self elements refParameter predicates elMarked
  | false, false => _markPercentage_impl_ref_plain elements refParameter predicates elMarked

/-- Modelled from the spec: the overload of `_markThreshold_impl` enabled for
`!_coarsen && !_admissible` (declared at lines 175-177). -/
def _markThreshold_impl_ref_plain (elements : boxMapType) (refParameter : ℚ)
    (predicates : List gsHBoxCheck) (elMarked : HBoxContainer) : HBoxContainer :=
  _addAndMark (thresholdSelect false (candidates elements predicates) refParameter) elMarked

/-- Modelled from the spec: the overload of `_markThreshold_impl` enabled for
`!_coarsen && _admissible` (declared at lines 171-173). -/
def _markThreshold_impl_ref_adm (ext : External) (self : gsAdaptiveMeshing)
    (elements : boxMapType) (refParameter : ℚ) (predicates : List gsHBoxCheck)
    (elMarked : HBoxContainer) : HBoxContainer :=
  _addAndMark (closureRef (ext.neighbors self.m_input) self.m_m (self.m_maxLvl + 1)
    (thresholdSelect false (candidates elements predicates) refParameter)) elMarked

/-- Modelled from the spec: the overload of `_markThreshold_impl` enabled for
`_coarsen && !_admissible` (declared at lines 167-169). -/
def _markThreshold_impl_crs_plain (elements : boxMapType) (refParameter : ℚ)
    (predicates : List gsHBoxCheck) (elMarked : HBoxContainer) : HBoxContainer :=
  _addAndMark (thresholdSelect true (candidates elements predicates) refParameter) elMarked

/-- Modelled from the spec: the overload of `_markThreshold_impl` enabled for
`_coarsen && _admissible` (declared at lines 163-165). -/
def _markThreshold_impl_crs_adm (ext : External) (self : gsAdaptiveMeshing)
    (elements : boxMapType) (refParameter : ℚ) (predicates : List gsHBoxCheck)
    (elMarked : HBoxContainer) : HBoxContainer :=
  _addAndMark (closureCrs (ext.neighbors self.m_input) self.m_m elements.length
    (thresholdSelect true (candidates elements predicates) refParameter)) elMarked

/-- The dispatcher `_markThreshold<_coarsen,_admissible>` (lines 158-162). -/
def _markThreshold (coarsen admissible : Bool) (ext : External) (self : gsAdaptiveMeshing)
    (elements : boxMapType) (refParameter : ℚ) (predicates : List gsHBoxCheck)
    (elMarked : HBoxContainer) : HBoxContainer :=
  match coarsen, admissible with
  | true, true =>
    _markThreshold_impl_crs_adm ext self elements refParameter predicates elMarked
  | true, false => _markThreshold_impl_crs_plain elements refParameter predicates elMarked
  | false, true =>
    _markThreshold_impl_ref_adm ext self elements refParameter predicates elMarked
  | false, false => _markThreshold_impl_ref_plain elements refParameter predicates elMarked

/-- Modelled from the spec: the body of `_markElements<_coarsen,_admissible>` (declared at
lines 113-114): the rule selects the policy, which is run on the elements of the index
map. -/
def _markElements (coarsen admissible : Bool) (ext : External) (self : gsAdaptiveMeshing)
    (refCriterion : MarkingStrategy) (refParameter : ℚ) (predicates : List gsHBoxCheck)
    (elMarked : HBoxContainer) : HBoxContainer :=
  match refCriterion with
  | MarkingStrategy.GARU =>
    _markThreshold coarsen admissible ext self self.m_boxes refParameter predicates elMarked
  | MarkingStrategy.PUCA =>
    _markPercentage coarsen admissible ext self self.m_boxes refParameter predicates elMarked
  | MarkingStrategy.BULK =>
    _markFraction coarsen admissible ext self self.m_boxes refParameter predicates elMarked

/-- Modelled from the spec: the body of `markRef_into` (declared at line 64): the errors
are assigned, then the refinement rule is run with the refinement predicates into a
fresh container.  The result is the engine with the assigned errors and the container. -/
def markRef_into (ext : External) (self : gsAdaptiveMeshing) (elError : List ℚ) :
    Except String (gsAdaptiveMeshing × HBoxContainer) :=
  match _assignErrors self.m_boxes elError with
  | Except.error msg => Except.error msg
  | Except.ok boxes =>
    Except.ok ({ self with m_boxes := boxes },
      _markElements false self.m_admissible ext { self with m_boxes := boxes }
        self.m_refRule self.m_refParam (_refPredicates_into self) ⟨[]⟩)

/-- Modelled from the spec: the body of `markCrs_into(elError, markedRef, elMarked)`
(declared at line 66): as `markRef_into`, with the coarsening rule and the coarsening
predicates, among them the opposing-set predicate for `markedRef`. -/
def markCrs_into (ext : External) (self : gsAdaptiveMeshing) (elError : List ℚ)
    (markedRef : HBoxContainer) : Except String (gsAdaptiveMeshing × HBoxContainer) :=
  match _assignErrors self.m_boxes elError with
  | Except.error msg => Except.error msg
  | Except.ok boxes =>
    Except.ok ({ self with m_boxes := boxes },
      _markElements true self.m_admissible ext { self with m_boxes := boxes }
        self.m_crsRule self.m_crsParam (_crsPredicates_into_markedRef self markedRef) ⟨[]⟩)

/-- Modelled from the spec: the body of `markCrs_into(elError, elMarked)` (declared at
line 67): coarsening marking without a refinement marking to avoid. -/
def markCrs_into_plain (ext : External) (self : gsAdaptiveMeshing) (elError : List ℚ) :
    Except String (gsAdaptiveMeshing × HBoxContainer) :=
  match _assignErrors self.m_boxes elError with
  | Except.error msg => Except.error msg
  | Except.ok boxes =>
    Except.ok ({ self with m_boxes := boxes },
      _markElements true self.m_admissible ext { self with m_boxes := boxes }
        self.m_crsRule self.m_crsParam (_crsPredicates_into self) ⟨[]⟩)

/-- Modelled from the spec: structural presence of a box among the elements of the
current mesh, the test behind "not found in the current mesh" of §4.6. -/
def meshContains (input : Mesh) (b : HBox) : Bool :=
  (elementsFrom 0 input).any (fun e => e.isSame b)

/-- Modelled from the spec: the body of `refine(const HBoxContainer &)` (declared at
line 72): every box of the container that is found in the mesh and below the maximum
level is subdivided; the result is `false` when some box was rejected. -/
def refine (ext : External) (self : gsAdaptiveMeshing) (markedRef : HBoxContainer) :
    Bool × gsAdaptiveMeshing :=
  markedRef.boxes.foldl (fun acc b =>
    if meshContains acc.2.m_input b && decide (b.level < acc.2.m_maxLvl) then
      (acc.1, { acc.2 with m_input := ext.subdivide acc.2.m_input b })
    else (false, acc.2)) (true, self)

/-- Modelled from the spec: the body of `unrefine(const HBoxContainer &)` (declared at
line 73): every box of the container that is found in the mesh and above level 0 is
merged into its parent; the result is `false` when some box was rejected. -/
def unrefine (ext : External) (self : gsAdaptiveMeshing) (markedCrs : HBoxContainer) :
    Bool × gsAdaptiveMeshing :=
  markedCrs.boxes.foldl (fun acc b =>
    if meshContains acc.2.m_input b && decide (0 < b.level) then
      (acc.1, { acc.2 with m_input := ext.mergeToParent acc.2.m_input b })
    else (false, acc.2)) (true, self)

/-- The overload `bool refine() { return refine(m_markedRef); }` (line 78). -/
def refine_noarg (ext : External) (self : gsAdaptiveMeshing) : Bool × gsAdaptiveMeshing :=
  refine ext self self.m_markedRef

/-- The overload `bool unrefine() { return unrefine(m_markedRef); }` (line 79). -/
def unrefine_noarg (ext : External) (self : gsAdaptiveMeshing) : Bool × gsAdaptiveMeshing :=
  unrefine ext self self.m_markedRef

/-- Modelled from the spec: the body of `rebuild` (declared at line 61): the index maps
are recomputed from the current external representation. -/
def rebuild (self : gsAdaptiveMeshing) : gsAdaptiveMeshing :=
  { self with m_indices := (_makeMap self.m_input).1, m_boxes := (_makeMap self.m_input).2 }

/-! ## A dyadic instance of the external representation

The examples below need concrete external capabilities.  Level `l + 1` halves the cells
of level `l`: the index range `[lo, up)` of level `l` is `[2 lo, 2 up)` at level `l + 1`. -/

/-- Modelled from the spec: the corners of the children of the range `[lower, upper)`
(the hierarchical basis is missing), in the index space of the next level: every axis is
cut at its midpoint `lower + upper`. -/
def childCorners : List Int → List Int → List (List Int × List Int)
  | l :: ls, u :: us =>
    (childCorners ls us).flatMap (fun c =>
      [((2 * l) :: c.1, (l + u) :: c.2), ((l + u) :: c.1, (2 * u) :: c.2)])
  | _, _ => [([], [])]

/-- Modelled from the spec: the children of an element, at `level + 1` (§4.6). -/
def Element.children (e : Element) : List Element :=
  (childCorners e.lower e.upper).map (fun c => ⟨e.level + 1, c.1, c.2⟩)

/-- Modelled from the spec: the parent of an element of level `l > 0` (§4.6): the cell of
level `l - 1` around it. -/
def Element.parent (e : Element) : Element :=
  ⟨e.level - 1, e.lower.map (fun x => x / 2), e.upper.map (fun x => (x + 1) / 2)⟩

/-- Modelled from the spec: the subdivide-one-level operation of the external
representation (§6), on the element with the identity of `b`; patches are counted from
`p`. -/
def dyadicSubdivide (p : Nat) : Mesh → HBox → Mesh
  | [], _ => []
  | patch :: rest, b =>
    patch.flatMap (fun e => if (e.toBox p).isSame b then e.children else [e])
      :: dyadicSubdivide (p + 1) rest b

/-- Modelled from the spec: the merge-to-parent operation of the external representation
(§6): the element with the identity of `b` and its siblings are replaced by their
parent; patches are counted from `p`. -/
def dyadicMerge (p : Nat) : Mesh → HBox → Mesh
  | [], _ => []
  | patch :: rest, b =>
    (if patch.any (fun e => (e.toBox p).isSame b) then
      (⟨b.level, b.lower, b.upper⟩ : Element).parent ::
        patch.filter (fun e => !(decide (e.level = b.level) &&
          decide (e.parent = (⟨b.level, b.lower, b.upper⟩ : Element).parent)))
    else patch) :: dyadicMerge (p + 1) rest b

/-- Modelled from the spec: adjacency of two boxes of one patch (§6, neighbour query):
brought to the finer of the two levels, their closed index ranges meet on every axis. -/
def touches (a b : HBox) : Bool :=
  decide (a.patch = b.patch) && !a.isSame b &&
    (List.zip (List.zip a.lower a.upper) (List.zip b.lower b.upper)).all (fun c =>
      decide (c.1.1 * 2 ^ (max a.level b.level - a.level)
          ≤ c.2.2 * 2 ^ (max a.level b.level - b.level)) &&
      decide (c.2.1 * 2 ^ (max a.level b.level - b.level)
          ≤ c.1.2 * 2 ^ (max a.level b.level - a.level)))

/-- Modelled from the spec: the dyadic instance of the external capabilities, used by
the examples. -/
def dyadic : External where
  neighbors := fun input b => (elementsFrom 0 input).filter (fun e => touches b e)
  subdivide := dyadicSubdivide 0
  mergeToParent := dyadicMerge 0

/-- A 2 × 2 level-0 mesh whose lower left cell has been subdivided once: four elements
of level 1 followed by three elements of level 0. -/
def gradedMesh : Mesh :=
  [[⟨1, [0, 0], [1, 1]⟩, ⟨1, [1, 0], [2, 1]⟩, ⟨1, [0, 1], [1, 2]⟩, ⟨1, [1, 1], [2, 2]⟩,
    ⟨0, [1, 0], [2, 1]⟩, ⟨0, [0, 1], [1, 2]⟩, ⟨0, [1, 1], [2, 2]⟩]]

/-- An engine on `gradedMesh` with maximum level 1, after `rebuild`: threshold rule for
refinement with parameter `1/2`, threshold rule for coarsening with parameter `1/2`. -/
def gradedEngine (admissible : Bool) : gsAdaptiveMeshing :=
  rebuild
    { m_input := gradedMesh, m_crsParam := 1 / 2, m_refParam := 1 / 2,
      m_crsRule := MarkingStrategy.GARU, m_refRule := MarkingStrategy.GARU,
      m_crsExt := 0, m_refExt := 0, m_maxLvl := 1, m_m := 2, m_admissible := admissible,
      m_markedRef := ⟨[]⟩, m_markedCrs := ⟨[]⟩, m_indices := [], m_boxes := [] }

/-- An error vector for `gradedMesh`: the largest error sits on a box of level 1. -/
def gradedErrors : List ℚ := [1000, 1, 2, 3, 10, 20, 30]

/-- The mesh of the scenarios of the specification: a single patch with a uniform
level-0 mesh of four elements. -/
def uniformMesh4 : Mesh :=
  [[⟨0, [0, 0], [1, 1]⟩, ⟨0, [1, 0], [2, 1]⟩, ⟨0, [0, 1], [1, 2]⟩, ⟨0, [1, 1], [2, 2]⟩]]

/-- The index → box map of the uniform four-element mesh after the error vector
`[1, 10, 100, 1000]` of the scenarios has been assigned. -/
def scenarioBoxes : boxMapType :=
  [(0, ⟨0, 0, [0, 0], [1, 1], 1⟩), (1, ⟨0, 0, [1, 0], [2, 1], 10⟩),
   (2, ⟨0, 0, [0, 1], [1, 2], 100⟩), (3, ⟨0, 0, [1, 1], [2, 2], 1000⟩)]

/-- An engine state on `gradedMesh` whose standing refinement container holds the box
of level 1 at the origin and whose standing coarsening container is empty. -/
def refMarkedEngine : gsAdaptiveMeshing :=
  { gradedEngine false with
    m_markedRef := ⟨[⟨0, 1, [0, 0], [1, 1], 1000⟩]⟩, m_markedCrs := ⟨[]⟩ }

/-- An engine state on `gradedMesh` whose standing refinement container holds the box
of level 0 in the upper right corner. -/
def cornerMarkedEngine : gsAdaptiveMeshing :=
  { gradedEngine false with m_markedRef := ⟨[⟨0, 0, [1, 1], [2, 2], 30⟩]⟩ }

/-! ## The weight mapper (`gsWeightMapper`)

The class is defined in `src/gsMSplines/gsWeightMapper.h`; its inline members are
translated from that header.  The sparse matrix type it stores and the members defined
in `gsWeightMapper.hpp` are not among the sources. -/

/-- A pointer into one of the arrays of a sparse matrix: `NULL`, or the base of the
array plus an offset counted in elements. -/
inductive Ptr where
  | null
  | at (offset : Int)
deriving DecidableEq

/-- Pointer arithmetic `p + a`. -/
def Ptr.add (p : Ptr) (a : Int) : Ptr :=
  match p with
  | Ptr.null => Ptr.null
  | Ptr.at k => Ptr.at (k + a)

/-- The comparison `p < q` of two pointers into one array. -/
def Ptr.lt (p q : Ptr) : Bool :=
  match p, q with
  | Ptr.at a, Ptr.at b => decide (a < b)
  | _, _ => false

/-- The comparison `p >= q` of two pointers into one array. -/
def Ptr.ge (p q : Ptr) : Bool :=
  match p, q with
  | Ptr.at a, Ptr.at b => decide (b ≤ a)
  | Ptr.null, Ptr.null => true
  | _, _ => false

/-- The test `p ? ... : ...` of a pointer: it is not `NULL`. -/
def Ptr.isSet (p : Ptr) : Bool :=
  match p with
  | Ptr.null => false
  | Ptr.at _ => true

/-- Reading through a pointer into the array `mem`; nothing is read outside the array. -/
def Ptr.read {α : Type} (mem : List α) (p : Ptr) : Option α :=
  match p with
  | Ptr.null => none
  | Ptr.at k => if 0 ≤ k then mem[k.toNat]? else none

/-- Modelled from the spec: the type `gsSparseMatrix<weightType, ordering, indexType>`
(gsCore/gsSparseMatrix.h, a compressed-storage sparse matrix, is missing and the
specification treats it as an external collaborator).  The model keeps what the inline
code of the mapper uses: the stored entries of every outer vector (a row of a row-major
matrix, a column of a column-major one) as pairs of inner index and value in storage
order, the inner dimension, and the compressed-mode flag. -/
structure gsSparseMatrix where
  /-- The stored entries of the outer vectors. -/
  outer : List (List (Int × ℚ))
  /-- The inner dimension. -/
  innerSize : Nat
  /-- The mode flag returned by `isCompressed()`. -/
  isCompressed : Bool
deriving DecidableEq

/-- The row-major matrix type `LToGMatrix` (line 29 of the header). -/
abbrev LToGMatrix := gsSparseMatrix

/-- The column-major matrix type `GToLMatrix` (line 30 of the header). -/
abbrev GToLMatrix := gsSparseMatrix

/-- Modelled from the spec: `rows()` of a row-major matrix (gsSparseMatrix.h is missing):
the number of outer vectors. -/
def gsSparseMatrix.rows (m : gsSparseMatrix) : Int := (m.outer.length : Int)

/-- Modelled from the spec: `cols()` of a row-major matrix (gsSparseMatrix.h is missing):
the inner dimension. -/
def gsSparseMatrix.cols (m : gsSparseMatrix) : Int := (m.innerSize : Int)

/-- Reading the coefficient with inner index `j` in one outer vector: the stored value,
`0` when nothing is stored. -/
def innerRead (j : Int) : List (Int × ℚ) → ℚ
  | [] => 0
  | (k, v) :: rest => if k = j then v else innerRead j rest

/-- Writing the coefficient with inner index `j` in one outer vector: a stored entry is
overwritten, otherwise a new entry is inserted before the first larger inner index. -/
def innerWrite (j : Int) (w : ℚ) : List (Int × ℚ) → List (Int × ℚ)
  | [] => [(j, w)]
  | (k, v) :: rest =>
    if k = j then (j, w) :: rest
    else if j < k then (j, w) :: (k, v) :: rest
    else (k, v) :: innerWrite j w rest

/-- Applies `f` to the outer vector number `i`. -/
def modifyOuter (f : List (Int × ℚ) → List (Int × ℚ)) :
    Nat → List (List (Int × ℚ)) → List (List (Int × ℚ))
  | _, [] => []
  | 0, r :: rs => f r :: rs
  | i + 1, r :: rs => r :: modifyOuter f i rs

/-- Modelled from the spec: reading `at(i, j)` of a row-major matrix (gsSparseMatrix.h
is missing): the coefficient in row `i` and column `j`. -/
def gsSparseMatrix.coeffAt (m : gsSparseMatrix) (i j : Int) : ℚ :=
  if 0 ≤ i then
    match m.outer[i.toNat]? with
    | some r => innerRead j r
    | none => 0
  else 0

/-- Modelled from the spec: the assignment `at(i, j) = w` on a row-major matrix
(gsSparseMatrix.h is missing).  Inserting a new entry leaves the compressed mode. -/
def gsSparseMatrix.setAt (m : gsSparseMatrix) (i j : Int) (w : ℚ) : gsSparseMatrix :=
  if 0 ≤ i then
    { m with
      outer := modifyOuter (innerWrite j w) i.toNat m.outer
      isCompressed := m.isCompressed &&
        (match m.outer[i.toNat]? with
         | some r => r.any (fun e => decide (e.1 = j))
         | none => true) }
  else m

/-- Modelled from the spec: `prune(reference, epsilon)` (gsSparseMatrix.h is missing):
the stored entries that are much smaller than `reference`, that is with
`|v| ≤ |reference| * epsilon`, are dropped; the result is in compressed mode. -/
def gsSparseMatrix.prune (m : gsSparseMatrix) (reference epsilon : ℚ) : gsSparseMatrix :=
  { m with
    outer := m.outer.map (fun r => r.filter (fun e => decide (|reference| * epsilon < |e.2|)))
    isCompressed := true }

/-- Modelled from the spec: `makeCompressed()` (gsSparseMatrix.h is missing). -/
def gsSparseMatrix.makeCompressed (m : gsSparseMatrix) : gsSparseMatrix :=
  { m with isCompressed := true }

/-- The entries of the inner vector `j` of the outer vectors numbered from `i`. -/
def innerVector (j : Int) : Nat → List (List (Int × ℚ)) → List (Int × ℚ)
  | _, [] => []
  | i, r :: rs =>
    (if r.any (fun e => decide (e.1 = j)) then [((i : Int), innerRead j r)] else [])
      ++ innerVector j (i + 1) rs

/-- Modelled from the spec: the assignment of a matrix to a matrix of the other storage
order (gsSparseMatrix.h is missing), as in `*m_optimizationMatrix = m_matrix`. -/
def gsSparseMatrix.toOtherOrder (m : gsSparseMatrix) : gsSparseMatrix :=
  { outer := (List.range m.innerSize).map (fun j => innerVector (j : Int) 0 m.outer)
    innerSize := m.outer.length
    isCompressed := true }

/-- The position of the first stored entry of the outer vector `id` in the compressed
arrays: the number of entries stored in the outer vectors before it. -/
def outerOffset : List (List (Int × ℚ)) → Nat → Nat
  | _, 0 => 0
  | [], _ + 1 => 0
  | r :: rs, id + 1 => r.length + outerOffset rs id

/-- Modelled from the spec: the array behind `outerIndexPtr()` of a compressed matrix
(gsSparseMatrix.h is missing): entry `id` is the position of the first stored entry of
the outer vector `id`, the last entry is the number of stored entries. -/
def gsSparseMatrix.outerIndexArray (m : gsSparseMatrix) : List Nat :=
  (List.range (m.outer.length + 1)).map (outerOffset m.outer)

/-- Modelled from the spec: the array behind `innerIndexPtr()` of a compressed matrix
(gsSparseMatrix.h is missing): the inner indices of all stored entries. -/
def gsSparseMatrix.innerIndexArray (m : gsSparseMatrix) : List Int :=
  m.outer.flatten.map Prod.fst

/-- Modelled from the spec: the array behind `valuePtr()` of a compressed matrix
(gsSparseMatrix.h is missing): the values of all stored entries. -/
def gsSparseMatrix.valueArray (m : gsSparseMatrix) : List ℚ :=
  m.outer.flatten.map Prod.snd

/-- Modelled from the spec: `valuePtr()` (gsSparseMatrix.h is missing): the base of the
value array. -/
def gsSparseMatrix.valuePtr (_m : gsSparseMatrix) : Ptr := Ptr.at 0

/-- Modelled from the spec: `innerIndexPtr()` (gsSparseMatrix.h is missing): the base of
the inner index array. -/
def gsSparseMatrix.innerIndexPtr (_m : gsSparseMatrix) : Ptr := Ptr.at 0

/-- Modelled from the spec: the read `outerIndexPtr()[k]` (gsSparseMatrix.h is missing). -/
def gsSparseMatrix.outerIndexPtr (m : gsSparseMatrix) (k : Int) : Int :=
  if 0 ≤ k then ((m.outerIndexArray.getD k.toNat 0 : Nat) : Int) else 0

/-- The struct `gsWeightMapper::Iterator` (lines 55-121 of the header): three pointers
into the value array and one into the inner index array. -/
structure Iterator where
  /-- Start of the values of the outer vector. -/
  m_beg : Ptr
  /-- End of the values of the outer vector. -/
  m_end : Ptr
  /-- The current value. -/
  m_value : Ptr
  /-- The current inner index. -/
  m_index : Ptr
deriving DecidableEq

/-- The private constructor `Iterator(beg, end, ind, value)` (lines 63-65): the current
value is `value ? value : beg`. -/
def Iterator.ofPointers (beg end_ ind value : Ptr) : Iterator :=
  { m_beg := beg, m_end := end_, m_value := if value.isSet then value else beg,
    m_index := ind }

/-- The constructor `Iterator(matrix, outerId)` (lines 66-73). -/
def Iterator.ofMatrix (matrix : gsSparseMatrix) (outerId : Int) : Iterator :=
  { m_beg := matrix.valuePtr.add (matrix.outerIndexPtr outerId)
    m_end := matrix.valuePtr.add (matrix.outerIndexPtr (outerId + 1))
    m_value := matrix.valuePtr.add (matrix.outerIndexPtr outerId)
    m_index := matrix.innerIndexPtr.add (matrix.outerIndexPtr outerId) }

/-- The default constructor `Iterator()` (lines 75-78). -/
def Iterator.default : Iterator :=
  { m_beg := Ptr.null, m_end := Ptr.null, m_value := Ptr.null, m_index := Ptr.null }

/-- The member `operator==` (line 86). -/
def Iterator.eq (self other : Iterator) : Bool :=
  decide (self.m_value = other.m_value) && decide (self.m_index = other.m_index)

/-- The member `operator!=` (line 87). -/
def Iterator.ne (self other : Iterator) : Bool := !self.eq other

/-- The member `operator++` (line 89). -/
def Iterator.inc (self : Iterator) : Iterator :=
  { self with m_value := self.m_value.add 1, m_index := self.m_index.add 1 }

/-- The member `operator*` (line 97), read in the matrix `mem` the iterator points into. -/
def Iterator.deref (mem : gsSparseMatrix) (self : Iterator) : Option ℚ :=
  self.m_value.read mem.valueArray

/-- The member `weight()` (line 103). -/
def Iterator.weight (mem : gsSparseMatrix) (self : Iterator) : Option ℚ :=
  self.m_value.read mem.valueArray

/-- The member `index()` (line 108). -/
def Iterator.index (mem : gsSparseMatrix) (self : Iterator) : Option Int :=
  self.m_index.read mem.innerIndexArray

/-- The member `end()` (line 113). -/
def Iterator.end_ (self : Iterator) : Iterator :=
  Iterator.ofPointers self.m_beg self.m_end self.m_index self.m_end

/-- The member `begin()` (line 118). -/
def Iterator.begin (self : Iterator) : Iterator :=
  Iterator.ofPointers self.m_beg self.m_end self.m_index self.m_beg

/-- The member `operator bool` (line 120). -/
def Iterator.toBool (self : Iterator) : Bool :=
  self.m_value.lt self.m_end && self.m_value.ge self.m_beg

/-- The iterator after `n` applications of `operator++`. -/
def Iterator.incN : Nat → Iterator → Iterator
  | 0, it => it
  | n + 1, it => Iterator.incN n it.inc

/-- The documented loop `for( ; it ; ++it)` (lines 44-49), reading `index()` and
`weight()` in its body: the pairs read, or `none` when `fuel` iterations do not finish
the loop or a read leaves the arrays. -/
def Iterator.forLoop (mem : gsSparseMatrix) : Nat → Iterator → Option (List (Int × ℚ))
  | 0, _ => none
  | fuel + 1, it =>
    if it.toBool then
      match it.index mem, it.weight mem, Iterator.forLoop mem fuel it.inc with
      | some i, some w, some rest => some ((i, w) :: rest)
      | _, _, _ => none
    else some []

/-- The data members of `gsWeightMapper<T>` (lines 483-484 of the header). -/
structure gsWeightMapper where
  /-- The column-major copy for target-to-source access, `NULL` when absent. -/
  m_optimizationMatrix : Option GToLMatrix
  /-- The row-major matrix of the mapper. -/
  m_matrix : LToGMatrix
deriving DecidableEq

/-- The members of `gsWeightMapper` that the header only declares (their bodies are in
the missing gsWeightMapper.hpp) and the tolerance test `math::almostEqual<14>` (gsMath.h
is missing), taken as parameters: the three-argument overloads receive and return the
contents of their two output vectors. -/
structure gsWeightMapperHpp where
  /-- The overload `sourceToTarget(source, target, weights)` (line 319). -/
  sourceToTarget : gsWeightMapper → Int → List Int × List ℚ → List Int × List ℚ
  /-- The overload `targetToSource(target, source, weights)` (line 361). -/
  targetToSource : gsWeightMapper → Int → List Int × List ℚ → List Int × List ℚ
  /-- The test `math::almostEqual<14>`. -/
  almostEqual : ℚ → ℚ → Bool

/-- The enumerator `optSourceToTarget = 1U<<0` (line 376). -/
def optSourceToTarget : Nat := 1 <<< 0

/-- The enumerator `optTargetToSource = 1U<<1` (line 377). -/
def optTargetToSource : Nat := 1 <<< 1

/-- The bitwise complement `~x` of a 64-bit `size_t`. -/
def sizeNot (x : Nat) : Nat := 2 ^ 64 - 1 - x % 2 ^ 64

/-- The default constructor `gsWeightMapper()` (lines 127-128); `empty` is the
default-constructed matrix. -/
def gsWeightMapper.new (empty : LToGMatrix) : gsWeightMapper :=
  { m_optimizationMatrix := none, m_matrix := empty }

/-- The member `removeOptimization` (line 482). -/
def gsWeightMapper.removeOptimization (self : gsWeightMapper) : gsWeightMapper :=
  { self with m_optimizationMatrix := none }

/-- The member `setEntry(source, target, weight)` (lines 211-215). -/
def gsWeightMapper.setEntry (self : gsWeightMapper) (source target : Int) (weight : ℚ) :
    gsWeightMapper :=
  { self.removeOptimization with
    m_matrix := self.removeOptimization.m_matrix.setAt source target weight }

/-- The member `setEntry(source, target)` with the default argument `weight = 1`
(line 211). -/
def gsWeightMapper.setEntry_default (self : gsWeightMapper) (source target : Int) :
    gsWeightMapper :=
  self.setEntry source target 1

/-- The member `getWeight` (lines 218-219). -/
def gsWeightMapper.getWeight (self : gsWeightMapper) (source target : Int) : ℚ :=
  self.m_matrix.coeffAt source target

/-- The member `getNrOfSources` (lines 222-223). -/
def gsWeightMapper.getNrOfSources (self : gsWeightMapper) : Int := self.m_matrix.rows

/-- The member `getNrOfTargets` (lines 226-227). -/
def gsWeightMapper.getNrOfTargets (self : gsWeightMapper) : Int := self.m_matrix.cols

/-- The overload `sourceToTarget(indexType, IndexContainer &)` (lines 305-309): the
weights are collected in a local vector and dropped. -/
def gsWeightMapper.sourceToTarget_single (hpp : gsWeightMapperHpp) (self : gsWeightMapper)
    (source : Int) (target : List Int) : List Int :=
  (hpp.sourceToTarget self source (target, [])).1

/-- The overload `targetToSource(indexType, IndexContainer &)` (lines 348-352). -/
def gsWeightMapper.targetToSource_single (hpp : gsWeightMapperHpp) (self : gsWeightMapper)
    (target : Int) (source : List Int) : List Int :=
  (hpp.targetToSource self target (source, [])).1

/-- The member `sourceIsId` (lines 230-235). -/
def gsWeightMapper.sourceIsId (hpp : gsWeightMapperHpp) (self : gsWeightMapper)
    (source : Int) : Bool :=
  match self.sourceToTarget_single hpp source [] with
  | [t] => hpp.almostEqual (self.m_matrix.coeffAt source t) 1
  | _ => false

/-- The member `targetIsId` (lines 238-243). -/
def gsWeightMapper.targetIsId (hpp : gsWeightMapperHpp) (self : gsWeightMapper)
    (target : Int) : Bool :=
  match self.targetToSource_single hpp target [] with
  | [s] => hpp.almostEqual (self.m_matrix.coeffAt s target) 1
  | _ => false

/-- Insertion into a sorted vector of indices. -/
def insertIdx (a : Int) : List Int → List Int
  | [] => [a]
  | b :: bs => if a ≤ b then a :: b :: bs else b :: insertIdx a bs

/-- The algorithm `std::sort` on a vector of indices. -/
def sortIdx : List Int → List Int
  | [] => []
  | a :: as => insertIdx a (sortIdx as)

/-- The algorithm `std::unique` followed by `erase`: of every run of equal consecutive
indices the first is kept. -/
def uniqueIdx : List Int → List Int
  | [] => []
  | [a] => [a]
  | a :: b :: rest => if a = b then uniqueIdx (b :: rest) else a :: uniqueIdx (b :: rest)

/-- The loop of the list overloads (lines 287-292 and 331-336): the single-index overload
is called on the local vector `res_i` for every given index and its result is appended
to the output vector.  The state is the pair of the output vector and `res_i`. -/
def collectLoop (single : Int → List Int → List Int) :
    List Int → List Int × List Int → List Int × List Int
  | [], state => state
  | s :: rest, (out, res_i) =>
    collectLoop single rest (out ++ single s res_i, single s res_i)

/-- The overload `sourceToTarget(IndexContainer const &, IndexContainer &)` (lines
282-296); `target` is the content of the output vector before the call. -/
def gsWeightMapper.sourceToTarget_list (hpp : gsWeightMapperHpp) (self : gsWeightMapper)
    (source : List Int) (_target : List Int) : List Int :=
  uniqueIdx (sortIdx (collectLoop (self.sourceToTarget_single hpp) source ([], [])).1)

/-- The overload `targetToSource(IndexContainer const &, IndexContainer &)` (lines
327-340); `source` is the content of the output vector before the call. -/
def gsWeightMapper.targetToSource_list (hpp : gsWeightMapperHpp) (self : gsWeightMapper)
    (target : List Int) (_source : List Int) : List Int :=
  uniqueIdx (sortIdx (collectLoop (self.targetToSource_single hpp) target ([], [])).1)

/-- The member `getOptimizationFlags` (lines 411-417). -/
def gsWeightMapper.getOptimizationFlags (self : gsWeightMapper) : Nat :=
  (0 ||| (if self.m_matrix.isCompressed then optSourceToTarget else 0)) |||
    (if self.m_optimizationMatrix.isSome then optTargetToSource else 0)

/-- The member `optimize(flags)` (lines 392-408); `epsilon` is
`std::numeric_limits<weightType>::epsilon()`. -/
def gsWeightMapper.optimize (epsilon : ℚ) (self : gsWeightMapper) (flags : Nat) :
    gsWeightMapper :=
  let flags1 := flags ||| (if flags &&& optTargetToSource ≠ 0 then optSourceToTarget else 0)
  let flags2 := flags1 &&& sizeNot self.getOptimizationFlags
  let self1 : gsWeightMapper :=
    if flags2 &&& optSourceToTarget ≠ 0 then
      { self with m_matrix := (self.m_matrix.prune 1 (10 * epsilon)).makeCompressed }
    else self
  if flags2 &&& optTargetToSource ≠ 0 then
    { self1 with
      m_optimizationMatrix :=
        some ((self1.m_matrix.toOtherOrder.prune 1 (10 * epsilon)).makeCompressed) }
  else self1

/-- The member `optimize()` with the default argument `flags = optSourceToTarget`
(line 392). -/
def gsWeightMapper.optimize_default (epsilon : ℚ) (self : gsWeightMapper) : gsWeightMapper :=
  self.optimize epsilon optSourceToTarget

/-- The member `fastTargetToSource(indexType)` (lines 425-430); a failed `GISMO_ASSERT`
is the error result. -/
def gsWeightMapper.fastTargetToSource (self : gsWeightMapper) (target : Int) :
    Except String Iterator :=
  match self.m_optimizationMatrix with
  | none =>
    Except.error "optimize() must be called on the mapper with fastTargetToSource flag"
  | some optimizationMatrix =>
    if target < self.m_matrix.cols ∧ 0 ≤ target then
      Except.ok (Iterator.ofMatrix optimizationMatrix target)
    else Except.error "index out of bounds"

/-- The member `fastSourceToTarget(indexType)` (lines 438-443); a failed `GISMO_ASSERT`
is the error result. -/
def gsWeightMapper.fastSourceToTarget (self : gsWeightMapper) (source : Int) :
    Except String Iterator :=
  if self.m_matrix.isCompressed then
    if source < self.m_matrix.rows ∧ 0 ≤ source then
      Except.ok (Iterator.ofMatrix self.m_matrix source)
    else Except.error "index out of bounds"
  else
    Except.error "optimize() must be called on the mapper with fastSourceToTarget flag"

/-- A sample instance of the members that the header only declares, for the examples: the
three-argument overloads overwrite their outputs with the inner indices and values
stored in the row `source` of the matrix, respectively with the rows and values of the
entries stored in column `target`; the tolerance test is equality. -/
def sampleHpp : gsWeightMapperHpp where
  sourceToTarget := fun self source _ =>
    if 0 ≤ source then
      (((self.m_matrix.outer.getD source.toNat []).map Prod.fst),
        ((self.m_matrix.outer.getD source.toNat []).map Prod.snd))
    else ([], [])
  targetToSource := fun self target _ =>
    (((innerVector target 0 self.m_matrix.outer).map Prod.fst),
      ((innerVector target 0 self.m_matrix.outer).map Prod.snd))
  almostEqual := fun a b => decide (a = b)

/-- A sample mapper with three sources and three targets, its matrix in compressed
mode: source 0 is target 0, source 1 is half of target 0 and half of target 1, source 2
is target 2. -/
def sampleMapper : gsWeightMapper :=
  { m_optimizationMatrix := none
    m_matrix :=
      { outer := [[(0, 1)], [(0, 1 / 2), (1, 1 / 2)], [(2, 1)]]
        innerSize := 3
        isCompressed := true } }

/-- The copy assignment `operator=(const gsWeightMapper &)` (lines 161-167). -/
def gsWeightMapper.assign (epsilon : ℚ) (self other : gsWeightMapper) : gsWeightMapper :=
  gsWeightMapper.optimize epsilon
    { self.removeOptimization with m_matrix := other.m_matrix } other.getOptimizationFlags

/-- The matrix assignment `operator=(const MatrixT &)` (lines 189-195); `other` is the
given matrix as a row-major sparse matrix. -/
def gsWeightMapper.assignMatrix (epsilon : ℚ) (self : gsWeightMapper) (other : LToGMatrix) :
    gsWeightMapper :=
  gsWeightMapper.optimize_default epsilon { self.removeOptimization with m_matrix := other }

/-- The member `operator*=` (lines 170-178); `product` is the map sending the matrix of
the mapper to `(m_matrix * other).eval()`. -/
def gsWeightMapper.mulAssign (self : gsWeightMapper) (product : LToGMatrix → LToGMatrix) :
    gsWeightMapper :=
  { self.removeOptimization with m_matrix := product self.removeOptimization.m_matrix }

/-- A sample mapper on which no optimisation is present: the matrix of `sampleMapper`
in uncompressed mode. -/
def plainMapper : gsWeightMapper :=
  { m_optimizationMatrix := none
    m_matrix :=
      { outer := [[(0, 1)], [(0, 1 / 2), (1, 1 / 2)], [(2, 1)]]
        innerSize := 3
        isCompressed := false } }

/-! ## The example driver (`examples/gsAdaptiveMeshing_example.cpp`)

The calls `main` issues on its `gsAdaptiveMeshing` object `mesher`, in program order
(lines 243–298).  The driver is straight-line code apart from one conditional on the
command-line value `rule`, whose branches only touch the option list. -/

/-- The member functions of `gsAdaptiveMeshing` that `main` calls on `mesher`. -/
inductive MesherCall
  | construct
  | options
  | getOptions
  | markRef_into
  | markCrs_into
  | refine
  | unrefine
  | rebuild
  | refineAll
  | unrefineAll
  deriving DecidableEq, Repr

/-- The operations that change the mesh topology: `refine`, `unrefine`, `refineAll`,
`unrefineAll`. -/
def MesherCall.isTopologyChanging : MesherCall → Bool
  | MesherCall.refine => true
  | MesherCall.unrefine => true
  | MesherCall.refineAll => true
  | MesherCall.unrefineAll => true
  | _ => false

/-- The marking operations: `markRef_into`, `markCrs_into`, `refineAll`, `unrefineAll`. -/
def MesherCall.isMarking : MesherCall → Bool
  | MesherCall.markRef_into => true
  | MesherCall.markCrs_into => true
  | MesherCall.refineAll => true
  | MesherCall.unrefineAll => true
  | _ => false

/-- The calls on `mesher` in `main`, for the command-line value `rule` (lines 243–298):
the constructor, three `options()` calls, two more in each of the branches `rule==1`,
`rule==2`, `rule==3`, then `getOptions`, `markRef_into`, `markCrs_into`, `refine`,
`unrefine`, `rebuild`, `refineAll`, `rebuild`, `unrefineAll`, `rebuild`, `unrefineAll`. -/
def exampleCalls (rule : Int) : List MesherCall :=
  [MesherCall.construct, MesherCall.options, MesherCall.options, MesherCall.options] ++
  (if rule = 1 then [MesherCall.options, MesherCall.options]
   else if rule = 2 then [MesherCall.options, MesherCall.options]
   else if rule = 3 then [MesherCall.options, MesherCall.options]
   else []) ++
  [MesherCall.getOptions, MesherCall.markRef_into, MesherCall.markCrs_into,
   MesherCall.refine, MesherCall.unrefine,
   MesherCall.rebuild, MesherCall.refineAll,
   MesherCall.rebuild, MesherCall.unrefineAll,
   MesherCall.rebuild, MesherCall.unrefineAll]

/-- A monitor for the staleness of the index maps along a call sequence: `stale` is set
by a topology-changing call and cleared by `rebuild`; the sequence is accepted when no
marking call is issued while `stale` is set. -/
def rebuildMonitor : Bool → List MesherCall → Bool
  | _, [] => true
  | stale, c :: cs =>
    !(stale && c.isMarking) &&
      rebuildMonitor
        (if c.isTopologyChanging then true
         else if c = MesherCall.rebuild then false else stale) cs

/-! ## Constructors and reachable states of the weight mapper -/

/-- Modelled from the spec: `resize(rows, cols)` (gsSparseMatrix.h is missing): a matrix
of the given dimensions without stored entries, in compressed mode. -/
def gsSparseMatrix.resize (_m : gsSparseMatrix) (rows cols : Int) : gsSparseMatrix :=
  { outer := List.replicate rows.toNat [], innerSize := cols.toNat, isCompressed := true }

/-- The constructor `gsWeightMapper(sourceSize, targetSize)` (lines 130-134); `empty` is
the default-constructed matrix. -/
def gsWeightMapper.newSized (empty : LToGMatrix) (sourceSize targetSize : Int) :
    gsWeightMapper :=
  { m_optimizationMatrix := none, m_matrix := empty.resize sourceSize targetSize }

/-- The copy constructor `gsWeightMapper(const gsWeightMapper &)` (lines 142-147). -/
def gsWeightMapper.copy (epsilon : ℚ) (other : gsWeightMapper) : gsWeightMapper :=
  gsWeightMapper.optimize epsilon
    { m_optimizationMatrix := none, m_matrix := other.m_matrix } other.getOptimizationFlags

/-- The constructor from a row-major sparse matrix (lines 149-153): `*this = other` is
the matrix assignment; `empty` is the default-constructed matrix. -/
def gsWeightMapper.ofRowMajor (epsilon : ℚ) (empty other : LToGMatrix) : gsWeightMapper :=
  gsWeightMapper.assignMatrix epsilon { m_optimizationMatrix := none, m_matrix := empty } other

/-- The constructor from a column-major sparse matrix (lines 155-159): `*this = other` is
the matrix assignment, which stores the matrix in the row-major order. -/
def gsWeightMapper.ofColMajor (epsilon : ℚ) (empty : LToGMatrix) (other : GToLMatrix) :
    gsWeightMapper :=
  gsWeightMapper.assignMatrix epsilon { m_optimizationMatrix := none, m_matrix := empty }
    other.toOtherOrder

/-- The copy assignment `operator=(const gsWeightMapper &)` (lines 161-167) when `other`
is the object itself: `removeOptimization()` has already run when the flags of `other`
are read. -/
def gsWeightMapper.assignSelf (epsilon : ℚ) (self : gsWeightMapper) : gsWeightMapper :=
  gsWeightMapper.optimize epsilon self.removeOptimization
    self.removeOptimization.getOptimizationFlags

/-- The states of a `gsWeightMapper` object that can be reached from a constructor
through `optimize`, `setEntry`, the copy assignment, the matrix assignment and
`operator*=`; `epsilon` is `std::numeric_limits<weightType>::epsilon()`. -/
inductive gsWeightMapper.Reachable (epsilon : ℚ) : gsWeightMapper → Prop
  | ctorDefault (empty : LToGMatrix) : Reachable epsilon (gsWeightMapper.new empty)
  | ctorSized (empty : LToGMatrix) (sourceSize targetSize : Int) :
    Reachable epsilon (gsWeightMapper.newSized empty sourceSize targetSize)
  | ctorCopy (other : gsWeightMapper) :
    Reachable epsilon other → Reachable epsilon (gsWeightMapper.copy epsilon other)
  | ctorRowMajor (empty other : LToGMatrix) :
    Reachable epsilon (gsWeightMapper.ofRowMajor epsilon empty other)
  | ctorColMajor (empty : LToGMatrix) (other : GToLMatrix) :
    Reachable epsilon (gsWeightMapper.ofColMajor epsilon empty other)
  | optimize (self : gsWeightMapper) (flags : Nat) :
    Reachable epsilon self → Reachable epsilon (self.optimize epsilon flags)
  | setEntry (self : gsWeightMapper) (source target : Int) (weight : ℚ) :
    Reachable epsilon self → Reachable epsilon (self.setEntry source target weight)
  | assign (self other : gsWeightMapper) :
    Reachable epsilon self → Reachable epsilon other →
      Reachable epsilon (self.assign epsilon other)
  | assignSelf (self : gsWeightMapper) :
    Reachable epsilon self → Reachable epsilon (self.assignSelf epsilon)
  | assignMatrix (self : gsWeightMapper) (other : LToGMatrix) :
    Reachable epsilon self → Reachable epsilon (self.assignMatrix epsilon other)
  | mulAssign (self : gsWeightMapper) (product : LToGMatrix → LToGMatrix) :
    Reachable epsilon self → Reachable epsilon (self.mulAssign product)

/-- A mapper built by the public interface: two sources and two targets, the entries
`(0, 0) = 1` and `(1, 1) = 1/2` set, then optimised for target-to-source access. -/
def builtMapper : gsWeightMapper :=
  (((gsWeightMapper.newSized ⟨[], 0, true⟩ 2 2).setEntry 0 0 1).setEntry 1 1 (1 / 2)).optimize 0
    optTargetToSource

/-! ## The compile-time dispatch of the marking policies

The overloads of `_markFraction_impl`, `_markPercentage_impl` and `_markThreshold_impl`
differ only in the condition of the `std::enable_if` in their return type (lines 121-177
of the header). -/

/-- The conditions of the `std::enable_if` guards of the four overloads of
`_markFraction_impl`, in the order of declaration (lines 122, 126, 130, 134). -/
def _markFraction_impl_guards (coarsen admissible : Bool) : List Bool :=
  [coarsen && admissible, coarsen && !admissible, !coarsen && admissible,
   !coarsen && !admissible]

/-- The conditions of the `std::enable_if` guards of the four overloads of
`_markPercentage_impl`, in the order of declaration (lines 143, 147, 151, 155). -/
def _markPercentage_impl_guards (coarsen admissible : Bool) : List Bool :=
  [coarsen && admissible, coarsen && !admissible, !coarsen && admissible,
   !coarsen && !admissible]

/-- The conditions of the `std::enable_if` guards of the four overloads of
`_markThreshold_impl`, in the order of declaration (lines 164, 168, 172, 176). -/
def _markThreshold_impl_guards (coarsen admissible : Bool) : List Bool :=
  [coarsen && admissible, coarsen && !admissible, !coarsen && admissible,
   !coarsen && !admissible]

/-- The overloads that take part in overload resolution: an overload whose
`std::enable_if` condition is false has no return type and is dropped from the candidate
set; the result lists the positions of the remaining overloads. -/
def viableOverloads (guards : List Bool) : List Nat :=
  (List.range guards.length).filter (fun i => guards.getD i false)

/-- Overload resolution among function templates that differ only in their guard: the
call is well-formed when exactly one overload is viable, and that overload is called. -/
def selectOverload (guards : List Bool) : Except String Nat :=
  match viableOverloads guards with
  | [] => Except.error "no matching function for call"
  | [i] => Except.ok i
  | _ :: _ :: _ => Except.error "call of overloaded function is ambiguous"

/-- The overloads of `_markFraction_impl` by their position in the header. -/
def _markFraction_impl (overload : Nat) (ext : External) (self : gsAdaptiveMeshing)
    (elements : boxMapType) (refParameter : ℚ) (predicates : List gsHBoxCheck)
    (elMarked : HBoxContainer) : HBoxContainer :=
  match overload with
  | 0 => _markFraction_impl_crs_adm ext self elements refParameter predicates elMarked
  | 1 => _markFraction_impl_crs_plain elements refParameter predicates elMarked
  | 2 => _markFraction_impl_ref_adm ext self elements refParameter predicates elMarked
  | _ => _markFraction_impl_ref_plain elements refParameter predicates elMarked

/-- The overloads of `_markPercentage_impl` by their position in the header. -/
def _markPercentage_impl (overload : Nat) (ext : External) (self : gsAdaptiveMeshing)
    (elements : boxMapType) (refParameter : ℚ) (predicates : List gsHBoxCheck)
    (elMarked : HBoxContainer) : HBoxContainer :=
  match overload with
  | 0 => _markPercentage_impl_crs_adm ext self elements refParameter predicates elMarked
  | 1 => _markPercentage_impl_crs_plain elements refParameter predicates elMarked
  | 2 => _markPercentage_impl_ref_adm ext self elements refParameter predicates elMarked
  | _ => _markPercentage_impl_ref_plain elements refParameter predicates elMarked

/-- The overloads of `_markThreshold_impl` by their position in the header. -/
def _markThreshold_impl (overload : Nat) (ext : External) (self : gsAdaptiveMeshing)
    (elements : boxMapType) (refParameter : ℚ) (predicates : List gsHBoxCheck)
    (elMarked : HBoxContainer) : HBoxContainer :=
  match overload with
  | 0 => _markThreshold_impl_crs_adm ext self elements refParameter predicates elMarked
  | 1 => _markThreshold_impl_crs_plain elements refParameter predicates elMarked
  | 2 => _markThreshold_impl_ref_adm ext self elements refParameter predicates elMarked
  | _ => _markThreshold_impl_ref_plain elements refParameter predicates elMarked

/-- The call `_markFraction_impl<_coarsen,_admissible>(...)` in the body of
`_markFraction` (line 119), resolved among the guarded overloads. -/
def _markFraction_call (coarsen admissible : Bool) (ext : External)
    (self : gsAdaptiveMeshing) (elements : boxMapType) (refParameter : ℚ)
    (predicates : List gsHBoxCheck) (elMarked : HBoxContainer) :
    Except String HBoxContainer :=
  match selectOverload (_markFraction_impl_guards coarsen admissible) with
  | Except.ok i =>
    Except.ok (_markFraction_impl i ext self elements refParameter predicates elMarked)
  | Except.error msg => Except.error msg

/-- The call `_markPercentage_impl<_coarsen,_admissible>(...)` in the body of
`_markPercentage` (line 140), resolved among the guarded overloads. -/
def _markPercentage_call (coarsen admissible : Bool) (ext : External)
    (self : gsAdaptiveMeshing) (elements : boxMapType) (refParameter : ℚ)
    (predicates : List gsHBoxCheck) (elMarked : HBoxContainer) :
    Except String HBoxContainer :=
  match selectOverload (_markPercentage_impl_guards coarsen admissible) with
  | Except.ok i =>
    Except.ok (_markPercentage_impl i ext self elements refParameter predicates elMarked)
  | Except.error msg => Except.error msg

/-- The call `_markThreshold_impl<_coarsen,_admissible>(...)` in the body of
`_markThreshold` (line 161), resolved among the guarded overloads. -/
def _markThreshold_call (coarsen admissible : Bool) (ext : External)
    (self : gsAdaptiveMeshing) (elements : boxMapType) (refParameter : ℚ)
    (predicates : List gsHBoxCheck) (elMarked : HBoxContainer) :
    Except String HBoxContainer :=
  match selectOverload (_markThreshold_impl_guards coarsen admissible) with
  | Except.ok i =>
    Except.ok (_markThreshold_impl i ext self elements refParameter predicates elMarked)
  | Except.error msg => Except.error msg

theorem lexicographical_compare_irrefl (xs : List Int) :
    lexicographical_compare xs xs = false := by
  induction xs with
  | nil => rfl
  | cons x xs ih => simp [lexicographical_compare, ih]

theorem lexicographical_compare_iff_lex (xs ys : List Int) :
    lexicographical_compare xs ys = true ↔ List.Lex (· < ·) xs ys := by
  induction xs generalizing ys with
  | nil =>
    cases ys with
    | nil => simp [lexicographical_compare, List.Lex.not_nil_right]
    | cons y ys => simp [lexicographical_compare, List.Lex.nil]
  | cons x xs ih =>
    cases ys with
    | nil => simp [lexicographical_compare, List.Lex.not_nil_right]
    | cons y ys =>
      simp only [lexicographical_compare]
      by_cases hxy : x < y
      · simp [hxy, List.Lex.rel]
      · by_cases hyx : y < x
        · simp only [hxy, hyx, if_true, if_false]
          constructor
          · intro h; cases h
          · intro h
            cases h with
            | cons h => exact absurd hyx (lt_irrefl _)
            | rel h => exact absurd h hxy
        · have hEq : x = y := le_antisymm (not_lt.mp hyx) (not_lt.mp hxy)
          subst hEq
          simp only [hxy, if_false, ih]
          constructor
          · intro h; exact List.Lex.cons h
          · intro h
            cases h with
            | cons h => exact h
            | rel h => exact absurd h hxy

theorem lexicographical_compare_trans (xs ys zs : List Int)
    (h₁ : lexicographical_compare xs ys = true) (h₂ : lexicographical_compare ys zs = true) :
    lexicographical_compare xs zs = true := by
  induction xs generalizing ys zs with
  | nil =>
    cases ys with
    | nil => simp [lexicographical_compare] at h₁
    | cons y ys =>
      cases zs with
      | nil => simp [lexicographical_compare] at h₂
      | cons z zs => simp [lexicographical_compare]
  | cons x xs ih =>
    cases ys with
    | nil => simp [lexicographical_compare] at h₁
    | cons y ys =>
      cases zs with
      | nil => simp [lexicographical_compare] at h₂
      | cons z zs =>
        simp only [lexicographical_compare] at h₁ h₂ ⊢
        by_cases hxy : x < y
        · by_cases hyz : y < z
          · simp [lt_trans hxy hyz]
          · by_cases hzy : z < y
            · simp [hyz, hzy] at h₂
            · have hEq : y = z := le_antisymm (not_lt.mp hzy) (not_lt.mp hyz)
              subst hEq
              simp [hxy]
        · by_cases hyx : y < x
          · simp [hxy, hyx] at h₁
          · have hEq : x = y := le_antisymm (not_lt.mp hyx) (not_lt.mp hxy)
            subst hEq
            simp only [hxy, if_false] at h₁
            by_cases hxz : x < z
            · simp [hxz]
            · by_cases hzx : z < x
              · simp [hxz, hzx] at h₂
              · simp only [hxz, hzx, if_false] at h₂ ⊢
                exact ih ys zs h₁ h₂

theorem lexicographical_compare_total (xs ys : List Int) (h : xs ≠ ys) :
    lexicographical_compare xs ys = true ∨ lexicographical_compare ys xs = true := by
  induction xs generalizing ys with
  | nil =>
    cases ys with
    | nil => exact absurd rfl h
    | cons y ys => simp [lexicographical_compare]
  | cons x xs ih =>
    cases ys with
    | nil => simp [lexicographical_compare]
    | cons y ys =>
      simp only [lexicographical_compare]
      rcases lt_trichotomy x y with hxy | hxy | hxy
      · simp [hxy]
      · subst hxy
        have hne : xs ≠ ys := fun hEq => h (by rw [hEq])
        simpa using ih ys hne
      · simp [hxy, not_lt.mpr (le_of_lt hxy)]

theorem lexicographical_compare_asymm (xs ys : List Int)
    (h₁ : lexicographical_compare xs ys = true) : lexicographical_compare ys xs = false := by
  by_contra h₂
  have h₃ := lexicographical_compare_trans xs ys xs h₁ (by simpa using h₂)
  rw [lexicographical_compare_irrefl] at h₃
  exact Bool.noConfusion h₃

/-! ### Facts about `gsHBoxCompare` -/

theorem gsHBoxCompare_iff (a b : HBox) :
    gsHBoxCompare a b = true ↔
      a.patch < b.patch ∨ (a.patch = b.patch ∧ (a.level < b.level ∨ (a.level = b.level ∧
        (List.Lex (· < ·) a.lower b.lower ∨
          (a.lower = b.lower ∧ List.Lex (· < ·) a.upper b.upper))))) := by
  simp only [gsHBoxCompare, Bool.or_eq_true, Bool.and_eq_true, decide_eq_true_eq,
    lexicographical_compare_iff_lex]
  tauto

theorem gsHBoxCompare_irrefl (a : HBox) : gsHBoxCompare a a = false := by
  simp [gsHBoxCompare, lexicographical_compare_irrefl]

theorem lex_irrefl_int (xs : List Int) : ¬ List.Lex (· < ·) xs xs := by
  rw [← lexicographical_compare_iff_lex, lexicographical_compare_irrefl]
  exact Bool.noConfusion

theorem lex_trans_int {xs ys zs : List Int} (h₁ : List.Lex (· < ·) xs ys)
    (h₂ : List.Lex (· < ·) ys zs) : List.Lex (· < ·) xs zs := by
  rw [← lexicographical_compare_iff_lex] at *
  exact lexicographical_compare_trans xs ys zs h₁ h₂

theorem lex_total_int (xs ys : List Int) :
    List.Lex (· < ·) xs ys ∨ xs = ys ∨ List.Lex (· < ·) ys xs := by
  by_cases h : xs = ys
  · exact Or.inr (Or.inl h)
  · rcases lexicographical_compare_total xs ys h with h' | h'
    · exact Or.inl ((lexicographical_compare_iff_lex xs ys).mp h')
    · exact Or.inr (Or.inr ((lexicographical_compare_iff_lex ys xs).mp h'))

theorem gsHBoxCompare_trans (a b c : HBox) (h₁ : gsHBoxCompare a b = true)
    (h₂ : gsHBoxCompare b c = true) : gsHBoxCompare a c = true := by
  rw [gsHBoxCompare_iff] at *
  rcases h₁ with h₁ | ⟨hp₁, h₁⟩
  · rcases h₂ with h₂ | ⟨hp₂, _⟩
    · exact Or.inl (lt_trans h₁ h₂)
    · exact Or.inl (hp₂ ▸ h₁)
  · rcases h₂ with h₂ | ⟨hp₂, h₂⟩
    · exact Or.inl (hp₁ ▸ h₂)
    · refine Or.inr ⟨hp₁.trans hp₂, ?_⟩
      rcases h₁ with h₁ | ⟨hl₁, h₁⟩
      · rcases h₂ with h₂ | ⟨hl₂, _⟩
        · exact Or.inl (lt_trans h₁ h₂)
        · exact Or.inl (hl₂ ▸ h₁)
      · rcases h₂ with h₂ | ⟨hl₂, h₂⟩
        · exact Or.inl (hl₁ ▸ h₂)
        · refine Or.inr ⟨hl₁.trans hl₂, ?_⟩
          rcases h₁ with h₁ | ⟨hw₁, h₁⟩
          · rcases h₂ with h₂ | ⟨hw₂, _⟩
            · exact Or.inl (lex_trans_int h₁ h₂)
            · exact Or.inl (hw₂ ▸ h₁)
          · rcases h₂ with h₂ | ⟨hw₂, h₂⟩
            · exact Or.inl (hw₁ ▸ h₂)
            · exact Or.inr ⟨hw₁.trans hw₂, lex_trans_int h₁ h₂⟩

theorem gsHBoxCompare_total (a b : HBox) (h : a.isSame b = false) :
    gsHBoxCompare a b = true ∨ gsHBoxCompare b a = true := by
  rw [gsHBoxCompare_iff, gsHBoxCompare_iff]
  have hne : ¬ (a.patch = b.patch ∧ a.level = b.level ∧ a.lower = b.lower ∧
      a.upper = b.upper) := by
    intro ⟨h1, h2, h3, h4⟩
    simp [HBox.isSame, h1, h2, h3, h4] at h
  rcases lt_trichotomy a.patch b.patch with hp | hp | hp
  · exact Or.inl (Or.inl hp)
  · rcases lt_trichotomy a.level b.level with hl | hl | hl
    · exact Or.inl (Or.inr ⟨hp, Or.inl hl⟩)
    · rcases lex_total_int a.lower b.lower with hw | hw | hw
      · exact Or.inl (Or.inr ⟨hp, Or.inr ⟨hl, Or.inl hw⟩⟩)
      · rcases lex_total_int a.upper b.upper with hu | hu | hu
        · exact Or.inl (Or.inr ⟨hp, Or.inr ⟨hl, Or.inr ⟨hw, hu⟩⟩⟩)
        · exact absurd ⟨hp, hl, hw, hu⟩ hne
        · exact Or.inr (Or.inr ⟨hp.symm, Or.inr ⟨hl.symm, Or.inr ⟨hw.symm, hu⟩⟩⟩)
      · exact Or.inr (Or.inr ⟨hp.symm, Or.inr ⟨hl.symm, Or.inl hw⟩⟩)
    · exact Or.inr (Or.inr ⟨hp.symm, Or.inl hl⟩)
  · exact Or.inr (Or.inl hp)

theorem gsHBoxCompare_of_isSame (a b : HBox) (h : a.isSame b = true) :
    gsHBoxCompare a b = false := by
  simp only [HBox.isSame, Bool.and_eq_true, decide_eq_true_eq] at h
  obtain ⟨⟨⟨h1, h2⟩, h3⟩, h4⟩ := h
  simp [gsHBoxCompare, h1, h2, h3, h4, lexicographical_compare_irrefl]

theorem isSame_symm (a b : HBox) : a.isSame b = b.isSame a := by
  simp only [HBox.isSame]
  rw [Bool.eq_iff_iff]
  simp only [Bool.and_eq_true, decide_eq_true_eq]
  constructor <;> (rintro ⟨⟨⟨h1, h2⟩, h3⟩, h4⟩; exact ⟨⟨⟨h1.symm, h2.symm⟩, h3.symm⟩, h4.symm⟩)

theorem isSame_refl (a : HBox) : a.isSame a = true := by
  simp [HBox.isSame]

theorem isSame_iff (a b : HBox) : a.isSame b = true ↔
    a.patch = b.patch ∧ a.level = b.level ∧ a.lower = b.lower ∧ a.upper = b.upper := by
  simp [HBox.isSame, and_assoc]

/-- Two boxes are equivalent under the comparator exactly when they are structurally
equal. -/
theorem isSame_iff_equiv (a b : HBox) :
    a.isSame b = true ↔ (gsHBoxCompare a b = false ∧ gsHBoxCompare b a = false) := by
  constructor
  · intro h
    exact ⟨gsHBoxCompare_of_isSame a b h, gsHBoxCompare_of_isSame b a (isSame_symm a b ▸ h)⟩
  · intro ⟨h1, h2⟩
    by_contra hs
    rcases gsHBoxCompare_total a b (by simpa using hs) with h | h
    · rw [h1] at h; exact Bool.noConfusion h
    · rw [h2] at h; exact Bool.noConfusion h

/-! ### The index maps -/

theorem isSame_trans (a b c : HBox) (h₁ : a.isSame b = true) (h₂ : b.isSame c = true) :
    a.isSame c = true := by
  rw [isSame_iff] at *
  obtain ⟨h1, h2, h3, h4⟩ := h₁
  obtain ⟨g1, g2, g3, g4⟩ := h₂
  exact ⟨h1.trans g1, h2.trans g2, h3.trans g3, h4.trans g4⟩

theorem keyEquiv_eq_isSame (b c : HBox) :
    (!gsHBoxCompare b c && !gsHBoxCompare c b) = b.isSame c := by
  rw [Bool.eq_iff_iff, isSame_iff_equiv]
  simp

theorem indexOf_cons (c : HBox) (j : Nat) (rest : indexMapType) (x : HBox) :
    indexOf ((c, j) :: rest) x = if x.isSame c = true then some j else indexOf rest x := by
  simp only [indexOf, keyEquiv_eq_isSame]

theorem indexOf_congr (m : indexMapType) (x y : HBox) (h : x.isSame y = true) :
    indexOf m x = indexOf m y := by
  induction m with
  | nil => rfl
  | cons e rest ih =>
    obtain ⟨c, j⟩ := e
    rw [indexOf_cons, indexOf_cons, ih]
    have hiff : x.isSame c = true ↔ y.isSame c = true := by
      constructor
      · intro hx
        exact isSame_trans y x c (by rw [isSame_symm]; exact h) hx
      · intro hy
        exact isSame_trans x y c h hy
    by_cases hx : x.isSame c = true
    · rw [if_pos hx, if_pos (hiff.mp hx)]
    · rw [if_neg hx, if_neg (fun hy => hx (hiff.mpr hy))]

theorem indexOf_eq_none (m : indexMapType) (x : HBox)
    (h : ∀ e ∈ m, e.1.isSame x = false) : indexOf m x = none := by
  induction m with
  | nil => rfl
  | cons e rest ih =>
    obtain ⟨c, j⟩ := e
    have hc : x.isSame c = false := by
      rw [isSame_symm]; exact h (c, j) (List.mem_cons_self _ _)
    rw [indexOf_cons]
    simp only [hc, Bool.false_eq_true, if_false]
    exact ih (fun e he => h e (List.mem_cons_of_mem _ he))

theorem mem_indexMapInsert (b : HBox) (i : Nat) (m : indexMapType) (e : HBox × Nat)
    (h : e ∈ indexMapInsert b i m) : e ∈ m ∨ e = (b, i) := by
  induction m with
  | nil =>
    simp only [indexMapInsert, List.mem_singleton] at h
    exact Or.inr h
  | cons c rest ih =>
    obtain ⟨c, j⟩ := c
    simp only [indexMapInsert] at h
    split_ifs at h with h1 h2
    · rcases List.mem_cons.mp h with h | h
      · exact Or.inr h
      · exact Or.inl h
    · rcases List.mem_cons.mp h with h | h
      · exact Or.inl (h ▸ List.mem_cons_self _ _)
      · rcases ih h with h | h
        · exact Or.inl (List.mem_cons_of_mem _ h)
        · exact Or.inr h
    · exact Or.inl h

theorem isSame_of_not_compare (c b : HBox) (h1 : ¬ gsHBoxCompare b c = true)
    (h2 : ¬ gsHBoxCompare c b = true) : c.isSame b = true := by
  rw [isSame_iff_equiv]
  exact ⟨by simpa using h2, by simpa using h1⟩

theorem indexOf_indexMapInsert (b : HBox) (i : Nat) (m : indexMapType) (x : HBox)
    (habs : ∀ e ∈ m, e.1.isSame b = false) :
    indexOf (indexMapInsert b i m) x = if x.isSame b = true then some i else indexOf m x := by
  induction m with
  | nil => simp only [indexMapInsert, indexOf_cons, indexOf, keyEquiv_eq_isSame]
  | cons e rest ih =>
    obtain ⟨c, j⟩ := e
    have hcb : c.isSame b = false := habs (c, j) (List.mem_cons_self _ _)
    have ih' := ih (fun e he => habs e (List.mem_cons_of_mem _ he))
    simp only [indexMapInsert]
    by_cases h1 : gsHBoxCompare b c = true
    · rw [if_pos h1, indexOf_cons]
    · rw [if_neg h1]
      by_cases h2 : gsHBoxCompare c b = true
      · rw [if_pos h2, indexOf_cons, ih', indexOf_cons]
        by_cases h3 : x.isSame b = true
        · have hxc : ¬ x.isSame c = true := by
            intro hxc
            have hcx : c.isSame x = true := by rw [isSame_symm]; exact hxc
            have := isSame_trans c x b hcx h3
            rw [hcb] at this
            exact Bool.noConfusion this
          simp only [if_neg hxc, if_pos h3]
        · simp only [if_neg h3]
      · have hsame := isSame_of_not_compare c b h1 h2
        rw [hcb] at hsame
        exact Bool.noConfusion hsame

theorem mem_boxMapInsert (i : Nat) (b : HBox) (m : boxMapType) (e : Nat × HBox)
    (h : e ∈ boxMapInsert i b m) : e ∈ m ∨ e = (i, b) := by
  induction m with
  | nil =>
    simp only [boxMapInsert, List.mem_singleton] at h
    exact Or.inr h
  | cons c rest ih =>
    obtain ⟨j, c⟩ := c
    simp only [boxMapInsert] at h
    split_ifs at h with h1 h2
    · rcases List.mem_cons.mp h with h | h
      · exact Or.inr h
      · exact Or.inl h
    · rcases List.mem_cons.mp h with h | h
      · exact Or.inl (h ▸ List.mem_cons_self _ _)
      · rcases ih h with h | h
        · exact Or.inl (List.mem_cons_of_mem _ h)
        · exact Or.inr h
    · exact Or.inl h

theorem boxOf_eq_none (m : boxMapType) (i : Nat) (h : ∀ e ∈ m, e.1 ≠ i) :
    boxOf m i = none := by
  induction m with
  | nil => rfl
  | cons e rest ih =>
    obtain ⟨j, c⟩ := e
    have hj : j ≠ i := h (j, c) (List.mem_cons_self _ _)
    simp only [boxOf, hj, if_false]
    exact ih (fun e he => h e (List.mem_cons_of_mem _ he))

theorem boxOf_boxMapInsert (i : Nat) (b : HBox) (m : boxMapType) (k : Nat)
    (habs : ∀ e ∈ m, e.1 ≠ i) :
    boxOf (boxMapInsert i b m) k = if i = k then some b else boxOf m k := by
  induction m with
  | nil => simp only [boxMapInsert, boxOf]
  | cons e rest ih =>
    obtain ⟨j, c⟩ := e
    have hj : j ≠ i := habs (j, c) (List.mem_cons_self _ _)
    have ih' := ih (fun e he => habs e (List.mem_cons_of_mem _ he))
    simp only [boxMapInsert]
    by_cases h1 : i < j
    · rw [if_pos h1]
      simp only [boxOf]
    · rw [if_neg h1]
      by_cases h2 : j < i
      · rw [if_pos h2]
        simp only [boxOf, ih']
        by_cases h3 : i = k
        · subst h3
          simp only [if_neg hj, if_true]
        · simp only [if_neg h3]
      · omega

theorem length_indexMapInsert (b : HBox) (i : Nat) (m : indexMapType)
    (habs : ∀ e ∈ m, e.1.isSame b = false) :
    (indexMapInsert b i m).length = m.length + 1 := by
  induction m with
  | nil => rfl
  | cons e rest ih =>
    obtain ⟨c, j⟩ := e
    have hcb : c.isSame b = false := habs (c, j) (List.mem_cons_self _ _)
    have ih' := ih (fun e he => habs e (List.mem_cons_of_mem _ he))
    simp only [indexMapInsert]
    split_ifs with h1 h2
    · rfl
    · simp [ih']
    · exfalso
      have hsame := isSame_of_not_compare c b h1 h2
      rw [hcb] at hsame
      exact Bool.noConfusion hsame

theorem length_boxMapInsert (i : Nat) (b : HBox) (m : boxMapType)
    (habs : ∀ e ∈ m, e.1 ≠ i) : (boxMapInsert i b m).length = m.length + 1 := by
  induction m with
  | nil => rfl
  | cons e rest ih =>
    obtain ⟨j, c⟩ := e
    have hj : j ≠ i := habs (j, c) (List.mem_cons_self _ _)
    have ih' := ih (fun e he => habs e (List.mem_cons_of_mem _ he))
    simp only [boxMapInsert]
    split_ifs with h1 h2
    · rfl
    · simp [ih']
    · omega

/-- What the loop of `_makeMap` leaves in the two maps, for boxes with pairwise distinct
identities that are not yet keys of the index map, and a counter above all used indices. -/
theorem makeMapLoop_spec (bs : List HBox) :
    ∀ (c : Nat) (im : indexMapType) (bm : boxMapType),
      bs.Pairwise (fun a b => a.isSame b = false) →
      (∀ e ∈ im, ∀ b ∈ bs, e.1.isSame b = false) →
      (∀ e ∈ bm, e.1 < c) →
      (∀ k b, bs[k]? = some b → indexOf (_makeMapLoop bs c (im, bm)).1 b = some (c + k)) ∧
      (∀ x, (∀ b ∈ bs, b.isSame x = false) →
        indexOf (_makeMapLoop bs c (im, bm)).1 x = indexOf im x) ∧
      (∀ k b, bs[k]? = some b → boxOf (_makeMapLoop bs c (im, bm)).2 (c + k) = some b) ∧
      (∀ i, i < c → boxOf (_makeMapLoop bs c (im, bm)).2 i = boxOf bm i) ∧
      (∀ i, c + bs.length ≤ i → boxOf (_makeMapLoop bs c (im, bm)).2 i = boxOf bm i) ∧
      (_makeMapLoop bs c (im, bm)).1.length = im.length + bs.length ∧
      (_makeMapLoop bs c (im, bm)).2.length = bm.length + bs.length := by
  induction bs with
  | nil =>
    intro c im bm _ _ _
    simp [_makeMapLoop]
  | cons b bs ih =>
    intro c im bm hbs him hbm
    rw [List.pairwise_cons] at hbs
    obtain ⟨hb, hbs⟩ := hbs
    have habs : ∀ e ∈ im, e.1.isSame b = false :=
      fun e he => him e he b (List.mem_cons_self _ _)
    have hkeys : ∀ e ∈ bm, e.1 ≠ c := fun e he => Nat.ne_of_lt (hbm e he)
    have him' : ∀ e ∈ indexMapInsert b c im, ∀ b' ∈ bs, e.1.isSame b' = false := by
      intro e he b' hb'
      rcases mem_indexMapInsert b c im e he with h | h
      · exact him e h b' (List.mem_cons_of_mem _ hb')
      · rw [h]; exact hb b' hb'
    have hbm' : ∀ e ∈ boxMapInsert c b bm, e.1 < c + 1 := by
      intro e he
      rcases mem_boxMapInsert c b bm e he with h | h
      · exact Nat.lt_succ_of_lt (hbm e h)
      · rw [h]; exact Nat.lt_succ_self c
    obtain ⟨ih1, ih2, ih3, ih4, ih5, ih6, ih7⟩ :=
      ih (c + 1) (indexMapInsert b c im) (boxMapInsert c b bm) hbs him' hbm'
    have hb' : ∀ b' ∈ bs, b'.isSame b = false := by
      intro b' hmem
      rw [isSame_symm]; exact hb b' hmem
    simp only [_makeMapLoop]
    refine ⟨?_, ?_, ?_, ?_, ?_, ?_, ?_⟩
    · intro k x hk
      cases k with
      | zero =>
        simp only [List.getElem?_cons_zero, Option.some.injEq] at hk
        subst hk
        rw [ih2 b hb', indexOf_indexMapInsert b c im b habs, if_pos (isSame_refl b)]
        rfl
      | succ k =>
        simp only [List.getElem?_cons_succ] at hk
        rw [ih1 k x hk]
        congr 1
        omega
    · intro x hx
      have hxb : x.isSame b = false := by
        rw [isSame_symm]; exact hx b (List.mem_cons_self _ _)
      rw [ih2 x (fun b' hmem => hx b' (List.mem_cons_of_mem _ hmem)),
        indexOf_indexMapInsert b c im x habs]
      simp [hxb]
    · intro k x hk
      cases k with
      | zero =>
        simp only [List.getElem?_cons_zero, Option.some.injEq] at hk
        subst hk
        show boxOf (_makeMapLoop bs (c + 1) (indexMapInsert b c im, boxMapInsert c b bm)).2 c
          = some b
        rw [ih4 c (Nat.lt_succ_self c), boxOf_boxMapInsert c b bm c hkeys, if_pos rfl]
      | succ k =>
        simp only [List.getElem?_cons_succ] at hk
        have := ih3 k x hk
        rw [show c + (k + 1) = c + 1 + k by omega]
        exact this
    · intro i hi
      rw [ih4 i (Nat.lt_succ_of_lt hi), boxOf_boxMapInsert c b bm i hkeys,
        if_neg (Nat.ne_of_gt hi)]
    · intro i hi
      simp only [List.length_cons] at hi
      rw [ih5 i (by omega), boxOf_boxMapInsert c b bm i hkeys, if_neg (by omega)]
    · rw [ih6, length_indexMapInsert b c im habs]
      simp only [List.length_cons]
      omega
    · rw [ih7, length_boxMapInsert c b bm hkeys]
      simp only [List.length_cons]
      omega

theorem boxOf_makeMap (input : Mesh)
    (hwf : (elementsFrom 0 input).Pairwise (fun a b => a.isSame b = false)) (i : Nat) :
    boxOf (_makeMap input).2 i = (elementsFrom 0 input)[i]? := by
  obtain ⟨_, _, h3, _, h5, _, _⟩ := makeMapLoop_spec (elementsFrom 0 input) 0 [] [] hwf
    (fun e he => absurd he (List.not_mem_nil e)) (fun e he => absurd he (List.not_mem_nil e))
  by_cases hi : i < (elementsFrom 0 input).length
  · have hget : (elementsFrom 0 input)[i]? = some ((elementsFrom 0 input)[i]) :=
      List.getElem?_eq_getElem hi
    have := h3 i _ hget
    rw [Nat.zero_add] at this
    rw [hget]
    exact this
  · have hlen : (elementsFrom 0 input).length ≤ i := Nat.le_of_not_lt hi
    rw [List.getElem?_eq_none hlen]
    have := h5 i (by omega)
    simpa [_makeMap, boxOf] using this

theorem indexOf_makeMap_getElem (input : Mesh)
    (hwf : (elementsFrom 0 input).Pairwise (fun a b => a.isSame b = false)) (k : Nat) (b : HBox)
    (hk : (elementsFrom 0 input)[k]? = some b) : indexOf (_makeMap input).1 b = some k := by
  obtain ⟨h1, _, _, _, _, _, _⟩ := makeMapLoop_spec (elementsFrom 0 input) 0 [] [] hwf
    (fun e he => absurd he (List.not_mem_nil e)) (fun e he => absurd he (List.not_mem_nil e))
  have := h1 k b hk
  rw [Nat.zero_add] at this
  exact this

/-- C6: after `_makeMap` on a well-formed mesh snapshot (the enumerated elements have
pairwise distinct identities) with `n` elements, `boxOf` is defined exactly on the indices
`0..n-1` and returns the `i`-th enumerated element, `indexOf (boxOf i) = i` for every valid
index, `indexOf` only returns valid indices, `boxOf (indexOf b)` is structurally equal to
`b` for every box of the snapshot, both maps have `n` entries, and a mesh without
elements yields two empty maps. -/
theorem makeMap_mutually_inverse (input : Mesh)
    (hwf : (elementsFrom 0 input).Pairwise (fun a b => a.isSame b = false)) :
    (∀ i, boxOf (_makeMap input).2 i = (elementsFrom 0 input)[i]?) ∧
    (∀ i, i < (elementsFrom 0 input).length →
      ∃ b, boxOf (_makeMap input).2 i = some b ∧ indexOf (_makeMap input).1 b = some i) ∧
    (∀ i, (elementsFrom 0 input).length ≤ i → boxOf (_makeMap input).2 i = none) ∧
    (∀ b i, indexOf (_makeMap input).1 b = some i → i < (elementsFrom 0 input).length) ∧
    (∀ b ∈ elementsFrom 0 input, ∃ i b', indexOf (_makeMap input).1 b = some i ∧
      boxOf (_makeMap input).2 i = some b' ∧ b'.isSame b = true) ∧
    (_makeMap input).1.length = (elementsFrom 0 input).length ∧
    (_makeMap input).2.length = (elementsFrom 0 input).length ∧
    (elementsFrom 0 input = [] → _makeMap input = ([], [])) := by
  obtain ⟨_, h2, _, _, _, h6, h7⟩ := makeMapLoop_spec (elementsFrom 0 input) 0 [] [] hwf
    (fun e he => absurd he (List.not_mem_nil e)) (fun e he => absurd he (List.not_mem_nil e))
  refine ⟨boxOf_makeMap input hwf, ?_, ?_, ?_, ?_, ?_, ?_, ?_⟩
  · intro i hi
    have hget : (elementsFrom 0 input)[i]? = some ((elementsFrom 0 input)[i]) :=
      List.getElem?_eq_getElem hi
    exact ⟨_, (boxOf_makeMap input hwf i).trans hget,
      indexOf_makeMap_getElem input hwf i _ hget⟩
  · intro i hi
    rw [boxOf_makeMap input hwf i]
    exact List.getElem?_eq_none hi
  · intro b i hbi
    by_cases hex : ∃ b' ∈ elementsFrom 0 input, b'.isSame b = true
    · obtain ⟨b', hmem, hsame⟩ := hex
      obtain ⟨k, hk, hkb⟩ := List.getElem_of_mem hmem
      have hget : (elementsFrom 0 input)[k]? = some b' := by
        rw [List.getElem?_eq_getElem hk, hkb]
      have hidx := indexOf_makeMap_getElem input hwf k b' hget
      rw [indexOf_congr _ b' b hsame, hbi] at hidx
      have : i = k := Option.some.inj hidx
      omega
    · have hnone : ∀ b' ∈ elementsFrom 0 input, b'.isSame b = false := by
        intro b' hmem
        by_contra hne
        exact hex ⟨b', hmem, by simpa using hne⟩
      have := h2 b hnone
      rw [show (_makeMapLoop (elementsFrom 0 input) 0 ([], [])) = _makeMap input from rfl,
        hbi] at this
      simp [indexOf] at this
  · intro b hmem
    obtain ⟨k, hk, hkb⟩ := List.getElem_of_mem hmem
    have hget : (elementsFrom 0 input)[k]? = some b := by
      rw [List.getElem?_eq_getElem hk, hkb]
    exact ⟨k, b, indexOf_makeMap_getElem input hwf k b hget,
      (boxOf_makeMap input hwf k).trans hget, isSame_refl b⟩
  · simpa [_makeMap] using h6
  · simpa [_makeMap] using h7
  · intro hnil
    simp [_makeMap, hnil, _makeMapLoop]

/-- Witness for C6 on the uniform four-element mesh: its elements have pairwise
distinct identities, so every index below four is sent to a box that is sent back to it. -/
theorem makeMap_mutually_inverse_witness :
    (elementsFrom 0 uniformMesh4).Pairwise (fun a b => a.isSame b = false) ∧
    (∀ i, i < (elementsFrom 0 uniformMesh4).length →
      ∃ b, boxOf (_makeMap uniformMesh4).2 i = some b ∧
        indexOf (_makeMap uniformMesh4).1 b = some i) :=
  ⟨by decide, (makeMap_mutually_inverse uniformMesh4 (by decide)).2.1⟩

/-! ### Error assignment -/

theorem boxOf_boxMapSetError (k : Nat) (e : ℚ) (m : boxMapType) (i : Nat) :
    boxOf (boxMapSetError k e m) i =
      if i = k then (boxOf m i).map (fun b => b.setError e) else boxOf m i := by
  induction m with
  | nil => simp [boxMapSetError, boxOf]
  | cons x rest ih =>
    obtain ⟨j, c⟩ := x
    simp only [boxMapSetError]
    by_cases hjk : j = k
    · subst hjk
      rw [if_pos rfl]
      simp only [boxOf]
      by_cases hji : j = i
      · subst hji
        simp
      · have hij : ¬ i = j := fun h => hji h.symm
        simp [hji, hij]
    · rw [if_neg hjk]
      simp only [boxOf, ih]
      by_cases hji : j = i
      · subst hji
        simp [hjk]
      · simp [hji]

theorem boxMapSetError_identity (k : Nat) (e : ℚ) (m : boxMapType) :
    (boxMapSetError k e m).map (fun x => (x.1, x.2.patch, x.2.level, x.2.lower, x.2.upper)) =
      m.map (fun x => (x.1, x.2.patch, x.2.level, x.2.lower, x.2.upper)) := by
  induction m with
  | nil => rfl
  | cons x rest ih =>
    obtain ⟨j, c⟩ := x
    simp only [boxMapSetError]
    by_cases hjk : j = k
    · rw [if_pos hjk]
      simp [HBox.setError]
    · rw [if_neg hjk]
      simp only [List.map_cons, ih]

theorem assignErrorsLoop_identity (es : List ℚ) :
    ∀ (k : Nat) (m : boxMapType),
      (_assignErrorsLoop k es m).map
          (fun x => (x.1, x.2.patch, x.2.level, x.2.lower, x.2.upper)) =
        m.map (fun x => (x.1, x.2.patch, x.2.level, x.2.lower, x.2.upper)) := by
  induction es with
  | nil =>
    intro k m
    rfl
  | cons e es ih =>
    intro k m
    simp only [_assignErrorsLoop]
    rw [ih (k + 1) (boxMapSetError k e m), boxMapSetError_identity]

theorem boxOf_assignErrorsLoop_outside (es : List ℚ) :
    ∀ (k : Nat) (m : boxMapType) (i : Nat), (i < k ∨ k + es.length ≤ i) →
      boxOf (_assignErrorsLoop k es m) i = boxOf m i := by
  induction es with
  | nil =>
    intro k m i _
    rfl
  | cons e es ih =>
    intro k m i hi
    simp only [_assignErrorsLoop]
    simp only [List.length_cons] at hi
    rw [ih (k + 1) _ i (by omega), boxOf_boxMapSetError, if_neg (by omega)]

theorem boxOf_assignErrorsLoop (es : List ℚ) :
    ∀ (k : Nat) (m : boxMapType) (j : Nat) (e : ℚ), es[j]? = some e →
      boxOf (_assignErrorsLoop k es m) (k + j) =
        (boxOf m (k + j)).map (fun b => b.setError e) := by
  induction es with
  | nil =>
    intro k m j e hj
    simp at hj
  | cons e₀ es ih =>
    intro k m j e hj
    simp only [_assignErrorsLoop]
    cases j with
    | zero =>
      simp only [List.getElem?_cons_zero, Option.some.injEq] at hj
      subst hj
      change boxOf (_assignErrorsLoop (k + 1) es (boxMapSetError k e₀ m)) k =
        Option.map (fun b => b.setError e₀) (boxOf m k)
      rw [boxOf_assignErrorsLoop_outside es (k + 1) _ k (Or.inl (Nat.lt_succ_self k)),
        boxOf_boxMapSetError, if_pos rfl]
    | succ j =>
      simp only [List.getElem?_cons_succ] at hj
      have := ih (k + 1) (boxMapSetError k e₀ m) j e hj
      rw [show k + (j + 1) = k + 1 + j by omega, this, boxOf_boxMapSetError,
        if_neg (by omega)]

/-- C7: `_assignErrors` fails (with the length-mismatch error) exactly when the length
of the error vector differs from the number of elements; when the lengths agree it
succeeds, the box stored under every index `i` receives the error `elError[i]`, and the
sequence of (index, patch, level, lower corner, upper corner) of the entries is
unchanged. -/
theorem assignErrors_spec (container : boxMapType) (elError : List ℚ) :
    ((∃ msg, _assignErrors container elError = Except.error msg) ↔
      elError.length ≠ container.length) ∧
    (elError.length = container.length →
      ∃ assigned, _assignErrors container elError = Except.ok assigned ∧
        (∀ i b e, boxOf container i = some b → elError[i]? = some e →
          boxOf assigned i = some { b with error := e }) ∧
        assigned.map (fun x => (x.1, x.2.patch, x.2.level, x.2.lower, x.2.upper)) =
          container.map (fun x => (x.1, x.2.patch, x.2.level, x.2.lower, x.2.upper))) := by
  constructor
  · constructor
    · rintro ⟨msg, hmsg⟩ hlen
      simp [_assignErrors, hlen] at hmsg
    · intro hlen
      simp [_assignErrors, hlen]
  · intro hlen
    refine ⟨_assignErrorsLoop 0 elError container, by simp [_assignErrors, hlen], ?_,
      assignErrorsLoop_identity elError 0 container⟩
    intro i b e hb he
    have := boxOf_assignErrorsLoop elError 0 container i e he
    rw [Nat.zero_add, hb] at this
    exact this

/-- Witness for C7: on the maps of the uniform four-element mesh the error vector
`[1, 10, 100, 1000]` has the right length and is written box by box. -/
theorem assignErrors_spec_witness :
    [(1 : ℚ), 10, 100, 1000].length = (_makeMap uniformMesh4).2.length ∧
    ∃ assigned,
      _assignErrors (_makeMap uniformMesh4).2 [1, 10, 100, 1000] = Except.ok assigned ∧
      (∀ i b e, boxOf (_makeMap uniformMesh4).2 i = some b →
        [(1 : ℚ), 10, 100, 1000][i]? = some e →
        boxOf assigned i = some { b with error := e }) ∧
      assigned.map (fun x => (x.1, x.2.patch, x.2.level, x.2.lower, x.2.upper)) =
        (_makeMap uniformMesh4).2.map
          (fun x => (x.1, x.2.patch, x.2.level, x.2.lower, x.2.upper)) :=
  ⟨by decide, (assignErrors_spec (_makeMap uniformMesh4).2 [1, 10, 100, 1000]).2 (by decide)⟩

/-! ### Sorting -/

theorem perm_orderedInsertBox (cmp : HBox → HBox → Bool) (b : HBox) (l : List HBox) :
    (orderedInsertBox cmp b l).Perm (b :: l) := by
  induction l with
  | nil => exact List.Perm.refl _
  | cons c cs ih =>
    simp only [orderedInsertBox]
    by_cases h : cmp b c = true
    · rw [if_pos h]
    · rw [if_neg h]
      exact (List.Perm.cons c ih).trans (List.Perm.swap b c cs)

theorem perm_sortBoxes (cmp : HBox → HBox → Bool) (l : List HBox) :
    (sortBoxes cmp l).Perm l := by
  induction l with
  | nil => exact List.Perm.refl _
  | cons b bs ih =>
    simp only [sortBoxes]
    exact (perm_orderedInsertBox cmp b _).trans (List.Perm.cons b ih)

theorem sorted_orderedInsertBox (cmp : HBox → HBox → Bool)
    (hasymm : ∀ a b, cmp a b = true → cmp b a = false)
    (htrans : ∀ a b c, cmp a b = true → cmp b c = true → cmp a c = true)
    (b : HBox) (l : List HBox) (hl : l.Pairwise (fun x y => cmp y x = false)) :
    (orderedInsertBox cmp b l).Pairwise (fun x y => cmp y x = false) := by
  induction l with
  | nil => simp [orderedInsertBox]
  | cons c cs ih =>
    rw [List.pairwise_cons] at hl
    obtain ⟨hc, hcs⟩ := hl
    simp only [orderedInsertBox]
    by_cases h : cmp b c = true
    · rw [if_pos h]
      refine List.Pairwise.cons ?_ (List.Pairwise.cons hc hcs)
      intro y hy
      rcases List.mem_cons.mp hy with hy | hy
      · rw [hy]; exact hasymm b c h
      · by_contra hyb
        have hyb' : cmp y b = true := by simpa using hyb
        have := htrans y b c hyb' h
        rw [hc y hy] at this
        exact Bool.noConfusion this
    · rw [if_neg h]
      refine List.Pairwise.cons ?_ (ih hcs)
      intro y hy
      rcases List.mem_cons.mp ((perm_orderedInsertBox cmp b cs).subset hy) with hy | hy
      · rw [hy]; simpa using h
      · exact hc y hy

theorem sorted_sortBoxes (cmp : HBox → HBox → Bool)
    (hasymm : ∀ a b, cmp a b = true → cmp b a = false)
    (htrans : ∀ a b c, cmp a b = true → cmp b c = true → cmp a c = true)
    (l : List HBox) : (sortBoxes cmp l).Pairwise (fun x y => cmp y x = false) := by
  induction l with
  | nil => exact List.Pairwise.nil
  | cons b bs ih =>
    simp only [sortBoxes]
    exact sorted_orderedInsertBox cmp hasymm htrans b _ ih

theorem gsHBoxCompare_asymm (a b : HBox) (h : gsHBoxCompare a b = true) :
    gsHBoxCompare b a = false := by
  by_contra h'
  have := gsHBoxCompare_trans a b a h (by simpa using h')
  rw [gsHBoxCompare_irrefl] at this
  exact Bool.noConfusion this

theorem gsSmallerErrCompare_iff (a b : HBox) : gsSmallerErrCompare a b = true ↔
    a.error < b.error ∨ (a.error = b.error ∧ gsHBoxCompare a b = true) := by
  simp [gsSmallerErrCompare]

theorem gsSmallerErrCompare_trans (a b c : HBox) (h₁ : gsSmallerErrCompare a b = true)
    (h₂ : gsSmallerErrCompare b c = true) : gsSmallerErrCompare a c = true := by
  rw [gsSmallerErrCompare_iff] at *
  rcases h₁ with h₁ | ⟨e₁, h₁⟩
  · rcases h₂ with h₂ | ⟨e₂, _⟩
    · exact Or.inl (lt_trans h₁ h₂)
    · exact Or.inl (e₂ ▸ h₁)
  · rcases h₂ with h₂ | ⟨e₂, h₂⟩
    · exact Or.inl (e₁ ▸ h₂)
    · exact Or.inr ⟨e₁.trans e₂, gsHBoxCompare_trans a b c h₁ h₂⟩

theorem gsSmallerErrCompare_asymm (a b : HBox) (h : gsSmallerErrCompare a b = true) :
    gsSmallerErrCompare b a = false := by
  by_contra h'
  have h'' : gsSmallerErrCompare b a = true := by simpa using h'
  rw [gsSmallerErrCompare_iff] at h h''
  rcases h with h | ⟨e, h⟩
  · rcases h'' with h'' | ⟨e', _⟩
    · exact lt_asymm h h''
    · rw [e'] at h; exact lt_irrefl _ h
  · rcases h'' with h'' | ⟨_, h''⟩
    · rw [e] at h''; exact lt_irrefl _ h''
    · rw [gsHBoxCompare_asymm a b h] at h''
      exact Bool.noConfusion h''

theorem perm_sortedCandidates (coarsen : Bool) (cands : boxMapType) :
    (sortedCandidates coarsen cands).Perm (cands.map Prod.snd) :=
  perm_sortBoxes _ _

/-- The coarsening order: errors ascend, ties in comparator order. -/
theorem sortedCandidates_coarsen_sorted (cands : boxMapType) :
    (sortedCandidates true cands).Pairwise
      (fun a b => a.error ≤ b.error ∧ (a.error = b.error → gsHBoxCompare b a = false)) := by
  have h := sorted_sortBoxes gsSmallerErrCompare gsSmallerErrCompare_asymm
    gsSmallerErrCompare_trans (cands.map Prod.snd)
  refine List.Pairwise.imp ?_ h
  intro a b hba
  have hn : ¬ (b.error < a.error ∨ (b.error = a.error ∧ gsHBoxCompare b a = true)) := by
    rw [← gsSmallerErrCompare_iff]
    simp [hba]
  constructor
  · exact not_lt.mp (fun hlt => hn (Or.inl hlt))
  · intro he
    by_contra hc
    exact hn (Or.inr ⟨he.symm, by simpa using hc⟩)

/-! ### Containers -/

theorem mem_insertBox (b : HBox) (l : List HBox) (x : HBox) (h : x ∈ insertBox b l) :
    x ∈ l ∨ x = b := by
  induction l with
  | nil =>
    simp only [insertBox, List.mem_singleton] at h
    exact Or.inr h
  | cons c cs ih =>
    simp only [insertBox] at h
    by_cases h1 : gsHBoxCompare b c = true
    · rw [if_pos h1] at h
      rcases List.mem_cons.mp h with h | h
      · exact Or.inr h
      · exact Or.inl h
    · rw [if_neg h1] at h
      by_cases h2 : gsHBoxCompare c b = true
      · rw [if_pos h2] at h
        rcases List.mem_cons.mp h with h | h
        · exact Or.inl (h ▸ List.mem_cons_self _ _)
        · rcases ih h with h | h
          · exact Or.inl (List.mem_cons_of_mem _ h)
          · exact Or.inr h
      · rw [if_neg h2] at h
        exact Or.inl h

theorem perm_insertBox (b : HBox) (l : List HBox) (habs : ∀ c ∈ l, c.isSame b = false) :
    (insertBox b l).Perm (b :: l) := by
  induction l with
  | nil => exact List.Perm.refl _
  | cons c cs ih =>
    have hcb : c.isSame b = false := habs c (List.mem_cons_self _ _)
    simp only [insertBox]
    by_cases h1 : gsHBoxCompare b c = true
    · rw [if_pos h1]
    · rw [if_neg h1]
      by_cases h2 : gsHBoxCompare c b = true
      · rw [if_pos h2]
        exact (List.Perm.cons c (ih (fun x hx => habs x (List.mem_cons_of_mem _ hx)))).trans
          (List.Perm.swap b c cs)
      · have hsame := isSame_of_not_compare c b h1 h2
        rw [hcb] at hsame
        exact Bool.noConfusion hsame

theorem mem_addAndMark (boxes : List HBox) :
    ∀ (elMarked : HBoxContainer) (x : HBox), x ∈ (_addAndMark boxes elMarked).boxes →
      x ∈ elMarked.boxes ∨ x ∈ boxes := by
  induction boxes with
  | nil =>
    intro elMarked x hx
    exact Or.inl hx
  | cons b bs ih =>
    intro elMarked x hx
    simp only [_addAndMark, List.foldl_cons] at hx
    rcases ih (elMarked.add b) x hx with h | h
    · rcases mem_insertBox b elMarked.boxes x h with h | h
      · exact Or.inl h
      · exact Or.inr (h ▸ List.mem_cons_self _ _)
    · exact Or.inr (List.mem_cons_of_mem _ h)

theorem perm_addAndMark (boxes : List HBox) :
    ∀ (elMarked : HBoxContainer),
      boxes.Pairwise (fun a b => a.isSame b = false) →
      (∀ c ∈ elMarked.boxes, ∀ b ∈ boxes, c.isSame b = false) →
      (_addAndMark boxes elMarked).boxes.Perm (elMarked.boxes ++ boxes) := by
  induction boxes with
  | nil =>
    intro elMarked _ _
    simp [_addAndMark]
  | cons b bs ih =>
    intro elMarked hp habs
    rw [List.pairwise_cons] at hp
    obtain ⟨hb, hbs⟩ := hp
    have hins : (elMarked.add b).boxes.Perm (b :: elMarked.boxes) :=
      perm_insertBox b elMarked.boxes (fun c hc => habs c hc b (List.mem_cons_self _ _))
    have habs' : ∀ c ∈ (elMarked.add b).boxes, ∀ x ∈ bs, c.isSame x = false := by
      intro c hc x hx
      rcases List.mem_cons.mp (hins.subset hc) with h | h
      · rw [h]; exact hb x hx
      · exact habs c h x (List.mem_cons_of_mem _ hx)
    have h := ih (elMarked.add b) hbs habs'
    simp only [_addAndMark, List.foldl_cons] at h ⊢
    refine h.trans ?_
    refine (List.Perm.append_right bs hins).trans ?_
    simp only [List.cons_append]
    exact (List.perm_middle).symm

/-! ### The fraction rule -/

theorem accumulateUntil_eq_take (target : ℚ) (l : List HBox) :
    ∀ cum, accumulateUntil target l cum = l.take (accumulateUntil target l cum).length := by
  induction l with
  | nil =>
    intro cum
    rfl
  | cons b bs ih =>
    intro cum
    simp only [accumulateUntil]
    by_cases h : target ≤ cum
    · simp [h]
    · simp only [if_neg h, List.length_cons, List.take_succ_cons]
      rw [← ih (cum + b.error)]

theorem mem_closureCrs (neighbors : HBox → List HBox) (m : Nat) :
    ∀ (fuel : Nat) (marked : List HBox) (b : HBox),
      b ∈ closureCrs neighbors m fuel marked → b ∈ marked := by
  intro fuel
  induction fuel with
  | zero =>
    intro marked b h
    exact h
  | succ fuel ih =>
    intro marked b h
    simp only [closureCrs] at h
    split_ifs at h with hlen
    · exact h
    · exact List.mem_of_mem_filter (ih _ b h)

theorem scenarioBoxes_eq :
    _assignErrors (_makeMap uniformMesh4).2 [1, 10, 100, 1000] = Except.ok scenarioBoxes := by
  rfl

theorem foldl_max_spec (l : boxMapType) :
    ∀ init : ℚ,
      init ≤ l.foldl (fun acc y => max acc y.2.error) init ∧
      (∀ y ∈ l, y.2.error ≤ l.foldl (fun acc y => max acc y.2.error) init) ∧
      (l.foldl (fun acc y => max acc y.2.error) init = init ∨
        ∃ y ∈ l, y.2.error = l.foldl (fun acc y => max acc y.2.error) init) := by
  induction l with
  | nil =>
    intro init
    simp
  | cons x rest ih =>
    intro init
    obtain ⟨h1, h2, h3⟩ := ih (max init x.2.error)
    simp only [List.foldl_cons]
    refine ⟨le_trans (le_max_left _ _) h1, ?_, ?_⟩
    · intro y hy
      rcases List.mem_cons.mp hy with hy | hy
      · rw [hy]; exact le_trans (le_max_right _ _) h1
      · exact h2 y hy
    · rcases h3 with h3 | ⟨y, hy, hye⟩
      · rcases max_choice init x.2.error with hm | hm
        · left; rw [h3, hm]
        · right; exact ⟨x, List.mem_cons_self _ _, by rw [h3, hm]⟩
      · right; exact ⟨y, List.mem_cons_of_mem _ hy, hye⟩

/-- On a non-empty set `_maxError` is the largest error: it is attained and bounds all. -/
theorem maxError_spec (cands : boxMapType) (hne : cands ≠ []) :
    (∃ x ∈ cands, x.2.error = _maxError cands) ∧ ∀ x ∈ cands, x.2.error ≤ _maxError cands := by
  cases cands with
  | nil => exact absurd rfl hne
  | cons x rest =>
    obtain ⟨h1, h2, h3⟩ := foldl_max_spec rest x.2.error
    simp only [_maxError]
    constructor
    · rcases h3 with h3 | ⟨y, hy, hye⟩
      · exact ⟨x, List.mem_cons_self _ _, h3.symm⟩
      · exact ⟨y, List.mem_cons_of_mem _ hy, hye⟩
    · intro y hy
      rcases List.mem_cons.mp hy with hy | hy
      · rw [hy]; exact h1
      · exact h2 y hy

theorem mem_sortedCandidates (coarsen : Bool) (cands : boxMapType) (b : HBox)
    (h : b ∈ sortedCandidates coarsen cands) : b ∈ cands.map Prod.snd :=
  (perm_sortedCandidates coarsen cands).subset h

theorem mem_fractionSelect (coarsen : Bool) (cands : boxMapType) (p : ℚ) (b : HBox)
    (h : b ∈ fractionSelect coarsen cands p) : b ∈ cands.map Prod.snd := by
  apply mem_sortedCandidates coarsen
  have htake := accumulateUntil_eq_take (p * _totalError cands) (sortedCandidates coarsen cands) 0
  rw [fractionSelect, htake] at h
  exact List.mem_of_mem_take h

theorem mem_percentageSelect (coarsen : Bool) (cands : boxMapType) (p : ℚ) (b : HBox)
    (h : b ∈ percentageSelect coarsen cands p) : b ∈ cands.map Prod.snd := by
  apply mem_sortedCandidates coarsen
  rw [percentageSelect] at h
  exact List.mem_of_mem_take h

theorem mem_thresholdSelect (coarsen : Bool) (cands : boxMapType) (p : ℚ) (b : HBox)
    (h : b ∈ thresholdSelect coarsen cands p) : b ∈ cands.map Prod.snd := by
  apply mem_sortedCandidates coarsen
  rw [thresholdSelect] at h
  exact List.mem_of_mem_filter h

theorem checkBox_of_mem_candidates (elements : boxMapType) (predicates : List gsHBoxCheck)
    (b : HBox) (h : b ∈ (candidates elements predicates).map Prod.snd) :
    _checkBox b predicates = true := by
  obtain ⟨x, hx, hxb⟩ := List.mem_map.mp h
  rw [candidates, List.mem_filter] at hx
  rw [← hxb]
  exact hx.2

theorem level_of_mem_refViolators (neighbors : HBox → List HBox) (m : Nat)
    (marked : List HBox) (v : HBox) (h : v ∈ refViolators neighbors m marked) :
    ∃ b ∈ marked, v.level ≤ b.level := by
  simp only [refViolators, List.mem_flatMap, List.mem_filter, Bool.and_eq_true,
    decide_eq_true_eq] at h
  obtain ⟨b, hb, _, hlv, _⟩ := h
  exact ⟨b, hb, by omega⟩

theorem level_closureRef (neighbors : HBox → List HBox) (m : Nat) (maxLvl : Nat) :
    ∀ (fuel : Nat) (marked : List HBox), (∀ b ∈ marked, b.level < maxLvl) →
      ∀ b ∈ closureRef neighbors m fuel marked, b.level < maxLvl := by
  intro fuel
  induction fuel with
  | zero =>
    intro marked h b hb
    exact h b hb
  | succ fuel ih =>
    intro marked h b hb
    simp only [closureRef] at hb
    cases hv : refViolators neighbors m marked with
    | nil =>
      rw [hv] at hb
      exact h b hb
    | cons v vs =>
      rw [hv] at hb
      refine ih (marked ++ v :: vs) ?_ b hb
      intro x hx
      rcases List.mem_append.mp hx with hx | hx
      · exact h x hx
      · rw [← hv] at hx
        obtain ⟨y, hy, hle⟩ := level_of_mem_refViolators neighbors m marked x hx
        exact Nat.lt_of_le_of_lt hle (h y hy)

/-! ### The marking passes -/

theorem checkBox_of_mem_select (coarsen : Bool) (rule : MarkingStrategy)
    (elements : boxMapType) (predicates : List gsHBoxCheck) (p : ℚ) (b : HBox)
    (h : b ∈ (match rule with
      | MarkingStrategy.GARU => thresholdSelect coarsen (candidates elements predicates) p
      | MarkingStrategy.PUCA => percentageSelect coarsen (candidates elements predicates) p
      | MarkingStrategy.BULK => fractionSelect coarsen (candidates elements predicates) p)) :
    _checkBox b predicates = true := by
  apply checkBox_of_mem_candidates elements
  cases rule with
  | GARU => exact mem_thresholdSelect coarsen _ p b h
  | PUCA => exact mem_percentageSelect coarsen _ p b h
  | BULK => exact mem_fractionSelect coarsen _ p b h

/-- Every box that a coarsening pass puts into an empty container passed all predicates. -/
theorem markElements_crs_checked (admissible : Bool) (ext : External)
    (self : gsAdaptiveMeshing) (rule : MarkingStrategy) (p : ℚ)
    (predicates : List gsHBoxCheck) (b : HBox)
    (h : b ∈ (_markElements true admissible ext self rule p predicates ⟨[]⟩).boxes) :
    _checkBox b predicates = true := by
  cases rule <;> cases admissible <;>
    simp only [_markElements, _markThreshold, _markPercentage, _markFraction,
      _markThreshold_impl_crs_adm, _markThreshold_impl_crs_plain,
      _markPercentage_impl_crs_adm, _markPercentage_impl_crs_plain,
      _markFraction_impl_crs_adm, _markFraction_impl_crs_plain] at h <;>
    rcases mem_addAndMark _ _ b h with h | h <;>
    first
    | exact absurd h (List.not_mem_nil b)
    | exact checkBox_of_mem_select true MarkingStrategy.GARU self.m_boxes predicates p b h
    | exact checkBox_of_mem_select true MarkingStrategy.PUCA self.m_boxes predicates p b h
    | exact checkBox_of_mem_select true MarkingStrategy.BULK self.m_boxes predicates p b h
    | exact checkBox_of_mem_select true MarkingStrategy.GARU self.m_boxes predicates p b
        (mem_closureCrs _ _ _ _ b h)
    | exact checkBox_of_mem_select true MarkingStrategy.PUCA self.m_boxes predicates p b
        (mem_closureCrs _ _ _ _ b h)
    | exact checkBox_of_mem_select true MarkingStrategy.BULK self.m_boxes predicates p b
        (mem_closureCrs _ _ _ _ b h)

/-- Every box that a refinement pass puts into an empty container is below `maxLvl`,
when the predicates only accept boxes below `maxLvl`. -/
theorem markElements_ref_level (admissible : Bool) (ext : External)
    (self : gsAdaptiveMeshing) (rule : MarkingStrategy) (p : ℚ)
    (predicates : List gsHBoxCheck) (maxLvl : Nat)
    (hpred : ∀ b, _checkBox b predicates = true → b.level < maxLvl) (b : HBox)
    (h : b ∈ (_markElements false admissible ext self rule p predicates ⟨[]⟩).boxes) :
    b.level < maxLvl := by
  cases rule <;> cases admissible <;>
    simp only [_markElements, _markThreshold, _markPercentage, _markFraction,
      _markThreshold_impl_ref_adm, _markThreshold_impl_ref_plain,
      _markPercentage_impl_ref_adm, _markPercentage_impl_ref_plain,
      _markFraction_impl_ref_adm, _markFraction_impl_ref_plain] at h <;>
    rcases mem_addAndMark _ _ b h with h | h <;>
    first
    | exact absurd h (List.not_mem_nil b)
    | exact hpred b
        (checkBox_of_mem_select false MarkingStrategy.GARU self.m_boxes predicates p b h)
    | exact hpred b
        (checkBox_of_mem_select false MarkingStrategy.PUCA self.m_boxes predicates p b h)
    | exact hpred b
        (checkBox_of_mem_select false MarkingStrategy.BULK self.m_boxes predicates p b h)
    | exact level_closureRef _ _ maxLvl _ _ (fun x hx => hpred x
        (checkBox_of_mem_select false MarkingStrategy.GARU self.m_boxes predicates p x hx)) b h
    | exact level_closureRef _ _ maxLvl _ _ (fun x hx => hpred x
        (checkBox_of_mem_select false MarkingStrategy.PUCA self.m_boxes predicates p x hx)) b h
    | exact level_closureRef _ _ maxLvl _ _ (fun x hx => hpred x
        (checkBox_of_mem_select false MarkingStrategy.BULK self.m_boxes predicates p x hx)) b h

theorem assignErrors_ok (container : boxMapType) (elError : List ℚ)
    (hlen : elError.length = container.length) :
    _assignErrors container elError = Except.ok (_assignErrorsLoop 0 elError container) := by
  simp [_assignErrors, hlen]

/-- C4: for every engine configuration (any coarsening rule and parameter, admissibility
on or off, any external neighbour relation), every refinement container `markedRef` and
every error vector of the right length, `markCrs_into` produces a container none of whose
boxes is structurally equal to a box of `markedRef`.  The refinement container is an
input of the pass only, so on a conflict the box stays in it and nowhere else. -/
theorem markCrs_into_disjoint (ext : External) (self : gsAdaptiveMeshing)
    (elError : List ℚ) (markedRef : HBoxContainer)
    (hlen : elError.length = self.m_boxes.length) :
    ∃ engine elMarked,
      markCrs_into ext self elError markedRef = Except.ok (engine, elMarked) ∧
      (∀ c ∈ elMarked.boxes, ∀ r ∈ markedRef.boxes,
        r.isSame c = false ∧ c.isSame r = false) ∧
      (∀ c ∈ elMarked.boxes, markedRef.contains c = false) := by
  refine ⟨_, _, by rw [markCrs_into, assignErrors_ok _ _ hlen], ?_⟩
  have hcontains : ∀ c ∈ (_markElements true self.m_admissible ext
      { self with m_boxes := _assignErrorsLoop 0 elError self.m_boxes }
      self.m_crsRule self.m_crsParam (_crsPredicates_into_markedRef self markedRef)
      ⟨[]⟩).boxes, markedRef.contains c = false := by
    intro c hc
    have := markElements_crs_checked _ _ _ _ _ _ c hc
    simp only [_checkBox, _crsPredicates_into_markedRef, List.all_cons, List.all_nil,
      Bool.and_true, Bool.and_eq_true, Bool.not_eq_true', decide_eq_true_eq] at this
    exact this.2
  refine ⟨?_, hcontains⟩
  intro c hc r hr
  have hno := hcontains c hc
  simp only [HBoxContainer.contains, List.any_eq_false] at hno
  have hrc : r.isSame c = false := by simpa using hno r hr
  exact ⟨hrc, by rw [isSame_symm]; exact hrc⟩

/-- Witness for C4 on the graded mesh with admissibility switched on: the error vector
has the right length, and the coarsening pass avoids the box of level 1 that the
refinement container holds. -/
theorem markCrs_into_disjoint_witness :
    gradedErrors.length = (gradedEngine true).m_boxes.length ∧
    ∃ engine elMarked,
      markCrs_into dyadic (gradedEngine true) gradedErrors ⟨[⟨0, 1, [1, 1], [2, 2], 0⟩]⟩ =
        Except.ok (engine, elMarked) ∧
      (∀ c ∈ elMarked.boxes, ∀ r ∈ [(⟨0, 1, [1, 1], [2, 2], 0⟩ : HBox)],
        r.isSame c = false ∧ c.isSame r = false) ∧
      (∀ c ∈ elMarked.boxes,
        HBoxContainer.contains ⟨[⟨0, 1, [1, 1], [2, 2], 0⟩]⟩ c = false) :=
  ⟨by decide, markCrs_into_disjoint dyadic (gradedEngine true) gradedErrors
    ⟨[⟨0, 1, [1, 1], [2, 2], 0⟩]⟩ (by decide)⟩

/-- C5: for every engine configuration (any rule, any parameter, admissibility on or
off, any external neighbour relation) and every error vector of the right length, the
container produced by `markRef_into` holds only boxes of level below `maxLevel`, so it
holds no box at `maxLevel`, whatever its error; and the containers produced by both
overloads of `markCrs_into` hold no box of level 0. -/
theorem markRef_into_below_maxLevel (ext : External) (self : gsAdaptiveMeshing)
    (elError : List ℚ) (markedRef : HBoxContainer)
    (hlen : elError.length = self.m_boxes.length) :
    (∃ engine elMarked, markRef_into ext self elError = Except.ok (engine, elMarked) ∧
      ∀ b ∈ elMarked.boxes, b.level < self.m_maxLvl ∧ b.level ≠ self.m_maxLvl) ∧
    (∃ engine elMarked,
      markCrs_into ext self elError markedRef = Except.ok (engine, elMarked) ∧
      ∀ b ∈ elMarked.boxes, b.level ≠ 0) ∧
    (∃ engine elMarked, markCrs_into_plain ext self elError = Except.ok (engine, elMarked) ∧
      ∀ b ∈ elMarked.boxes, b.level ≠ 0) := by
  refine ⟨⟨_, _, by rw [markRef_into, assignErrors_ok _ _ hlen], ?_⟩,
    ⟨_, _, by rw [markCrs_into, assignErrors_ok _ _ hlen], ?_⟩,
    ⟨_, _, by rw [markCrs_into_plain, assignErrors_ok _ _ hlen], ?_⟩⟩
  · intro b hb
    have hlt : b.level < self.m_maxLvl := by
      refine markElements_ref_level _ _ _ _ _ _ self.m_maxLvl ?_ b hb
      intro x hx
      simpa [_checkBox, _refPredicates_into] using hx
    exact ⟨hlt, Nat.ne_of_lt hlt⟩
  · intro b hb
    have := markElements_crs_checked _ _ _ _ _ _ b hb
    simp only [_checkBox, _crsPredicates_into_markedRef, List.all_cons, List.all_nil,
      Bool.and_true, Bool.and_eq_true, Bool.not_eq_true', decide_eq_true_eq] at this
    exact Nat.pos_iff_ne_zero.mp this.1
  · intro b hb
    have := markElements_crs_checked _ _ _ _ _ _ b hb
    have hpos : 0 < b.level := by
      simpa [_checkBox, _crsPredicates_into] using this
    exact Nat.pos_iff_ne_zero.mp hpos

/-- Witness for C5 on the graded mesh with maximum level 1: the largest error `1000`
sits on a box of level 1, and the refinement pass marks no box of level 1. -/
theorem markRef_into_below_maxLevel_witness :
    gradedErrors.length = (gradedEngine false).m_boxes.length ∧
    boxOf (_assignErrorsLoop 0 gradedErrors (gradedEngine false).m_boxes) 0 =
      some ⟨0, 1, [0, 0], [1, 1], 1000⟩ ∧
    ∃ engine elMarked,
      markRef_into dyadic (gradedEngine false) gradedErrors = Except.ok (engine, elMarked) ∧
      ∀ b ∈ elMarked.boxes, b.level < 1 ∧ b.level ≠ 1 :=
  ⟨by decide, by decide, (markRef_into_below_maxLevel dyadic (gradedEngine false)
    gradedErrors ⟨[]⟩ (by decide)).1⟩

/-! ### The no-argument overloads -/

/-- C9: for every engine state (and every external representation) the no-argument
`refine()` has the same result and the same effect as `refine(c)` for the standing
refinement container `c = m_markedRef`. -/
theorem refine_noarg_eq_refine_markedRef (ext : External) (self : gsAdaptiveMeshing) :
    refine_noarg ext self = refine ext self self.m_markedRef :=
  rfl

/-- Example for C9: on `cornerMarkedEngine` the no-argument `refine()` succeeds and
subdivides the box of the standing refinement container into its four children, as
`refine(m_markedRef)` does. -/
theorem refine_noarg_eq_refine_markedRef_witness :
    refine_noarg dyadic cornerMarkedEngine =
      refine dyadic cornerMarkedEngine cornerMarkedEngine.m_markedRef ∧
    (refine_noarg dyadic cornerMarkedEngine).1 = true ∧
    (refine_noarg dyadic cornerMarkedEngine).2.m_input =
      [[⟨1, [0, 0], [1, 1]⟩, ⟨1, [1, 0], [2, 1]⟩, ⟨1, [0, 1], [1, 2]⟩, ⟨1, [1, 1], [2, 2]⟩,
        ⟨0, [1, 0], [2, 1]⟩, ⟨0, [0, 1], [1, 2]⟩,
        ⟨1, [2, 2], [3, 3]⟩, ⟨1, [3, 2], [4, 3]⟩, ⟨1, [2, 3], [3, 4]⟩,
        ⟨1, [3, 3], [4, 4]⟩]] :=
  ⟨refine_noarg_eq_refine_markedRef dyadic cornerMarkedEngine, by decide, by decide⟩

/-- C8, the code at a failing input: the no-argument `unrefine()` always applies
`unrefine` to the standing refinement container `m_markedRef`.  On `refMarkedEngine`,
where nothing is marked for coarsening, `unrefine(m_markedCrs)` leaves the seven
elements of the mesh untouched, while `unrefine()` merges the four boxes of level 1
around the box marked for refinement and leaves four elements of level 0. -/
theorem unrefine_noarg_applies_markedRef :
    (∀ (ext : External) (self : gsAdaptiveMeshing),
      unrefine_noarg ext self = unrefine ext self self.m_markedRef) ∧
    (unrefine dyadic refMarkedEngine refMarkedEngine.m_markedCrs).1 = true ∧
    (unrefine dyadic refMarkedEngine refMarkedEngine.m_markedCrs).2.m_input = gradedMesh ∧
    (unrefine_noarg dyadic refMarkedEngine).1 = true ∧
    (unrefine_noarg dyadic refMarkedEngine).2.m_input =
      [[⟨0, [0, 0], [1, 1]⟩, ⟨0, [1, 0], [2, 1]⟩, ⟨0, [0, 1], [1, 2]⟩,
        ⟨0, [1, 1], [2, 2]⟩]] ∧
    (unrefine_noarg dyadic refMarkedEngine).2.m_input ≠
      (unrefine dyadic refMarkedEngine refMarkedEngine.m_markedCrs).2.m_input :=
  ⟨fun _ _ => rfl, by decide, by decide, by decide, by decide, by decide⟩

/-! ### The box comparator as a strict total order -/

/-- C10: the box comparator compares by patch, then level, then lower corner
lexicographically, then upper corner lexicographically; it is irreflexive, transitive,
and total on distinct identities (of two boxes that differ in patch, level, lower or
upper corner one is less than the other); two boxes with the same identity, whatever
their errors, are equivalent: neither is less than the other. -/
theorem gsHBoxCompare_strict_total_order :
    (∀ a b : HBox, gsHBoxCompare a b = true ↔
      a.patch < b.patch ∨ (a.patch = b.patch ∧ (a.level < b.level ∨ (a.level = b.level ∧
        (List.Lex (· < ·) a.lower b.lower ∨
          (a.lower = b.lower ∧ List.Lex (· < ·) a.upper b.upper)))))) ∧
    (∀ a : HBox, gsHBoxCompare a a = false) ∧
    (∀ a b c : HBox, gsHBoxCompare a b = true → gsHBoxCompare b c = true →
      gsHBoxCompare a c = true) ∧
    (∀ a b : HBox,
      ¬ (a.patch = b.patch ∧ a.level = b.level ∧ a.lower = b.lower ∧ a.upper = b.upper) →
      gsHBoxCompare a b = true ∨ gsHBoxCompare b a = true) ∧
    (∀ a b : HBox,
      a.patch = b.patch → a.level = b.level → a.lower = b.lower → a.upper = b.upper →
      gsHBoxCompare a b = false ∧ gsHBoxCompare b a = false) ∧
    (∀ (a : HBox) (e : ℚ), gsHBoxCompare a { a with error := e } = false ∧
      gsHBoxCompare { a with error := e } a = false) := by
  refine ⟨gsHBoxCompare_iff, gsHBoxCompare_irrefl, gsHBoxCompare_trans, ?_, ?_, ?_⟩
  · intro a b hne
    apply gsHBoxCompare_total
    by_contra hs
    exact hne ((isSame_iff a b).mp (by simpa using hs))
  · intro a b h1 h2 h3 h4
    exact (isSame_iff_equiv a b).mp ((isSame_iff a b).mpr ⟨h1, h2, h3, h4⟩)
  · intro a e
    exact (isSame_iff_equiv a { a with error := e }).mp
      ((isSame_iff a { a with error := e }).mpr ⟨rfl, rfl, rfl, rfl⟩)

/-- Witness for C10 on two boxes of the scenario mesh: they differ in the lower corner,
and the comparator orders them; a copy of the first box with another error is
equivalent to it. -/
theorem gsHBoxCompare_strict_total_order_witness :
    (gsHBoxCompare ⟨0, 0, [0, 0], [1, 1], 1⟩ ⟨0, 0, [1, 0], [2, 1], 10⟩ = true ∨
      gsHBoxCompare ⟨0, 0, [1, 0], [2, 1], 10⟩ ⟨0, 0, [0, 0], [1, 1], 1⟩ = true) ∧
    (gsHBoxCompare ⟨0, 0, [0, 0], [1, 1], 1⟩ ⟨0, 0, [0, 0], [1, 1], 1000⟩ = false ∧
      gsHBoxCompare ⟨0, 0, [0, 0], [1, 1], 1000⟩ ⟨0, 0, [0, 0], [1, 1], 1⟩ = false) :=
  ⟨gsHBoxCompare_strict_total_order.2.2.2.1 ⟨0, 0, [0, 0], [1, 1], 1⟩
      ⟨0, 0, [1, 0], [2, 1], 10⟩ (by decide),
    gsHBoxCompare_strict_total_order.2.2.2.2.1 ⟨0, 0, [0, 0], [1, 1], 1⟩
      ⟨0, 0, [0, 0], [1, 1], 1000⟩ rfl rfl rfl rfl⟩

/-! ## The weight mapper

### The list overloads of `sourceToTarget` and `targetToSource` -/

theorem perm_insertIdx (a : Int) (l : List Int) : (insertIdx a l).Perm (a :: l) := by
  induction l with
  | nil => exact List.Perm.refl _
  | cons b bs ih =>
    simp only [insertIdx]
    by_cases h : a ≤ b
    · rw [if_pos h]
    · rw [if_neg h]
      exact (List.Perm.cons b ih).trans (List.Perm.swap a b bs)

theorem perm_sortIdx (l : List Int) : (sortIdx l).Perm l := by
  induction l with
  | nil => exact List.Perm.refl _
  | cons a as ih =>
    simp only [sortIdx]
    exact (perm_insertIdx a _).trans (List.Perm.cons a ih)

theorem sorted_insertIdx (a : Int) (l : List Int) (hl : l.Pairwise (· ≤ ·)) :
    (insertIdx a l).Pairwise (· ≤ ·) := by
  induction l with
  | nil => simp [insertIdx]
  | cons b bs ih =>
    rw [List.pairwise_cons] at hl
    obtain ⟨hb, hbs⟩ := hl
    simp only [insertIdx]
    by_cases h : a ≤ b
    · rw [if_pos h]
      refine List.Pairwise.cons ?_ (List.Pairwise.cons hb hbs)
      intro y hy
      rcases List.mem_cons.mp hy with hy | hy
      · rw [hy]; exact h
      · exact le_trans h (hb y hy)
    · rw [if_neg h]
      refine List.Pairwise.cons ?_ (ih hbs)
      intro y hy
      rcases List.mem_cons.mp ((perm_insertIdx a bs).subset hy) with hy | hy
      · rw [hy]; exact le_of_lt (not_le.mp h)
      · exact hb y hy

theorem sorted_sortIdx (l : List Int) : (sortIdx l).Pairwise (· ≤ ·) := by
  induction l with
  | nil => exact List.Pairwise.nil
  | cons a as ih =>
    simp only [sortIdx]
    exact sorted_insertIdx a _ ih

theorem mem_uniqueIdx (l : List Int) (x : Int) : x ∈ uniqueIdx l ↔ x ∈ l := by
  induction l with
  | nil => simp [uniqueIdx]
  | cons a t ih =>
    cases t with
    | nil => simp [uniqueIdx]
    | cons b rest =>
      simp only [uniqueIdx]
      by_cases h : a = b
      · rw [if_pos h, ih]
        subst h
        simp
      · rw [if_neg h]
        simp only [List.mem_cons, ih]

theorem strict_uniqueIdx (l : List Int) (hl : l.Pairwise (· ≤ ·)) :
    (uniqueIdx l).Pairwise (· < ·) := by
  induction l with
  | nil => simp [uniqueIdx]
  | cons a t ih =>
    rw [List.pairwise_cons] at hl
    obtain ⟨ha, ht⟩ := hl
    cases t with
    | nil => simp [uniqueIdx]
    | cons b rest =>
      simp only [uniqueIdx]
      by_cases h : a = b
      · rw [if_pos h]
        exact ih ht
      · rw [if_neg h]
        refine List.Pairwise.cons ?_ (ih ht)
        intro y hy
        rw [mem_uniqueIdx] at hy
        have hab : a < b := lt_of_le_of_ne (ha b (List.mem_cons_self _ _)) h
        rw [List.pairwise_cons] at ht
        rcases List.mem_cons.mp hy with hy | hy
        · rw [hy]; exact hab
        · exact lt_of_lt_of_le hab (ht.1 y hy)

theorem collectLoop_fst (single : Int → List Int → List Int)
    (hover : ∀ s old, single s old = single s []) (indices : List Int) :
    ∀ (out res_i : List Int),
      (collectLoop single indices (out, res_i)).1 =
        out ++ indices.flatMap (fun s => single s []) := by
  induction indices with
  | nil =>
    intro out res_i
    simp [collectLoop]
  | cons s rest ih =>
    intro out res_i
    simp only [collectLoop, List.flatMap_cons]
    rw [ih, hover s res_i, List.append_assoc]

theorem listOverload_spec (single : Int → List Int → List Int)
    (hover : ∀ s old, single s old = single s []) (indices : List Int) :
    (uniqueIdx (sortIdx (collectLoop single indices ([], [])).1)).Pairwise (· < ·) ∧
    ∀ x, x ∈ uniqueIdx (sortIdx (collectLoop single indices ([], [])).1) ↔
      ∃ s ∈ indices, x ∈ single s [] := by
  refine ⟨strict_uniqueIdx _ (sorted_sortIdx _), ?_⟩
  intro x
  rw [mem_uniqueIdx, (perm_sortIdx _).mem_iff, collectLoop_fst single hover]
  simp [List.mem_flatMap]

/-- C13: assuming the single-index overloads overwrite their output vector, the list
overload `sourceToTarget(sources, target)` leaves `target` strictly increasing and
holding exactly the indices that the single-index overload returns for some element of
`sources`, whatever `target` held before; `targetToSource(targets, source)` does the same
with the roles exchanged; an empty input list gives an empty output. -/
theorem sourceToTarget_list_sorted_exact (hpp : gsWeightMapperHpp) (self : gsWeightMapper)
    (sources target targets source : List Int)
    (hs : ∀ s old, self.sourceToTarget_single hpp s old = self.sourceToTarget_single hpp s [])
    (ht : ∀ t old, self.targetToSource_single hpp t old = self.targetToSource_single hpp t []) :
    (self.sourceToTarget_list hpp sources target).Pairwise (· < ·) ∧
    (∀ x, x ∈ self.sourceToTarget_list hpp sources target ↔
      ∃ s ∈ sources, x ∈ self.sourceToTarget_single hpp s []) ∧
    (self.targetToSource_list hpp targets source).Pairwise (· < ·) ∧
    (∀ x, x ∈ self.targetToSource_list hpp targets source ↔
      ∃ t ∈ targets, x ∈ self.targetToSource_single hpp t []) ∧
    self.sourceToTarget_list hpp [] target = [] ∧
    self.targetToSource_list hpp [] source = [] := by
  obtain ⟨h1, h2⟩ := listOverload_spec (self.sourceToTarget_single hpp) hs sources
  obtain ⟨h3, h4⟩ := listOverload_spec (self.targetToSource_single hpp) ht targets
  exact ⟨h1, h2, h3, h4, rfl, rfl⟩

/-- Witness for C13 on the sample mapper: the sample single-index overloads overwrite
their output, and the sources `[1, 0, 1]` are sent to the targets `[0, 1]`. -/
theorem sourceToTarget_list_sorted_exact_witness :
    (∀ s old, sampleMapper.sourceToTarget_single sampleHpp s old =
      sampleMapper.sourceToTarget_single sampleHpp s []) ∧
    (∀ t old, sampleMapper.targetToSource_single sampleHpp t old =
      sampleMapper.targetToSource_single sampleHpp t []) ∧
    sampleMapper.sourceToTarget_list sampleHpp [1, 0, 1] [7, 7] = [0, 1] ∧
    (sampleMapper.sourceToTarget_list sampleHpp [1, 0, 1] [7, 7]).Pairwise (· < ·) ∧
    (∀ x, x ∈ sampleMapper.sourceToTarget_list sampleHpp [1, 0, 1] [7, 7] ↔
      ∃ s ∈ [1, 0, 1], x ∈ sampleMapper.sourceToTarget_single sampleHpp s []) :=
  ⟨fun _ _ => rfl, fun _ _ => rfl, by decide,
    (sourceToTarget_list_sorted_exact sampleHpp sampleMapper [1, 0, 1] [7, 7] [0] []
      (fun _ _ => rfl) (fun _ _ => rfl)).1,
    (sourceToTarget_list_sorted_exact sampleHpp sampleMapper [1, 0, 1] [7, 7] [0] []
      (fun _ _ => rfl) (fun _ _ => rfl)).2.1⟩

/-! ### The iterator over a compressed matrix -/

theorem outerIndexArray_getD (m : gsSparseMatrix) (k : Nat) (hk : k ≤ m.outer.length) :
    m.outerIndexArray.getD k 0 = outerOffset m.outer k := by
  have hlt : k < (List.range (m.outer.length + 1)).length := by
    rw [List.length_range]
    omega
  simp only [gsSparseMatrix.outerIndexArray, List.getD_eq_getElem?_getD]
  rw [List.getElem?_map, List.getElem?_range (by omega)]
  rfl

theorem outerIndexPtr_eq (m : gsSparseMatrix) (id : Int) (h0 : 0 ≤ id)
    (h1 : id.toNat ≤ m.outer.length) :
    m.outerIndexPtr id = (outerOffset m.outer id.toNat : Int) := by
  simp only [gsSparseMatrix.outerIndexPtr, if_pos h0]
  rw [outerIndexArray_getD m id.toNat h1]

theorem outerOffset_succ (data : List (List (Int × ℚ))) :
    ∀ (id : Nat) (r : List (Int × ℚ)), data[id]? = some r →
      outerOffset data (id + 1) = outerOffset data id + r.length := by
  induction data with
  | nil =>
    intro id r h
    simp at h
  | cons x xs ih =>
    intro id r h
    cases id with
    | zero =>
      simp only [List.getElem?_cons_zero, Option.some.injEq] at h
      subst h
      cases xs <;> simp [outerOffset]
    | succ id =>
      simp only [List.getElem?_cons_succ] at h
      have := ih id r h
      simp only [outerOffset] at this ⊢
      omega

theorem flatten_getElem?_outerOffset (data : List (List (Int × ℚ))) :
    ∀ (id : Nat) (r : List (Int × ℚ)), data[id]? = some r → ∀ j, j < r.length →
      data.flatten[outerOffset data id + j]? = r[j]? := by
  induction data with
  | nil =>
    intro id r h
    simp at h
  | cons x xs ih =>
    intro id r h j hj
    cases id with
    | zero =>
      simp only [List.getElem?_cons_zero, Option.some.injEq] at h
      subst h
      simp only [outerOffset, List.flatten_cons, Nat.zero_add]
      exact List.getElem?_append_left hj
    | succ id =>
      simp only [List.getElem?_cons_succ] at h
      simp only [outerOffset, List.flatten_cons]
      rw [List.getElem?_append_right (by omega)]
      rw [show x.length + outerOffset xs id + j - x.length = outerOffset xs id + j by omega]
      exact ih id r h j hj

theorem incN_at (b e : Ptr) :
    ∀ (j : Nat) (v i : Int),
      Iterator.incN j { m_beg := b, m_end := e, m_value := Ptr.at v, m_index := Ptr.at i } =
        { m_beg := b, m_end := e, m_value := Ptr.at (v + j), m_index := Ptr.at (i + j) } := by
  intro j
  induction j with
  | zero =>
    intro v i
    simp [Iterator.incN]
  | succ j ih =>
    intro v i
    simp only [Iterator.incN, Iterator.inc, Ptr.add]
    rw [ih]
    simp only [Nat.cast_add, Nat.cast_one]
    congr 2 <;> ring

theorem read_at_nat {α : Type} (mem : List α) (k : Nat) :
    (Ptr.at (k : Int)).read mem = mem[k]? := by
  simp [Ptr.read]

/-- The loop started at position `j` of an outer vector with entries `r`, stored from
position `o` on, reads the entries from `j` on and stops. -/
theorem forLoop_from (mem : gsSparseMatrix) (o : Nat) (r : List (Int × ℚ))
    (hmem : ∀ j, j < r.length → mem.outer.flatten[o + j]? = r[j]?) :
    ∀ (fuel j : Nat), j ≤ r.length → r.length - j < fuel →
      Iterator.forLoop mem fuel
        { m_beg := Ptr.at (o : Int), m_end := Ptr.at ((o : Int) + (r.length : Int)),
          m_value := Ptr.at ((o : Int) + (j : Int)), m_index := Ptr.at ((o : Int) + (j : Int)) } =
        some (r.drop j) := by
  intro fuel
  induction fuel with
  | zero =>
    intro j _ h
    omega
  | succ fuel ih =>
    intro j hj hfuel
    by_cases hlt : j < r.length
    · have hbool : Iterator.toBool
          { m_beg := Ptr.at (o : Int), m_end := Ptr.at ((o : Int) + (r.length : Int)),
            m_value := Ptr.at ((o : Int) + (j : Int)),
            m_index := Ptr.at ((o : Int) + (j : Int)) } = true := by
        simp only [Iterator.toBool, Ptr.lt, Ptr.ge, Bool.and_eq_true, decide_eq_true_eq]
        constructor <;> omega
      have hget : mem.outer.flatten[o + j]? = some r[j] := by
        rw [hmem j hlt, List.getElem?_eq_getElem hlt]
      have hidx : Iterator.index mem
          { m_beg := Ptr.at (o : Int), m_end := Ptr.at ((o : Int) + (r.length : Int)),
            m_value := Ptr.at ((o : Int) + (j : Int)),
            m_index := Ptr.at ((o : Int) + (j : Int)) } = some r[j].1 := by
        simp only [Iterator.index, gsSparseMatrix.innerIndexArray]
        rw [show ((o : Int) + (j : Int)) = ((o + j : Nat) : Int) by push_cast; ring,
          read_at_nat, List.getElem?_map, hget]
        rfl
      have hw : Iterator.weight mem
          { m_beg := Ptr.at (o : Int), m_end := Ptr.at ((o : Int) + (r.length : Int)),
            m_value := Ptr.at ((o : Int) + (j : Int)),
            m_index := Ptr.at ((o : Int) + (j : Int)) } = some r[j].2 := by
        simp only [Iterator.weight, gsSparseMatrix.valueArray]
        rw [show ((o : Int) + (j : Int)) = ((o + j : Nat) : Int) by push_cast; ring,
          read_at_nat, List.getElem?_map, hget]
        rfl
      have hnext := ih (j + 1) (by omega) (by omega)
      simp only [Iterator.forLoop, hbool, if_true, hidx, hw]
      have hinc : Iterator.inc
          { m_beg := Ptr.at (o : Int), m_end := Ptr.at ((o : Int) + (r.length : Int)),
            m_value := Ptr.at ((o : Int) + (j : Int)),
            m_index := Ptr.at ((o : Int) + (j : Int)) } =
          { m_beg := Ptr.at (o : Int), m_end := Ptr.at ((o : Int) + (r.length : Int)),
            m_value := Ptr.at ((o : Int) + ((j + 1 : Nat) : Int)),
            m_index := Ptr.at ((o : Int) + ((j + 1 : Nat) : Int)) } := by
        simp only [Iterator.inc, Ptr.add, Nat.cast_add, Nat.cast_one, add_assoc]
      rw [hinc, hnext]
      simp only
      rw [List.drop_eq_getElem_cons hlt]
    · have hEq : j = r.length := by omega
      subst hEq
      have hbool : Iterator.toBool
          { m_beg := Ptr.at (o : Int), m_end := Ptr.at ((o : Int) + (r.length : Int)),
            m_value := Ptr.at ((o : Int) + (r.length : Int)),
            m_index := Ptr.at ((o : Int) + (r.length : Int)) } = false := by
        simp [Iterator.toBool, Ptr.lt]
      simp [Iterator.forLoop, hbool]

/-- C14: for every mapper whose matrix is in compressed mode and every valid row `id`,
`fastSourceToTarget(id)` returns an iterator which, with `o` the outer index array, `idx`
the inner index array and `val` the value array of the matrix, satisfies
`o[id+1] = o[id] + n` for the number `n` of entries stored in the row; after `j < n`
increments it is true, points at position `k = o[id] + j` of both arrays, and `index()`,
`weight()` and `*it` read `idx[k]` and `val[k]`, the `j`-th stored entry of the row; after
`n` increments it is false; and the documented loop terminates having read exactly the
stored entries of the row in order. -/
theorem fastSourceToTarget_visits_row (self : gsWeightMapper) (id : Int)
    (hc : self.m_matrix.isCompressed = true) (h0 : 0 ≤ id)
    (h1 : id < self.getNrOfSources) :
    ∃ first row, self.fastSourceToTarget id = Except.ok first ∧
      self.m_matrix.outer[id.toNat]? = some row ∧
      self.m_matrix.outerIndexPtr (id + 1) =
        self.m_matrix.outerIndexPtr id + (row.length : Int) ∧
      (∀ j, j < row.length → ∃ i w,
        (first.incN j).toBool = true ∧
        (first.incN j).m_value = Ptr.at (self.m_matrix.outerIndexPtr id + (j : Int)) ∧
        (first.incN j).m_index = Ptr.at (self.m_matrix.outerIndexPtr id + (j : Int)) ∧
        self.m_matrix.innerIndexArray[(self.m_matrix.outerIndexPtr id).toNat + j]? = some i ∧
        self.m_matrix.valueArray[(self.m_matrix.outerIndexPtr id).toNat + j]? = some w ∧
        row[j]? = some (i, w) ∧
        (first.incN j).index self.m_matrix = some i ∧
        (first.incN j).weight self.m_matrix = some w ∧
        (first.incN j).deref self.m_matrix = some w) ∧
      (first.incN row.length).toBool = false ∧
      (∀ fuel, row.length < fuel → first.forLoop self.m_matrix fuel = some row) := by
  have hlen : id.toNat < self.m_matrix.outer.length := by
    have : id < (self.m_matrix.outer.length : Int) := h1
    omega
  have hrow : self.m_matrix.outer[id.toNat]? = some (self.m_matrix.outer[id.toNat]) :=
    List.getElem?_eq_getElem hlen
  have ho : self.m_matrix.outerIndexPtr id =
      (outerOffset self.m_matrix.outer id.toNat : Int) :=
    outerIndexPtr_eq _ id h0 (by omega)
  have hmem := flatten_getElem?_outerOffset self.m_matrix.outer id.toNat _ hrow
  have ho1 : self.m_matrix.outerIndexPtr (id + 1) =
      self.m_matrix.outerIndexPtr id + ((self.m_matrix.outer[id.toNat]).length : Int) := by
    have htn : (id + 1).toNat = id.toNat + 1 := by omega
    rw [outerIndexPtr_eq _ (id + 1) (by omega) (by omega), htn,
      outerOffset_succ _ _ _ hrow, ho]
    push_cast
    ring
  have hfirst : Iterator.ofMatrix self.m_matrix id =
      { m_beg := Ptr.at (outerOffset self.m_matrix.outer id.toNat : Int),
        m_end := Ptr.at ((outerOffset self.m_matrix.outer id.toNat : Int) +
          ((self.m_matrix.outer[id.toNat]).length : Int)),
        m_value := Ptr.at ((outerOffset self.m_matrix.outer id.toNat : Int)),
        m_index := Ptr.at ((outerOffset self.m_matrix.outer id.toNat : Int)) } := by
    simp only [Iterator.ofMatrix, ho1, ho, gsSparseMatrix.valuePtr,
      gsSparseMatrix.innerIndexPtr, Ptr.add, zero_add]
  have hinc : ∀ j : Nat, (Iterator.ofMatrix self.m_matrix id).incN j =
      { m_beg := Ptr.at (outerOffset self.m_matrix.outer id.toNat : Int),
        m_end := Ptr.at ((outerOffset self.m_matrix.outer id.toNat : Int) +
          ((self.m_matrix.outer[id.toNat]).length : Int)),
        m_value := Ptr.at ((outerOffset self.m_matrix.outer id.toNat : Int) + (j : Int)),
        m_index := Ptr.at ((outerOffset self.m_matrix.outer id.toNat : Int) + (j : Int)) } := by
    intro j
    rw [hfirst, incN_at]
  refine ⟨Iterator.ofMatrix self.m_matrix id, self.m_matrix.outer[id.toNat], ?_, hrow, ho1,
    ?_, ?_, ?_⟩
  · have hrows : id < self.m_matrix.rows := h1
    simp [gsWeightMapper.fastSourceToTarget, hc, hrows, h0]
  · intro j hj
    have hget : self.m_matrix.outer.flatten[outerOffset self.m_matrix.outer id.toNat + j]? =
        some (self.m_matrix.outer[id.toNat])[j] := by
      rw [hmem j hj, List.getElem?_eq_getElem hj]
    have hcast : ((outerOffset self.m_matrix.outer id.toNat : Int) + (j : Int)) =
        ((outerOffset self.m_matrix.outer id.toNat + j : Nat) : Int) := by
      push_cast
      ring
    refine ⟨(self.m_matrix.outer[id.toNat])[j].1, (self.m_matrix.outer[id.toNat])[j].2,
      ?_, ?_, ?_, ?_, ?_, ?_, ?_, ?_, ?_⟩
    · rw [hinc j]
      simp only [Iterator.toBool, Ptr.lt, Ptr.ge, Bool.and_eq_true, decide_eq_true_eq]
      constructor <;> omega
    · rw [hinc j, ho]
    · rw [hinc j, ho]
    · rw [ho, Int.toNat_ofNat, gsSparseMatrix.innerIndexArray, List.getElem?_map, hget]
      rfl
    · rw [ho, Int.toNat_ofNat, gsSparseMatrix.valueArray, List.getElem?_map, hget]
      rfl
    · exact List.getElem?_eq_getElem hj
    · rw [hinc j]
      simp only [Iterator.index, gsSparseMatrix.innerIndexArray]
      rw [hcast, read_at_nat, List.getElem?_map, hget]
      rfl
    · rw [hinc j]
      simp only [Iterator.weight, gsSparseMatrix.valueArray]
      rw [hcast, read_at_nat, List.getElem?_map, hget]
      rfl
    · rw [hinc j]
      simp only [Iterator.deref, gsSparseMatrix.valueArray]
      rw [hcast, read_at_nat, List.getElem?_map, hget]
      rfl
  · rw [hinc]
    simp [Iterator.toBool, Ptr.lt]
  · intro fuel hfuel
    have := forLoop_from self.m_matrix (outerOffset self.m_matrix.outer id.toNat)
      (self.m_matrix.outer[id.toNat]) hmem fuel 0 (Nat.zero_le _) (by omega)
    rw [hfirst]
    simpa using this

/-- Witness for C14 on the sample mapper and its row 1, which stores the entries
`(0, 1/2)` and `(1, 1/2)`: the loop reads exactly these two entries. -/
theorem fastSourceToTarget_visits_row_witness :
    sampleMapper.m_matrix.isCompressed = true ∧ (0 : Int) ≤ 1 ∧
    (1 : Int) < sampleMapper.getNrOfSources ∧
    ∃ first row, sampleMapper.fastSourceToTarget 1 = Except.ok first ∧
      sampleMapper.m_matrix.outer[(1 : Int).toNat]? = some row ∧
      row = [(0, 1 / 2), (1, 1 / 2)] ∧
      (first.incN row.length).toBool = false ∧
      (∀ fuel, row.length < fuel → first.forLoop sampleMapper.m_matrix fuel = some row) :=
  ⟨rfl, by decide, by decide,
    match fastSourceToTarget_visits_row sampleMapper 1 rfl (by decide) (by decide) with
    | ⟨first, row, h1, h2, _, _, h5, h6⟩ =>
      ⟨first, row, h1, h2, by
        have h : sampleMapper.m_matrix.outer[(1 : Int).toNat]? =
            some [(0, 1 / 2), (1, 1 / 2)] := rfl
        rw [h] at h2
        exact (Option.some.inj h2).symm, h5, h6⟩⟩

/-! ### The optimisation flags -/

theorem and_two_pow_ne_zero (x i : Nat) : x &&& 2 ^ i ≠ 0 ↔ x.testBit i = true := by
  rw [Nat.and_two_pow]
  cases h : x.testBit i
  · simp
  · simp

theorem and_optSourceToTarget_ne_zero (x : Nat) :
    x &&& optSourceToTarget ≠ 0 ↔ x.testBit 0 = true :=
  and_two_pow_ne_zero x 0

theorem and_optTargetToSource_ne_zero (x : Nat) :
    x &&& optTargetToSource ≠ 0 ↔ x.testBit 1 = true :=
  and_two_pow_ne_zero x 1

theorem testBit_sizeNot_flags (self : gsWeightMapper) :
    (sizeNot self.getOptimizationFlags).testBit 0 = !self.m_matrix.isCompressed ∧
    (sizeNot self.getOptimizationFlags).testBit 1 = !self.m_optimizationMatrix.isSome := by
  simp only [gsWeightMapper.getOptimizationFlags]
  cases self.m_matrix.isCompressed <;> cases self.m_optimizationMatrix.isSome <;>
    constructor <;> decide

/-- The two tests of `optimize` on its reduced flag word, in terms of the bits of the
argument and of the state of the mapper. -/
theorem optimize_tests (self : gsWeightMapper) (flags : Nat) :
    ((((flags ||| (if flags &&& optTargetToSource ≠ 0 then optSourceToTarget else 0)) &&&
        sizeNot self.getOptimizationFlags) &&& optSourceToTarget ≠ 0) ↔
      ((flags.testBit 0 = true ∨ flags.testBit 1 = true) ∧
        self.m_matrix.isCompressed = false)) ∧
    ((((flags ||| (if flags &&& optTargetToSource ≠ 0 then optSourceToTarget else 0)) &&&
        sizeNot self.getOptimizationFlags) &&& optTargetToSource ≠ 0) ↔
      (flags.testBit 1 = true ∧ self.m_optimizationMatrix.isSome = false)) := by
  obtain ⟨h0, h1⟩ := testBit_sizeNot_flags self
  have hc : (if flags &&& optTargetToSource ≠ 0 then optSourceToTarget else 0) =
      (flags.testBit 1).toNat := by
    by_cases h : flags.testBit 1 = true
    · rw [if_pos ((and_optTargetToSource_ne_zero flags).mpr h), h]
      rfl
    · rw [if_neg (fun hh => h ((and_optTargetToSource_ne_zero flags).mp hh))]
      have hf : flags.testBit 1 = false := by simpa using h
      rw [hf]
      rfl
  rw [hc, and_optSourceToTarget_ne_zero, and_optTargetToSource_ne_zero]
  simp only [Nat.testBit_and, Nat.testBit_or, h0, h1]
  have t10 : Nat.testBit 1 0 = true := by decide
  have t11 : Nat.testBit 1 1 = false := by decide
  have t00 : Nat.testBit 0 0 = false := by decide
  have t01 : Nat.testBit 0 1 = false := by decide
  cases hb1 : flags.testBit 1 <;> cases hb0 : flags.testBit 0 <;>
    cases self.m_matrix.isCompressed <;> cases self.m_optimizationMatrix.isSome <;>
    simp [t10, t11, t00, t01]

/-- What `optimize(flags)` leaves in the mapper: the target-to-source copy exists
afterwards exactly when it existed before or bit 1 of `flags` is set, it is untouched
when it existed or bit 1 is clear, and the matrix is in compressed mode afterwards
exactly when it was before or one of the bits 0 and 1 of `flags` is set. -/
theorem optimize_state (epsilon : ℚ) (self : gsWeightMapper) (flags : Nat) :
    (self.optimize epsilon flags).m_optimizationMatrix.isSome =
      (self.m_optimizationMatrix.isSome || flags.testBit 1) ∧
    ((self.m_optimizationMatrix.isSome = true ∨ flags.testBit 1 = false) →
      (self.optimize epsilon flags).m_optimizationMatrix = self.m_optimizationMatrix) ∧
    (self.optimize epsilon flags).m_matrix.isCompressed =
      (self.m_matrix.isCompressed || flags.testBit 0 || flags.testBit 1) := by
  obtain ⟨hs, ht⟩ := optimize_tests self flags
  simp only [gsWeightMapper.optimize]
  by_cases h1 : (((flags ||| (if flags &&& optTargetToSource ≠ 0 then optSourceToTarget
      else 0)) &&& sizeNot self.getOptimizationFlags) &&& optSourceToTarget ≠ 0)
  · by_cases h2 : (((flags ||| (if flags &&& optTargetToSource ≠ 0 then optSourceToTarget
        else 0)) &&& sizeNot self.getOptimizationFlags) &&& optTargetToSource ≠ 0)
    · rw [if_pos h1, if_pos h2]
      obtain ⟨hb, hcmp⟩ := hs.mp h1
      obtain ⟨hb1, hopt⟩ := ht.mp h2
      refine ⟨by simp [hb1], ?_, ?_⟩
      · rintro (h | h)
        · rw [hopt] at h; exact absurd h (by decide)
        · rw [hb1] at h; exact absurd h (by decide)
      · simp [gsSparseMatrix.makeCompressed, hb1]
    · rw [if_pos h1, if_neg h2]
      obtain ⟨hb, hcmp⟩ := hs.mp h1
      have hn : ¬ (flags.testBit 1 = true ∧ self.m_optimizationMatrix.isSome = false) :=
        fun h => h2 (ht.mpr h)
      refine ⟨?_, fun _ => rfl, ?_⟩
      · cases hopt : self.m_optimizationMatrix.isSome <;> cases hb1 : flags.testBit 1 <;>
          simp_all
      · rcases hb with hb | hb <;> simp [gsSparseMatrix.makeCompressed, hb]
  · have hn1 : ¬ ((flags.testBit 0 = true ∨ flags.testBit 1 = true) ∧
        self.m_matrix.isCompressed = false) := fun h => h1 (hs.mpr h)
    by_cases h2 : (((flags ||| (if flags &&& optTargetToSource ≠ 0 then optSourceToTarget
        else 0)) &&& sizeNot self.getOptimizationFlags) &&& optTargetToSource ≠ 0)
    · rw [if_neg h1, if_pos h2]
      obtain ⟨hb1, hopt⟩ := ht.mp h2
      refine ⟨by simp [hb1], ?_, ?_⟩
      · rintro (h | h)
        · rw [hopt] at h; exact absurd h (by decide)
        · rw [hb1] at h; exact absurd h (by decide)
      · cases hcmp : self.m_matrix.isCompressed <;> simp_all
    · rw [if_neg h1, if_neg h2]
      have hn : ¬ (flags.testBit 1 = true ∧ self.m_optimizationMatrix.isSome = false) :=
        fun h => h2 (ht.mpr h)
      refine ⟨?_, fun _ => rfl, ?_⟩
      · cases hopt : self.m_optimizationMatrix.isSome <;> cases hb1 : flags.testBit 1 <;>
          simp_all
      · cases hcmp : self.m_matrix.isCompressed <;> cases hb0 : flags.testBit 0 <;>
          cases hb1 : flags.testBit 1 <;> simp_all

/-! ### The end marker of the iterator -/

theorem ofMatrix_pointers (m : gsSparseMatrix) (id : Int) :
    Iterator.ofMatrix m id =
      { m_beg := Ptr.at (m.outerIndexPtr id), m_end := Ptr.at (m.outerIndexPtr (id + 1)),
        m_value := Ptr.at (m.outerIndexPtr id), m_index := Ptr.at (m.outerIndexPtr id) } := by
  simp [Iterator.ofMatrix, gsSparseMatrix.valuePtr, gsSparseMatrix.innerIndexPtr, Ptr.add]

/-- C15, the code at a failing input: `end()` passes the current index pointer of the
iterator it is called on to the end marker, so for every matrix and every outer vector
the iterator `first` of `Iterator(matrix, id)` advanced `k` times can only compare
equal to `first.end()` for `k = 0`.  On row 0 of the sample mapper, which stores one
entry, `first` advanced once is false and has the value pointer of `first.end()`, but
another index pointer, and `operator==` answers false. -/
theorem iterator_end_keeps_index :
    (∀ (m : gsSparseMatrix) (id : Int) (k : Nat),
      ((Iterator.ofMatrix m id).incN k).eq (Iterator.ofMatrix m id).end_ = true → k = 0) ∧
    sampleMapper.fastSourceToTarget 0 = Except.ok (Iterator.ofMatrix sampleMapper.m_matrix 0) ∧
    sampleMapper.m_matrix.outer[0]? = some [(0, 1)] ∧
    ((Iterator.ofMatrix sampleMapper.m_matrix 0).incN 1).toBool = false ∧
    ((Iterator.ofMatrix sampleMapper.m_matrix 0).incN 1).m_value =
      (Iterator.ofMatrix sampleMapper.m_matrix 0).end_.m_value ∧
    ((Iterator.ofMatrix sampleMapper.m_matrix 0).incN 1).m_index = Ptr.at 1 ∧
    (Iterator.ofMatrix sampleMapper.m_matrix 0).end_.m_index = Ptr.at 0 ∧
    ((Iterator.ofMatrix sampleMapper.m_matrix 0).incN 1).eq
      (Iterator.ofMatrix sampleMapper.m_matrix 0).end_ = false := by
  refine ⟨?_, rfl, by decide, by decide, by decide, by decide, by decide, by decide⟩
  intro m id k h
  rw [ofMatrix_pointers, incN_at] at h
  simp only [Iterator.eq, Iterator.end_, Iterator.ofPointers, Bool.and_eq_true,
    decide_eq_true_eq, Ptr.at.injEq] at h
  omega

/-! ### The assertions of the fast access members -/

/-- C16: `fastTargetToSource(target)` passes its assertions exactly when the
target-to-source copy exists and `0 ≤ target < getNrOfTargets()`;
`fastSourceToTarget(source)` passes exactly when the matrix is in compressed mode and
`0 ≤ source < getNrOfSources()`.  The copy is absent after construction, exists after
`optimize(flags)` when `flags` has the `optTargetToSource` bit, is left as it was by
`optimize(flags)` when `flags` has not, and is removed by `setEntry`, `operator*=` and the
matrix assignment; so after the default `optimize()` on a mapper without the copy
`fastTargetToSource` fails for every target. -/
theorem fastAccess_assertions (epsilon : ℚ) (self : gsWeightMapper) (index : Int) :
    ((∃ it, self.fastTargetToSource index = Except.ok it) ↔
      (self.m_optimizationMatrix.isSome = true ∧ 0 ≤ index ∧ index < self.getNrOfTargets)) ∧
    ((∃ it, self.fastSourceToTarget index = Except.ok it) ↔
      (self.m_matrix.isCompressed = true ∧ 0 ≤ index ∧ index < self.getNrOfSources)) ∧
    (∀ empty, (gsWeightMapper.new empty).m_optimizationMatrix = none) ∧
    (∀ flags, flags &&& optTargetToSource ≠ 0 →
      (self.optimize epsilon flags).m_optimizationMatrix.isSome = true) ∧
    (∀ flags, flags &&& optTargetToSource = 0 →
      (self.optimize epsilon flags).m_optimizationMatrix = self.m_optimizationMatrix) ∧
    (∀ s t w, (self.setEntry s t w).m_optimizationMatrix = none) ∧
    (∀ product, (self.mulAssign product).m_optimizationMatrix = none) ∧
    (∀ other, (self.assignMatrix epsilon other).m_optimizationMatrix = none) ∧
    (self.m_optimizationMatrix = none →
      ∀ target, ∃ msg,
        (self.optimize_default epsilon).fastTargetToSource target = Except.error msg) := by
  have hbit : ∀ flags : Nat, flags &&& optTargetToSource = 0 → flags.testBit 1 = false := by
    intro flags h
    by_contra hb
    exact (and_optTargetToSource_ne_zero flags).mpr (by simpa using hb) h
  have hdefault : (optSourceToTarget).testBit 1 = false := by decide
  refine ⟨?_, ?_, fun _ => rfl, ?_, ?_, fun _ _ _ => rfl, fun _ => rfl, ?_, ?_⟩
  · simp only [gsWeightMapper.fastTargetToSource, gsWeightMapper.getNrOfTargets]
    cases hopt : self.m_optimizationMatrix with
    | none => simp
    | some om =>
      by_cases hr : index < self.m_matrix.cols ∧ 0 ≤ index
      · simp [hr]
      · simp only [if_neg hr, Option.isSome_some, true_and]
        constructor
        · rintro ⟨it, h⟩
          exact Except.noConfusion h
        · intro h
          exact absurd ⟨h.2, h.1⟩ hr
  · simp only [gsWeightMapper.fastSourceToTarget, gsWeightMapper.getNrOfSources]
    cases hcmp : self.m_matrix.isCompressed with
    | false => simp
    | true =>
      by_cases hr : index < self.m_matrix.rows ∧ 0 ≤ index
      · simp [hr]
      · simp only [if_true, if_neg hr, true_and]
        constructor
        · rintro ⟨it, h⟩
          exact Except.noConfusion h
        · intro h
          exact absurd ⟨h.2, h.1⟩ hr
  · intro flags hf
    rw [(optimize_state epsilon self flags).1,
      (and_optTargetToSource_ne_zero flags).mp hf, Bool.or_true]
  · intro flags hf
    exact (optimize_state epsilon self flags).2.1 (Or.inr (hbit flags hf))
  · intro other
    simp only [gsWeightMapper.assignMatrix, gsWeightMapper.optimize_default]
    rw [(optimize_state epsilon _ optSourceToTarget).2.1 (Or.inr hdefault)]
    rfl
  · intro hnone target
    have hkeep : (self.optimize_default epsilon).m_optimizationMatrix = none := by
      simp only [gsWeightMapper.optimize_default]
      rw [(optimize_state epsilon self optSourceToTarget).2.1 (Or.inr hdefault), hnone]
    simp only [gsWeightMapper.fastTargetToSource, hkeep]
    exact ⟨_, rfl⟩

/-- Example for C16 on the sample mapper, which has no target-to-source copy: after the
default `optimize()` the lookup of target 0 fails, after `optimize(optTargetToSource)` it
passes. -/
theorem fastAccess_assertions_witness :
    sampleMapper.m_optimizationMatrix = none ∧
    (∀ target, ∃ msg,
      (sampleMapper.optimize_default 0).fastTargetToSource target = Except.error msg) ∧
    (sampleMapper.optimize 0 optTargetToSource).m_optimizationMatrix.isSome = true :=
  ⟨rfl, (fastAccess_assertions 0 sampleMapper 0).2.2.2.2.2.2.2.2 rfl,
    (fastAccess_assertions 0 sampleMapper 0).2.2.2.1 optTargetToSource (by decide)⟩

/-- C17: on a mapper on which no optimisation is present, `optimize()` without argument
results in `getOptimizationFlags() = optSourceToTarget`: the source-to-target bit is set
and the target-to-source bit is clear. -/
theorem optimize_default_flags (epsilon : ℚ) (self : gsWeightMapper)
    (hnone : self.getOptimizationFlags = 0) :
    (self.optimize_default epsilon).getOptimizationFlags = optSourceToTarget ∧
    (self.optimize_default epsilon).getOptimizationFlags &&& optSourceToTarget ≠ 0 ∧
    (self.optimize_default epsilon).getOptimizationFlags &&& optTargetToSource = 0 := by
  have hstate : self.m_matrix.isCompressed = false ∧ self.m_optimizationMatrix.isSome = false := by
    simp only [gsWeightMapper.getOptimizationFlags] at hnone
    cases hc : self.m_matrix.isCompressed <;> cases ho : self.m_optimizationMatrix.isSome <;>
      simp [hc, ho, optSourceToTarget, optTargetToSource] at hnone ⊢
  obtain ⟨h1, _, h3⟩ := optimize_state epsilon self optSourceToTarget
  have hb0 : (optSourceToTarget).testBit 0 = true := by decide
  have hb1 : (optSourceToTarget).testBit 1 = false := by decide
  rw [hstate.2, hb1] at h1
  rw [hstate.1, hb0, hb1] at h3
  have hflags : (self.optimize_default epsilon).getOptimizationFlags = optSourceToTarget := by
    simp only [gsWeightMapper.optimize_default, gsWeightMapper.getOptimizationFlags, h1, h3]
    decide
  rw [hflags]
  exact ⟨rfl, by decide, by decide⟩

/-- Witness for C17 on `plainMapper`, on which no optimisation is present. -/
theorem optimize_default_flags_witness :
    plainMapper.getOptimizationFlags = 0 ∧
    (plainMapper.optimize_default 0).getOptimizationFlags = optSourceToTarget ∧
    (plainMapper.optimize_default 0).getOptimizationFlags &&& optSourceToTarget ≠ 0 ∧
    (plainMapper.optimize_default 0).getOptimizationFlags &&& optTargetToSource = 0 :=
  ⟨by decide, optimize_default_flags 0 plainMapper (by decide)⟩

/-! ### Entries of the mapper -/

theorem innerRead_innerWrite (j : Int) (w : ℚ) (r : List (Int × ℚ)) (t : Int) :
    innerRead t (innerWrite j w r) = if t = j then w else innerRead t r := by
  induction r with
  | nil =>
    by_cases h : t = j
    · simp [innerWrite, innerRead, h]
    · have h' : ¬ j = t := fun e => h e.symm
      simp [innerWrite, innerRead, h, h']
  | cons e rest ih =>
    obtain ⟨k, v⟩ := e
    simp only [innerWrite]
    by_cases hk : k = j
    · subst hk
      rw [if_pos rfl]
      by_cases h : t = k
      · simp [innerRead, h]
      · have h' : ¬ k = t := fun e => h e.symm
        simp [innerRead, h, h']
    · rw [if_neg hk]
      by_cases hlt : j < k
      · rw [if_pos hlt]
        by_cases h : t = j
        · simp [innerRead, h]
        · have h' : ¬ j = t := fun e => h e.symm
          simp [innerRead, h, h']
      · rw [if_neg hlt]
        simp only [innerRead, ih]
        by_cases hkt : k = t
        · have htj : ¬ t = j := fun e => hk (hkt.trans e)
          simp [hkt, htj]
        · simp [hkt]

theorem length_modifyOuter (f : List (Int × ℚ) → List (Int × ℚ))
    (l : List (List (Int × ℚ))) : ∀ i, (modifyOuter f i l).length = l.length := by
  induction l with
  | nil =>
    intro i
    cases i <;> rfl
  | cons r rs ih =>
    intro i
    cases i with
    | zero => rfl
    | succ i => simp [modifyOuter, ih]

theorem getElem?_modifyOuter (f : List (Int × ℚ) → List (Int × ℚ))
    (l : List (List (Int × ℚ))) :
    ∀ i k, (modifyOuter f i l)[k]? = if k = i then (l[k]?).map f else l[k]? := by
  induction l with
  | nil =>
    intro i k
    cases i <;> simp [modifyOuter]
  | cons r rs ih =>
    intro i k
    cases i with
    | zero =>
      cases k with
      | zero => simp [modifyOuter]
      | succ k => simp [modifyOuter]
    | succ i =>
      cases k with
      | zero => simp [modifyOuter]
      | succ k => simp [modifyOuter, ih]

theorem coeffAt_setAt (m : gsSparseMatrix) (i j : Int) (w : ℚ) (h0 : 0 ≤ i)
    (h1 : i < m.rows) (s t : Int) :
    (m.setAt i j w).coeffAt s t = if s = i ∧ t = j then w else m.coeffAt s t := by
  have hlen : i.toNat < m.outer.length := by
    have : i < (m.outer.length : Int) := h1
    omega
  simp only [gsSparseMatrix.setAt, if_pos h0, gsSparseMatrix.coeffAt]
  by_cases hs0 : 0 ≤ s
  · simp only [if_pos hs0, getElem?_modifyOuter]
    by_cases hsi : s = i
    · subst hsi
      simp only [if_true, true_and, List.getElem?_eq_getElem hlen, Option.map_some']
      exact innerRead_innerWrite j w _ t
    · have hne : ¬ s.toNat = i.toNat := by omega
      simp [hne, hsi]
  · have hsi : ¬ s = i := by omega
    simp [hs0, hsi]

/-- C18: for every mapper, every in-range `source`, every `target` and every weight `w`,
after `setEntry(source, target, w)` the call `getWeight(source, target)` gives `w` (`1`
when the weight argument is omitted), `getWeight(s, t)` is unchanged for every other
pair, `getNrOfSources()` and `getNrOfTargets()` are unchanged, and the target-to-source
copy is gone, so its flag is clear. -/
theorem setEntry_getWeight (self : gsWeightMapper) (source target : Int) (w : ℚ)
    (h0 : 0 ≤ source) (h1 : source < self.getNrOfSources) :
    (self.setEntry source target w).getWeight source target = w ∧
    (self.setEntry_default source target).getWeight source target = 1 ∧
    (∀ s t, ¬ (s = source ∧ t = target) →
      (self.setEntry source target w).getWeight s t = self.getWeight s t) ∧
    (self.setEntry source target w).getNrOfSources = self.getNrOfSources ∧
    (self.setEntry source target w).getNrOfTargets = self.getNrOfTargets ∧
    (self.setEntry source target w).m_optimizationMatrix = none ∧
    (self.setEntry source target w).getOptimizationFlags &&& optTargetToSource = 0 := by
  have hread : ∀ (v : ℚ) (s t : Int), (self.setEntry source target v).getWeight s t =
      if s = source ∧ t = target then v else self.getWeight s t := by
    intro v s t
    exact coeffAt_setAt self.m_matrix source target v h0 h1 s t
  refine ⟨?_, ?_, ?_, ?_, ?_, rfl, ?_⟩
  · rw [hread]
    simp
  · rw [gsWeightMapper.setEntry_default, hread]
    simp
  · intro s t hne
    rw [hread, if_neg hne]
  · simp [gsWeightMapper.getNrOfSources, gsWeightMapper.setEntry,
      gsWeightMapper.removeOptimization, gsSparseMatrix.rows, gsSparseMatrix.setAt, h0,
      length_modifyOuter]
  · simp [gsWeightMapper.getNrOfTargets, gsWeightMapper.setEntry,
      gsWeightMapper.removeOptimization, gsSparseMatrix.cols, gsSparseMatrix.setAt, h0]
  · have hopt : (self.setEntry source target w).m_optimizationMatrix = none := rfl
    simp only [gsWeightMapper.getOptimizationFlags, hopt]
    cases (self.setEntry source target w).m_matrix.isCompressed <;> decide

/-- Witness for C18 on the sample mapper: the entry `(1, 2)`, which is not stored, is
set to `3/4` and read back. -/
theorem setEntry_getWeight_witness :
    (0 : Int) ≤ 1 ∧ (1 : Int) < sampleMapper.getNrOfSources ∧
    sampleMapper.getWeight 1 2 = 0 ∧
    (sampleMapper.setEntry 1 2 (3 / 4)).getWeight 1 2 = 3 / 4 ∧
    (sampleMapper.setEntry 1 2 (3 / 4)).getWeight 1 0 = 1 / 2 :=
  ⟨by decide, by decide, by decide,
    (setEntry_getWeight sampleMapper 1 2 (3 / 4) (by decide) (by decide)).1,
    rfl⟩

/-- C19: `sourceIsId(source)` is true exactly when `sourceToTarget(source)` yields exactly
one target index `t` and `getWeight(source, t)` equals 1 under the tolerance test;
`targetIsId(target)` is true exactly when `targetToSource(target)` yields exactly one
source index `s` and `getWeight(s, target)` equals 1 under the tolerance test. -/
theorem sourceIsId_iff (hpp : gsWeightMapperHpp) (self : gsWeightMapper) (index : Int) :
    (self.sourceIsId hpp index = true ↔
      ∃ t, self.sourceToTarget_single hpp index [] = [t] ∧
        hpp.almostEqual (self.getWeight index t) 1 = true) ∧
    (self.targetIsId hpp index = true ↔
      ∃ s, self.targetToSource_single hpp index [] = [s] ∧
        hpp.almostEqual (self.getWeight s index) 1 = true) := by
  constructor
  · simp only [gsWeightMapper.sourceIsId, gsWeightMapper.getWeight]
    cases h : self.sourceToTarget_single hpp index [] with
    | nil => simp
    | cons t rest =>
      cases rest with
      | nil => simp
      | cons u rest => simp
  · simp only [gsWeightMapper.targetIsId, gsWeightMapper.getWeight]
    cases h : self.targetToSource_single hpp index [] with
    | nil => simp
    | cons s rest =>
      cases rest with
      | nil => simp
      | cons u rest => simp

/-- Example for C19 on the sample mapper: source 0 is mapped to target 0 alone with
weight 1, source 1 to two targets; target 2 has the single source 2 with weight 1. -/
theorem sourceIsId_iff_witness :
    sampleMapper.sourceIsId sampleHpp 0 = true ∧
    sampleMapper.sourceIsId sampleHpp 1 = false ∧
    sampleMapper.targetIsId sampleHpp 2 = true ∧
    (∃ t, sampleMapper.sourceToTarget_single sampleHpp 0 [] = [t] ∧
      sampleHpp.almostEqual (sampleMapper.getWeight 0 t) 1 = true) :=
  ⟨by decide, by decide, by decide,
    (sourceIsId_iff sampleHpp sampleMapper 0).1.mp (by decide)⟩

/-- For candidates with distinct identities the container filled by the plain threshold
overload for refinement holds exactly the selected boxes. -/
theorem markThreshold_exact_aux (elements : boxMapType) (predicates : List gsHBoxCheck)
    (p : ℚ)
    (hdist : ((candidates elements predicates).map Prod.snd).Pairwise
      (fun a b => a.isSame b = false)) :
    (_markThreshold_impl_ref_plain elements p predicates ⟨[]⟩).boxes.Perm
      (thresholdSelect false (candidates elements predicates) p) := by
  have hsel : (thresholdSelect false (candidates elements predicates) p).Pairwise
      (fun a b => a.isSame b = false) := by
    have hsorted : (sortedCandidates false (candidates elements predicates)).Pairwise
        (fun a b => a.isSame b = false) :=
      (perm_sortedCandidates false _).symm.pairwise hdist
        (fun {a b} h => by rw [isSame_symm]; exact h)
    exact hsorted.sublist (List.filter_sublist _)
  have := perm_addAndMark (thresholdSelect false (candidates elements predicates) p) ⟨[]⟩
    hsel (fun c hc => absurd hc (List.not_mem_nil c))
  simpa [_markThreshold_impl_ref_plain] using this

/-! ### Monotonicity of the threshold rule -/

theorem thresholdSelect_mono (cands : boxMapType) (p1 p2 : ℚ) (hp : p1 ≤ p2)
    (hdom : p2 ≤ 1 ∨ 0 ≤ _maxError cands) :
    (thresholdSelect false cands p2).Sublist (thresholdSelect false cands p1) := by
  have himp : ∀ b ∈ sortedCandidates false cands,
      p2 * _maxError cands < b.error → p1 * _maxError cands < b.error := by
    intro b hb h2
    by_cases hmax : 0 ≤ _maxError cands
    · have : p1 * _maxError cands ≤ p2 * _maxError cands :=
        mul_le_mul_of_nonneg_right hp hmax
      exact lt_of_le_of_lt this h2
    · exfalso
      have hp2 : p2 ≤ 1 := by
        rcases hdom with h | h
        · exact h
        · exact absurd h hmax
      obtain ⟨x, hx, hxb⟩ := List.mem_map.mp (mem_sortedCandidates false cands b hb)
      have hne : cands ≠ [] := List.ne_nil_of_mem hx
      have hle := (maxError_spec cands hne).2 x hx
      rw [hxb] at hle
      have hneg : _maxError cands < 0 := not_le.mp hmax
      nlinarith
  have hEq : thresholdSelect false cands p2 =
      (thresholdSelect false cands p1).filter
        (fun b => decide (p2 * _maxError cands < b.error)) := by
    simp only [thresholdSelect, Bool.false_eq_true, if_false, List.filter_filter]
    apply List.filter_congr
    intro b hb
    by_cases h2 : p2 * _maxError cands < b.error
    · simp [h2, himp b hb h2]
    · simp [h2]
  rw [hEq]
  exact List.filter_sublist _

theorem pairwise_distinct_of_identity (l₁ l₂ : boxMapType)
    (h : l₁.map (fun x => (x.1, x.2.patch, x.2.level, x.2.lower, x.2.upper)) =
      l₂.map (fun x => (x.1, x.2.patch, x.2.level, x.2.lower, x.2.upper)))
    (hd : (l₂.map Prod.snd).Pairwise (fun a b => a.isSame b = false)) :
    (l₁.map Prod.snd).Pairwise (fun a b => a.isSame b = false) := by
  have key : ∀ l : boxMapType, (l.map Prod.snd).Pairwise (fun a b => a.isSame b = false) ↔
      (l.map (fun x => (x.1, x.2.patch, x.2.level, x.2.lower, x.2.upper))).Pairwise
        (fun u v => ¬ (u.2.1 = v.2.1 ∧ u.2.2.1 = v.2.2.1 ∧ u.2.2.2.1 = v.2.2.2.1 ∧
          u.2.2.2.2 = v.2.2.2.2)) := by
    intro l
    rw [List.pairwise_map, List.pairwise_map]
    apply List.Pairwise.iff
    intro a b
    rw [← isSame_iff]
    simp
  rw [key, h, ← key]
  exact hd

/-- C12: for a fixed engine state (mesh snapshot with pairwise distinct box identities,
fixed errors, fixed remaining configuration) under the threshold rule for refinement
without admissibility, for all parameters `p1 ≤ p2 ≤ 1` both marking passes succeed, the
number of boxes marked with `p2` is at most the number marked with `p1`, and every box
marked with `p2` is marked with `p1`; the boxes selected with `p2` are a subsequence of
the boxes selected with `p1`. -/
theorem markThreshold_monotone (ext : External) (self : gsAdaptiveMeshing)
    (elError : List ℚ) (p1 p2 : ℚ) (hp : p1 ≤ p2) (hp2 : p2 ≤ 1)
    (hlen : elError.length = self.m_boxes.length)
    (hdist : (self.m_boxes.map Prod.snd).Pairwise (fun a b => a.isSame b = false)) :
    ∃ engine1 marked1 engine2 marked2,
      markRef_into ext
        { self with m_refRule := MarkingStrategy.GARU, m_admissible := false,
                    m_refParam := p1 } elError = Except.ok (engine1, marked1) ∧
      markRef_into ext
        { self with m_refRule := MarkingStrategy.GARU, m_admissible := false,
                    m_refParam := p2 } elError = Except.ok (engine2, marked2) ∧
      marked2.boxes.length ≤ marked1.boxes.length ∧
      (∀ b ∈ marked2.boxes, b ∈ marked1.boxes) ∧
      (thresholdSelect false
        (candidates (_assignErrorsLoop 0 elError self.m_boxes) (_refPredicates_into self))
        p2).Sublist
        (thresholdSelect false
          (candidates (_assignErrorsLoop 0 elError self.m_boxes) (_refPredicates_into self))
          p1) := by
  have hsub := thresholdSelect_mono
    (candidates (_assignErrorsLoop 0 elError self.m_boxes) (_refPredicates_into self))
    p1 p2 hp (Or.inl hp2)
  have hassigned : ((_assignErrorsLoop 0 elError self.m_boxes).map Prod.snd).Pairwise
      (fun a b => a.isSame b = false) :=
    pairwise_distinct_of_identity _ _ (assignErrorsLoop_identity elError 0 self.m_boxes) hdist
  have hcands : ((candidates (_assignErrorsLoop 0 elError self.m_boxes)
      (_refPredicates_into self)).map Prod.snd).Pairwise (fun a b => a.isSame b = false) :=
    hassigned.sublist ((List.filter_sublist _).map _)
  have hperm := fun p => ((markThreshold_exact_aux
    (_assignErrorsLoop 0 elError self.m_boxes) (_refPredicates_into self) p) hcands)
  refine ⟨_, _, _, _,
    by rw [markRef_into, assignErrors_ok _ _ hlen],
    by rw [markRef_into, assignErrors_ok _ _ hlen], ?_, ?_, hsub⟩
  · have h1 := (hperm p1).length_eq
    have h2 := (hperm p2).length_eq
    have h3 := hsub.length_le
    simp only [_markElements, _markThreshold] at h1 h2 ⊢
    have e1 : _refPredicates_into
        { self with m_refRule := MarkingStrategy.GARU, m_admissible := false,
                    m_refParam := p1 } = _refPredicates_into self := rfl
    have e2 : _refPredicates_into
        { self with m_refRule := MarkingStrategy.GARU, m_admissible := false,
                    m_refParam := p2 } = _refPredicates_into self := rfl
    rw [e1, e2]
    omega
  · intro b hb
    simp only [_markElements, _markThreshold] at hb ⊢
    have e1 : _refPredicates_into
        { self with m_refRule := MarkingStrategy.GARU, m_admissible := false,
                    m_refParam := p1 } = _refPredicates_into self := rfl
    have e2 : _refPredicates_into
        { self with m_refRule := MarkingStrategy.GARU, m_admissible := false,
                    m_refParam := p2 } = _refPredicates_into self := rfl
    rw [e1]
    rw [e2] at hb
    exact (hperm p1).mem_iff.mpr (hsub.subset ((hperm p2).mem_iff.mp hb))

theorem markThreshold_monotone_witness :
    ∃ engine1 marked1 engine2 marked2,
      markRef_into dyadic
        { gradedEngine false with m_refRule := MarkingStrategy.GARU, m_admissible := false,
                                  m_refParam := 1 / 4 } gradedErrors
        = Except.ok (engine1, marked1) ∧
      markRef_into dyadic
        { gradedEngine false with m_refRule := MarkingStrategy.GARU, m_admissible := false,
                                  m_refParam := 1 / 2 } gradedErrors
        = Except.ok (engine2, marked2) ∧
      marked2.boxes.length ≤ marked1.boxes.length ∧
      (∀ b ∈ marked2.boxes, b ∈ marked1.boxes) ∧
      (thresholdSelect false
        (candidates (_assignErrorsLoop 0 gradedErrors (gradedEngine false).m_boxes)
          (_refPredicates_into (gradedEngine false)))
        (1 / 2)).Sublist
        (thresholdSelect false
          (candidates (_assignErrorsLoop 0 gradedErrors (gradedEngine false).m_boxes)
            (_refPredicates_into (gradedEngine false)))
          (1 / 4)) :=
  markThreshold_monotone dyadic (gradedEngine false) gradedErrors (1 / 4) (1 / 2)
    (by norm_num) (by norm_num) (by rfl) (by decide)

/-! ### The call sequence of the example driver -/

theorem rebuildMonitor_stale (mid post : List MesherCall) (b : MesherCall)
    (h : rebuildMonitor true (mid ++ b :: post) = true) (hb : b.isMarking = true) :
    MesherCall.rebuild ∈ mid := by
  induction mid with
  | nil => simp [rebuildMonitor, hb] at h
  | cons c cs ih =>
    by_cases hc : c = MesherCall.rebuild
    · simp [hc]
    · simp only [List.cons_append, rebuildMonitor, Bool.and_eq_true] at h
      have h2 := h.2
      by_cases ht : c.isTopologyChanging = true
      · rw [if_pos ht] at h2
        exact List.mem_cons_of_mem _ (ih h2)
      · rw [if_neg ht, if_neg hc] at h2
        exact List.mem_cons_of_mem _ (ih h2)

theorem rebuildMonitor_sound (pre mid post : List MesherCall) (a b : MesherCall) :
    ∀ stale, rebuildMonitor stale (pre ++ a :: (mid ++ b :: post)) = true →
      a.isTopologyChanging = true → b.isMarking = true → MesherCall.rebuild ∈ mid := by
  induction pre with
  | nil =>
    intro stale h ha hb
    simp only [List.nil_append, rebuildMonitor, Bool.and_eq_true] at h
    have h2 := h.2
    rw [if_pos ha] at h2
    exact rebuildMonitor_stale mid post b h2 hb
  | cons c cs ih =>
    intro stale h ha hb
    simp only [List.cons_append, rebuildMonitor, Bool.and_eq_true] at h
    exact ih _ h.2 ha hb

theorem exampleCalls_cases (rule : Int) :
    exampleCalls rule = exampleCalls 3 ∨ exampleCalls rule = exampleCalls 0 := by
  unfold exampleCalls
  by_cases h1 : rule = 1
  · left; simp [h1]
  · by_cases h2 : rule = 2
    · left; simp [h2]
    · by_cases h3 : rule = 3
      · left; simp [h3]
      · right; simp [h1, h2, h3]

theorem exampleCalls_monitor (rule : Int) : rebuildMonitor false (exampleCalls rule) = true := by
  rcases exampleCalls_cases rule with h | h <;> rw [h] <;> decide

/-- C20: in the call sequence the example driver issues on the mesher (for every value
of the command-line option `rule`), whenever a topology-changing call (`refine`,
`unrefine`, `refineAll`, `unrefineAll`) is followed later by a marking call
(`markRef_into`, `markCrs_into`, `refineAll`, `unrefineAll`), a `rebuild` call lies
strictly between the two. -/
theorem example_rebuild_before_marking (rule : Int) (pre mid post : List MesherCall)
    (a b : MesherCall) (h : exampleCalls rule = pre ++ a :: (mid ++ b :: post))
    (ha : a.isTopologyChanging = true) (hb : b.isMarking = true) :
    MesherCall.rebuild ∈ mid := by
  have hm := exampleCalls_monitor rule
  rw [h] at hm
  exact rebuildMonitor_sound pre mid post a b false hm ha hb

theorem example_rebuild_before_marking_witness :
    exampleCalls 3 =
      [MesherCall.construct, MesherCall.options, MesherCall.options, MesherCall.options,
       MesherCall.options, MesherCall.options, MesherCall.getOptions,
       MesherCall.markRef_into, MesherCall.markCrs_into] ++
      MesherCall.refine :: ([MesherCall.unrefine, MesherCall.rebuild] ++
        MesherCall.refineAll :: [MesherCall.rebuild, MesherCall.unrefineAll,
          MesherCall.rebuild, MesherCall.unrefineAll]) ∧
    MesherCall.refine.isTopologyChanging = true ∧ MesherCall.refineAll.isMarking = true ∧
    MesherCall.rebuild ∈ [MesherCall.unrefine, MesherCall.rebuild] :=
  ⟨rfl, rfl, rfl,
    example_rebuild_before_marking 3
      [MesherCall.construct, MesherCall.options, MesherCall.options, MesherCall.options,
       MesherCall.options, MesherCall.options, MesherCall.getOptions,
       MesherCall.markRef_into, MesherCall.markCrs_into]
      [MesherCall.unrefine, MesherCall.rebuild]
      [MesherCall.rebuild, MesherCall.unrefineAll, MesherCall.rebuild,
       MesherCall.unrefineAll]
      MesherCall.refine MesherCall.refineAll rfl rfl rfl⟩

/-! ### Termination of the admissibility closures -/

theorem mem_refViolators (neighbors : HBox → List HBox) (m : Nat) (marked : List HBox)
    (n : HBox) :
    n ∈ refViolators neighbors m marked ↔
      ∃ b ∈ marked, n ∈ neighbors b ∧ n.level + m < b.level + 1 ∧
        marked.any (fun s => s.isSame n) = false := by
  simp only [refViolators, List.mem_flatMap, List.mem_filter, Bool.and_eq_true,
    decide_eq_true_eq, Bool.not_eq_true', and_assoc]

theorem closureRef_fixed_aux (neighbors : HBox → List HBox) (m : Nat) (hm : 1 ≤ m) :
    ∀ (fuel c : Nat) (marked : List HBox), c < fuel →
      (∀ b ∈ marked, ∀ n ∈ neighbors b, n.level + m < b.level + 1 →
        marked.any (fun s => s.isSame n) = false → b.level ≤ c) →
      refViolators neighbors m (closureRef neighbors m fuel marked) = [] := by
  intro fuel
  induction fuel with
  | zero => intro c marked hc; omega
  | succ fuel ih =>
    intro c marked hc hI
    rw [closureRef]
    cases hV : refViolators neighbors m marked with
    | nil => simpa using hV
    | cons v vs =>
      simp only
      have hv : v ∈ refViolators neighbors m marked := by rw [hV]; simp
      obtain ⟨b0, hb0, hn0, hl0, ha0⟩ := (mem_refViolators neighbors m marked v).mp hv
      have hb0c := hI b0 hb0 v hn0 hl0 ha0
      apply ih (c - m) (marked ++ v :: vs) (by omega)
      intro b hb n hn hl ha
      rw [List.any_append, Bool.or_eq_false_iff] at ha
      rcases List.mem_append.mp hb with hbS | hbV
      · exfalso
        have hnV : n ∈ refViolators neighbors m marked :=
          (mem_refViolators neighbors m marked n).mpr ⟨b, hbS, hn, hl, ha.1⟩
        rw [hV] at hnV
        have := ha.2
        rw [List.any_eq_false] at this
        exact this n hnV (isSame_refl n)
      · rw [← hV] at hbV
        obtain ⟨b1, hb1, hn1, hl1, ha1⟩ := (mem_refViolators neighbors m marked b).mp hbV
        have := hI b1 hb1 b hn1 hl1 ha1
        omega

/-- With a jump parameter `m ≥ 1` and marked boxes of level at most `maxLvl`, the
refinement closure run with `maxLvl + 1` rounds ends in a set without violating
neighbours: a fixed point of the closure step. -/
theorem closureRef_fixed_point (neighbors : HBox → List HBox) (m maxLvl : Nat) (hm : 1 ≤ m)
    (marked : List HBox) (hlvl : ∀ b ∈ marked, b.level ≤ maxLvl) :
    refViolators neighbors m (closureRef neighbors m (maxLvl + 1) marked) = [] :=
  closureRef_fixed_aux neighbors m hm (maxLvl + 1) maxLvl marked (Nat.lt_succ_self _)
    (fun b hb _ _ _ _ => hlvl b hb)

/-- The coarsening closure run with at least as many rounds as there are marked boxes
ends in a set from which the admissibility check drops nothing: a fixed point of the
closure step. -/
theorem closureCrs_fixed_point (neighbors : HBox → List HBox) (m : Nat) :
    ∀ (fuel : Nat) (marked : List HBox), marked.length ≤ fuel →
      (closureCrs neighbors m fuel marked).filter
        (crsAdmissible neighbors m (closureCrs neighbors m fuel marked)) =
      closureCrs neighbors m fuel marked := by
  intro fuel
  induction fuel with
  | zero =>
    intro marked h
    have : marked = [] := List.length_eq_zero.mp (Nat.le_zero.mp h)
    subst this
    simp [closureCrs]
  | succ fuel ih =>
    intro marked h
    rw [closureCrs]
    by_cases hEq : (marked.filter (crsAdmissible neighbors m marked)).length = marked.length
    · rw [if_pos hEq]
      exact List.filter_eq_self.mpr
        (fun a ha => by
          have hsub : (marked.filter (crsAdmissible neighbors m marked)).Sublist marked :=
            List.filter_sublist _
          have := hsub.eq_of_length hEq
          rw [← this] at ha
          exact (List.mem_filter.mp ha).2)
    · rw [if_neg hEq]
      apply ih
      have := List.length_filter_le (crsAdmissible neighbors m marked) marked
      omega

/-! ### The flag invariant of the weight mapper -/

/-- The flag word in terms of the state: the target-to-source flag implies the
source-to-target flag exactly when an existing copy implies a compressed matrix. -/
theorem flags_implication_iff (self : gsWeightMapper) :
    (self.getOptimizationFlags &&& optTargetToSource ≠ 0 →
      self.getOptimizationFlags &&& optSourceToTarget ≠ 0) ↔
    (self.m_optimizationMatrix.isSome = true → self.m_matrix.isCompressed = true) := by
  simp only [gsWeightMapper.getOptimizationFlags]
  cases self.m_matrix.isCompressed <;> cases self.m_optimizationMatrix.isSome <;> decide

theorem optimize_keeps_implication (epsilon : ℚ) (self : gsWeightMapper) (flags : Nat)
    (h : self.m_optimizationMatrix.isSome = true → self.m_matrix.isCompressed = true) :
    (self.optimize epsilon flags).m_optimizationMatrix.isSome = true →
      (self.optimize epsilon flags).m_matrix.isCompressed = true := by
  obtain ⟨h1, _, h3⟩ := optimize_state epsilon self flags
  rw [h1, h3]
  cases ho : self.m_optimizationMatrix.isSome <;> cases hb1 : flags.testBit 1 <;>
    simp_all

theorem reachable_implication (epsilon : ℚ) (self : gsWeightMapper)
    (h : gsWeightMapper.Reachable epsilon self) :
    self.m_optimizationMatrix.isSome = true → self.m_matrix.isCompressed = true := by
  induction h with
  | ctorDefault empty => intro h; exact absurd h (by simp [gsWeightMapper.new])
  | ctorSized empty s t => intro h; exact absurd h (by simp [gsWeightMapper.newSized])
  | ctorCopy other _ _ =>
    exact optimize_keeps_implication epsilon _ _ (fun h => absurd h (by simp))
  | ctorRowMajor empty other =>
    exact optimize_keeps_implication epsilon _ _
      (fun h => absurd h (by simp [gsWeightMapper.removeOptimization]))
  | ctorColMajor empty other =>
    exact optimize_keeps_implication epsilon _ _
      (fun h => absurd h (by simp [gsWeightMapper.removeOptimization]))
  | optimize self flags _ ih => exact optimize_keeps_implication epsilon self flags ih
  | setEntry self source target weight _ _ =>
    intro h
    exact absurd h (by simp [gsWeightMapper.setEntry, gsWeightMapper.removeOptimization])
  | assign self other _ _ _ _ =>
    exact optimize_keeps_implication epsilon _ _
      (fun h => absurd h (by simp [gsWeightMapper.removeOptimization]))
  | assignSelf self _ _ =>
    exact optimize_keeps_implication epsilon _ _
      (fun h => absurd h (by simp [gsWeightMapper.removeOptimization]))
  | assignMatrix self other _ _ =>
    exact optimize_keeps_implication epsilon _ _
      (fun h => absurd h (by simp [gsWeightMapper.removeOptimization]))
  | mulAssign self product _ _ =>
    intro h
    exact absurd h (by simp [gsWeightMapper.mulAssign, gsWeightMapper.removeOptimization])

/-- With the target-to-source bit in the argument, `optimize` leaves both flags set,
whatever the state was. -/
theorem optimize_both_flags (epsilon : ℚ) (self : gsWeightMapper) (flags : Nat)
    (hf : flags &&& optTargetToSource ≠ 0) :
    (self.optimize epsilon flags).getOptimizationFlags =
      optSourceToTarget ||| optTargetToSource := by
  obtain ⟨h1, _, h3⟩ := optimize_state epsilon self flags
  have hb := (and_optTargetToSource_ne_zero flags).mp hf
  rw [hb] at h1 h3
  simp only [Bool.or_true] at h1 h3
  simp only [gsWeightMapper.getOptimizationFlags, h1, h3]
  decide

/-- The flags reported after `optimize` contain the flags reported before. -/
theorem optimize_keeps_flags (epsilon : ℚ) (self : gsWeightMapper) (flags : Nat) :
    (self.optimize epsilon flags).getOptimizationFlags &&& self.getOptimizationFlags =
      self.getOptimizationFlags := by
  obtain ⟨h1, _, h3⟩ := optimize_state epsilon self flags
  simp only [gsWeightMapper.getOptimizationFlags, h1, h3]
  cases self.m_matrix.isCompressed <;> cases self.m_optimizationMatrix.isSome <;>
    cases flags.testBit 0 <;> cases flags.testBit 1 <;> decide

/-- A second `optimize` with the same argument changes nothing. -/
theorem optimize_idempotent (epsilon : ℚ) (self : gsWeightMapper) (flags : Nat) :
    (self.optimize epsilon flags).optimize epsilon flags = self.optimize epsilon flags := by
  obtain ⟨h1, _, h3⟩ := optimize_state epsilon self flags
  obtain ⟨hs, ht⟩ := optimize_tests (self.optimize epsilon flags) flags
  have n1 : ¬ ((((flags ||| (if flags &&& optTargetToSource ≠ 0 then optSourceToTarget
      else 0)) &&& sizeNot (self.optimize epsilon flags).getOptimizationFlags) &&&
      optSourceToTarget ≠ 0)) := by
    intro h
    obtain ⟨hb, hc⟩ := hs.mp h
    rw [h3] at hc
    rcases hb with hb | hb <;> simp [hb] at hc
  have n2 : ¬ ((((flags ||| (if flags &&& optTargetToSource ≠ 0 then optSourceToTarget
      else 0)) &&& sizeNot (self.optimize epsilon flags).getOptimizationFlags) &&&
      optTargetToSource ≠ 0)) := by
    intro h
    obtain ⟨hb, hc⟩ := ht.mp h
    rw [h1, hb] at hc
    simp at hc
  generalize self.optimize epsilon flags = S at n1 n2 ⊢
  simp only [gsWeightMapper.optimize]
  rw [if_neg n1, if_neg n2]

/-- C21: in every state of a `gsWeightMapper` reachable from a constructor through
`optimize` (with any flag word), `setEntry`, the copy assignment (from another object
or from itself), the matrix assignment and `operator*=`, the flag `optTargetToSource` is reported by `getOptimizationFlags()`
only together with `optSourceToTarget`; `optimize(flags)` with the `optTargetToSource`
bit in `flags` yields both flags, `optimize` clears no flag that was set, and a second
`optimize(flags)` leaves the state, hence the flags, of the first. -/
theorem reachable_flags_invariant (epsilon : ℚ) (self : gsWeightMapper) (flags : Nat)
    (h : gsWeightMapper.Reachable epsilon self) :
    (self.getOptimizationFlags &&& optTargetToSource ≠ 0 →
      self.getOptimizationFlags &&& optSourceToTarget ≠ 0) ∧
    (flags &&& optTargetToSource ≠ 0 →
      (self.optimize epsilon flags).getOptimizationFlags =
        optSourceToTarget ||| optTargetToSource) ∧
    (self.optimize epsilon flags).getOptimizationFlags &&& self.getOptimizationFlags =
      self.getOptimizationFlags ∧
    (self.optimize epsilon flags).optimize epsilon flags = self.optimize epsilon flags ∧
    ((self.optimize epsilon flags).optimize epsilon flags).getOptimizationFlags =
      (self.optimize epsilon flags).getOptimizationFlags :=
  ⟨(flags_implication_iff self).mpr (reachable_implication epsilon self h),
    optimize_both_flags epsilon self flags,
    optimize_keeps_flags epsilon self flags,
    optimize_idempotent epsilon self flags,
    by rw [optimize_idempotent]⟩

theorem builtMapper_reachable : gsWeightMapper.Reachable 0 builtMapper :=
  gsWeightMapper.Reachable.optimize _ _
    (gsWeightMapper.Reachable.setEntry _ _ _ _
      (gsWeightMapper.Reachable.setEntry _ _ _ _
        (gsWeightMapper.Reachable.ctorSized _ _ _)))

theorem reachable_flags_invariant_witness :
    gsWeightMapper.Reachable 0 builtMapper ∧
    builtMapper.getOptimizationFlags = 3 ∧
    (builtMapper.getOptimizationFlags &&& optTargetToSource ≠ 0 →
      builtMapper.getOptimizationFlags &&& optSourceToTarget ≠ 0) ∧
    (optTargetToSource &&& optTargetToSource ≠ 0 →
      (builtMapper.optimize 0 optTargetToSource).getOptimizationFlags =
        optSourceToTarget ||| optTargetToSource) ∧
    (builtMapper.optimize 0 optTargetToSource).getOptimizationFlags &&&
      builtMapper.getOptimizationFlags = builtMapper.getOptimizationFlags ∧
    (builtMapper.optimize 0 optTargetToSource).optimize 0 optTargetToSource =
      builtMapper.optimize 0 optTargetToSource ∧
    ((builtMapper.optimize 0 optTargetToSource).optimize 0
      optTargetToSource).getOptimizationFlags =
      (builtMapper.optimize 0 optTargetToSource).getOptimizationFlags :=
  ⟨builtMapper_reachable, by decide,
    reachable_flags_invariant 0 builtMapper optTargetToSource builtMapper_reachable⟩

/-! ### The compile-time dispatch -/

/-- C22: for every pair of template flags `(_coarsen, _admissible)` exactly one of the
four `std::enable_if` conditions guarding the overloads of `_markFraction_impl` is true,
and likewise for `_markPercentage_impl` and `_markThreshold_impl`; overload resolution
therefore selects one overload, neither failing nor being ambiguous, and the dispatchers
`_markFraction`, `_markPercentage` and `_markThreshold` run exactly that overload. -/
theorem markImpl_dispatch_unique (coarsen admissible : Bool) :
    ((_markFraction_impl_guards coarsen admissible).count true = 1 ∧
      (_markPercentage_impl_guards coarsen admissible).count true = 1 ∧
      (_markThreshold_impl_guards coarsen admissible).count true = 1) ∧
    (∃ i, i < 4 ∧
      viableOverloads (_markFraction_impl_guards coarsen admissible) = [i] ∧
      viableOverloads (_markPercentage_impl_guards coarsen admissible) = [i] ∧
      viableOverloads (_markThreshold_impl_guards coarsen admissible) = [i] ∧
      selectOverload (_markFraction_impl_guards coarsen admissible) = Except.ok i ∧
      selectOverload (_markPercentage_impl_guards coarsen admissible) = Except.ok i ∧
      selectOverload (_markThreshold_impl_guards coarsen admissible) = Except.ok i) ∧
    (∀ (ext : External) (self : gsAdaptiveMeshing) (elements : boxMapType)
        (refParameter : ℚ) (predicates : List gsHBoxCheck) (elMarked : HBoxContainer),
      _markFraction_call coarsen admissible ext self elements refParameter predicates
          elMarked =
        Except.ok (_markFraction coarsen admissible ext self elements refParameter
          predicates elMarked) ∧
      _markPercentage_call coarsen admissible ext self elements refParameter predicates
          elMarked =
        Except.ok (_markPercentage coarsen admissible ext self elements refParameter
          predicates elMarked) ∧
      _markThreshold_call coarsen admissible ext self elements refParameter predicates
          elMarked =
        Except.ok (_markThreshold coarsen admissible ext self elements refParameter
          predicates elMarked)) := by
  cases coarsen <;> cases admissible
  · exact ⟨by decide, ⟨3, by decide, rfl, rfl, rfl, rfl, rfl, rfl⟩,
      fun _ _ _ _ _ _ => ⟨rfl, rfl, rfl⟩⟩
  · exact ⟨by decide, ⟨2, by decide, rfl, rfl, rfl, rfl, rfl, rfl⟩,
      fun _ _ _ _ _ _ => ⟨rfl, rfl, rfl⟩⟩
  · exact ⟨by decide, ⟨1, by decide, rfl, rfl, rfl, rfl, rfl, rfl⟩,
      fun _ _ _ _ _ _ => ⟨rfl, rfl, rfl⟩⟩
  · exact ⟨by decide, ⟨0, by decide, rfl, rfl, rfl, rfl, rfl, rfl⟩,
      fun _ _ _ _ _ _ => ⟨rfl, rfl, rfl⟩⟩

/-! ### Marking with admissibility on the graded mesh

The engine `peakEngine` works on `gradedMesh` with maximum level 2 and jump parameter 1;
the error vector `peakErrors` puts the largest error on the level-1 box `[1,1]-[2,2]`,
which touches the three level-0 boxes.  Each rule selects this box alone; refining it
would leave a jump of two levels to its level-0 neighbours, so the closure marks them
as well. -/

end gismo
